import Mathlib

/-!
# Mermaid line chart to draw.io converter (`src/converter.js`)

A shallow embedding of the three stages of `converter.js`

* `parseMermaid`      : chart text → chart model,
* `calculateGeometry` : chart model → pixel coordinates,
* `generateDrawioXML` : chart model and geometry → the tree of `mxCell` primitives,

followed by theorems about them.

Modelling conventions.

* JavaScript strings are lists of characters (`List Char`) while they are being
  scanned and `String` once they are stored in the model.
* JavaScript numbers are modelled by `JSNum`: the rational value of a finite binary64
  number, or one of the three special values `NaN`, `Infinity`, `-Infinity`.  Every
  arithmetic operation and every numeral that is read rounds its exact result to the
  nearest binary64 number, ties to even (`toBinary64`), and overflows to an infinity
  from `2^1024 - 2^970` on, as IEEE 754 prescribes.  The sign of zero is not modelled;
  the only divisors in the program are `yRange = max - min` (never `-0`),
  `xAxis.length - 1` and `5`.
* The document is modelled as the list of `mxCell` elements appended to `root`, in
  order; the final `root.end(...)` call of the `xmlbuilder2` library, which prints the
  tree, is outside the embedding.  The time stamp `new Date().toISOString()` is an
  explicit argument.
-/

namespace Converter

/-! ## Rounding to binary64 -/

/-- The number of binary digits of `n`, with `fuel` halvings allowed. -/
def bitLengthAux : ℕ → ℕ → ℕ
  | 0, _ => 0
  | fuel + 1, n => if n = 0 then 0 else bitLengthAux fuel (n / 2) + 1

/-- The number of binary digits of `n` (`0` for `0`). -/
def bitLength (n : ℕ) : ℕ := bitLengthAux n n

/-- The binary exponent of a positive rational `a`: the `e` with `2^e ≤ a < 2^(e+1)`. -/
def binade (a : ℚ) : ℤ :=
  if (2 : ℚ) ^ ((bitLength a.num.natAbs : ℤ) - (bitLength a.den : ℤ)) ≤ a then
    (bitLength a.num.natAbs : ℤ) - (bitLength a.den : ℤ)
  else (bitLength a.num.natAbs : ℤ) - (bitLength a.den : ℤ) - 1

/-- The exponent of the unit in the last place of the binary64 numbers around `q`:
53 significant bits, and no exponent below `-1074` (the subnormal range). -/
def quantum (q : ℚ) : ℤ := max (binade |q| - 52) (-1074)

/-- The integer nearest to `x`, the even one on a tie. -/
def roundHalfEven (x : ℚ) : ℤ :=
  if x - ⌊x⌋ < 1 / 2 then ⌊x⌋
  else if 1 / 2 < x - ⌊x⌋ then ⌊x⌋ + 1
  else if ⌊x⌋ % 2 = 0 then ⌊x⌋ else ⌊x⌋ + 1

/-- The multiple of the unit in the last place nearest to `q` (ties to even): the
binary64 number nearest to `q` when the exponent range is unbounded above. -/
def nearest (q : ℚ) : ℚ :=
  if q = 0 then 0 else (roundHalfEven (q / 2 ^ quantum q) : ℚ) * 2 ^ quantum q

/-! ## JavaScript numbers -/

/-- A JavaScript number: a finite value (the rational value of a binary64 number),
`NaN`, `Infinity` or `-Infinity`. -/
inductive JSNum
  | fin (q : ℚ)
  | nan
  | posInf
  | negInf
  deriving DecidableEq

/-- The Number value of the rational `q`: the nearest binary64 number, an infinity when
the rounded value leaves the finite range. -/
def toBinary64 (q : ℚ) : JSNum :=
  if 2 ^ 1024 ≤ nearest q then .posInf
  else if nearest q ≤ -2 ^ 1024 then .negInf
  else .fin (nearest q)

namespace JSNum

/-- Unary minus. -/
def neg : JSNum → JSNum
  | fin q => fin (-q)
  | nan => nan
  | posInf => negInf
  | negInf => posInf

/-- The `+` of JavaScript numbers. -/
def add : JSNum → JSNum → JSNum
  | fin a, fin b => toBinary64 (a + b)
  | fin _, posInf => posInf
  | fin _, negInf => negInf
  | posInf, fin _ => posInf
  | posInf, posInf => posInf
  | negInf, fin _ => negInf
  | negInf, negInf => negInf
  | _, _ => nan

/-- The `-` of JavaScript numbers. -/
def sub (a b : JSNum) : JSNum := add a (neg b)

/-- An infinity with the sign of the rational `q` times the sign given by `pos`;
`NaN` when `q = 0` (the product `0 * Infinity`). -/
def infTimes (pos : Bool) (q : ℚ) : JSNum :=
  if q = 0 then nan else if (0 < q) = pos then posInf else negInf

/-- The `*` of JavaScript numbers. -/
def mul : JSNum → JSNum → JSNum
  | fin a, fin b => toBinary64 (a * b)
  | fin a, posInf => infTimes true a
  | fin a, negInf => infTimes false a
  | posInf, fin b => infTimes true b
  | negInf, fin b => infTimes false b
  | posInf, posInf => posInf
  | negInf, negInf => posInf
  | posInf, negInf => negInf
  | negInf, posInf => negInf
  | _, _ => nan

/-- The `/` of JavaScript numbers.  A zero divisor is the positive zero. -/
def div : JSNum → JSNum → JSNum
  | fin a, fin b =>
    if b = 0 then (if a = 0 then nan else if 0 < a then posInf else negInf)
    else toBinary64 (a / b)
  | fin _, posInf => fin 0
  | fin _, negInf => fin 0
  | posInf, fin b => if 0 ≤ b then posInf else negInf
  | negInf, fin b => if 0 ≤ b then negInf else posInf
  | _, _ => nan

/-- The comparison `a < b` of JavaScript numbers (false as soon as one side is `NaN`). -/
def lt : JSNum → JSNum → Bool
  | fin a, fin b => decide (a < b)
  | fin _, posInf => true
  | negInf, fin _ => true
  | negInf, posInf => true
  | _, _ => false

/-- The comparison `a <= b` of JavaScript numbers (false as soon as one side is `NaN`). -/
def le : JSNum → JSNum → Bool
  | fin a, fin b => decide (a ≤ b)
  | fin _, posInf => true
  | negInf, fin _ => true
  | negInf, negInf => true
  | negInf, posInf => true
  | posInf, posInf => true
  | _, _ => false

/-- A natural number (an array index, an array length, a numeric literal) as a
JavaScript number. -/
def ofNat (n : Nat) : JSNum := toBinary64 n

instance : Add JSNum := ⟨add⟩
instance : Sub JSNum := ⟨sub⟩
instance : Mul JSNum := ⟨mul⟩
instance : Div JSNum := ⟨div⟩
instance (n : Nat) : OfNat JSNum n := ⟨ofNat n⟩

end JSNum

/-- The result of `Math.round`: an integer, or one of the special values, which
`Math.round` returns unchanged. -/
inductive Rounded
  | int (z : ℤ)
  | nan
  | posInf
  | negInf
  deriving DecidableEq

/-- `Math.round(x)`: the integer nearest to `x`, the larger one on a tie, that is
`floor(x + 0.5)`. -/
def mathRound : JSNum → Rounded
  | .fin q => .int ⌊q + 1 / 2⌋
  | .nan => .nan
  | .posInf => .posInf
  | .negInf => .negInf

/-- A `Math.round` result used as a number again. -/
def Rounded.toNum : Rounded → JSNum
  | .int z => .fin z
  | .nan => .nan
  | .posInf => .posInf
  | .negInf => .negInf

/-- The candidate with `k` significant digits for the decimal rendering of the natural
number `x` of `n` digits: of the two multiples of `10^(n-k)` next to `x`, one whose Number
value is `x`; the nearer to `x` when both qualify, the one with the even last digit on a
tie. -/
def digitCandidate (x n k : ℕ) : Option ℕ :=
  if toBinary64 ((x / 10 ^ (n - k) * 10 ^ (n - k) : ℕ) : ℚ) = JSNum.fin x then
    if toBinary64 ((x / 10 ^ (n - k) * 10 ^ (n - k) + 10 ^ (n - k) : ℕ) : ℚ) = JSNum.fin x then
      (if 2 * (x % 10 ^ (n - k)) < 10 ^ (n - k) then some (x / 10 ^ (n - k) * 10 ^ (n - k))
       else if 10 ^ (n - k) < 2 * (x % 10 ^ (n - k)) then
         some (x / 10 ^ (n - k) * 10 ^ (n - k) + 10 ^ (n - k))
       else if x / 10 ^ (n - k) % 2 = 0 then some (x / 10 ^ (n - k) * 10 ^ (n - k))
       else some (x / 10 ^ (n - k) * 10 ^ (n - k) + 10 ^ (n - k)))
    else some (x / 10 ^ (n - k) * 10 ^ (n - k))
  else if toBinary64 ((x / 10 ^ (n - k) * 10 ^ (n - k) + 10 ^ (n - k) : ℕ) : ℚ) = JSNum.fin x then
    some (x / 10 ^ (n - k) * 10 ^ (n - k) + 10 ^ (n - k))
  else none

/-- The shortest decimal for the natural number `x`, as `Number::toString` chooses it: the
least number `k` of significant digits for which some `s * 10^(n-k)` has the Number value
`x`, with that value of `s * 10^(n-k)`. -/
def shortestDecimal (x : ℕ) : Option (ℕ × ℕ) :=
  (List.range' 1 (Nat.toDigits 10 x).length).findSome?
    (fun k => (digitCandidate x (Nat.toDigits 10 x).length k).map (fun v => (v, k)))

/-- `Number::toString` on a non-negative integer: the shortest decimal, written out in
full below `10^21` and in exponent notation from there on. -/
def renderNat (x : ℕ) : String :=
  match shortestDecimal x with
  | none => toString x
  | some (v, k) =>
    if v < 10 ^ 21 then toString v
    else if k = 1 then
      String.mk ((Nat.toDigits 10 v).take 1) ++ "e+" ++ toString ((Nat.toDigits 10 v).length - 1)
    else
      String.mk ((Nat.toDigits 10 v).take 1) ++ "." ++
        String.mk (((Nat.toDigits 10 v).take k).drop 1) ++ "e+" ++
        toString ((Nat.toDigits 10 v).length - 1)

/-- `Number.prototype.toString()` on a `Math.round` result. -/
def Rounded.toString : Rounded → String
  | .int z => if z < 0 then "-" ++ renderNat z.natAbs else renderNat z.natAbs
  | .nan => "NaN"
  | .posInf => "Infinity"
  | .negInf => "-Infinity"

/-! ## JavaScript string operations -/

/-- The double-quote character. -/
def dquote : Char := Char.ofNat 34

/-- The line feed character, on which `content.split` cuts. -/
def newline : Char := Char.ofNat 10

/-- ECMAScript `LineTerminator`: LF, CR, LS, PS.  The regular expression atom `.`
matches every character but these. -/
def isLineTerminator (c : Char) : Bool :=
  c.toNat == 0x0A || c.toNat == 0x0D || c.toNat == 0x2028 || c.toNat == 0x2029

/-- ECMAScript `WhiteSpace` or `LineTerminator`: what `String.prototype.trim` strips,
what `\s` matches, and what `parseFloat` skips at the start. -/
def isJsSpace (c : Char) : Bool :=
  c.toNat == 0x09 || c.toNat == 0x0B || c.toNat == 0x0C || c.toNat == 0x20 ||
  c.toNat == 0xA0 || c.toNat == 0x1680 || (0x2000 ≤ c.toNat && c.toNat ≤ 0x200A) ||
  c.toNat == 0x202F || c.toNat == 0x205F || c.toNat == 0x3000 || c.toNat == 0xFEFF ||
  isLineTerminator c

/-- The regular expression class `\d`: the ten ASCII digits. -/
def isDigit (c : Char) : Bool := 48 ≤ c.toNat && c.toNat ≤ 57

/-- `s.trim()`. -/
def trim (s : List Char) : List Char :=
  ((s.dropWhile isJsSpace).reverse.dropWhile isJsSpace).reverse

/-- `s.replace(pat, '')` for a string pattern `pat`: the first occurrence of `pat`
is removed. -/
def removeFirst (pat : List Char) : List Char → List Char
  | [] => []
  | c :: cs => if pat.isPrefixOf (c :: cs) then (c :: cs).drop pat.length
               else c :: removeFirst pat cs

/-- The lazy group `(.*?)` followed by the literal `close`: the characters up to the
first `close`, provided no line terminator comes before it. -/
def lazyUntil (close : Char) : List Char → Option (List Char)
  | [] => none
  | c :: cs =>
    if c = close then some []
    else if isLineTerminator c then none
    else (lazyUntil close cs).map (c :: ·)

/-- The first match of a regular expression `open (.*?) close` with one-character
literals `open` and `close`; the result is the captured group.  The match starts at the
leftmost `open` from which the lazy group reaches a `close`. -/
def matchDelimited (opening close : Char) : List Char → Option (List Char)
  | [] => none
  | c :: cs =>
    if c = opening then
      match lazyUntil close cs with
      | some inner => some inner
      | none => matchDelimited opening close cs
    else matchDelimited opening close cs

/-- `line.match(/\[(.*?)\]/)`, group 1. -/
def matchBracket (line : List Char) : Option (List Char) := matchDelimited '[' ']' line

/-- `parts.match(/"(.*?)"/)`, group 1. -/
def matchQuoted (parts : List Char) : Option (List Char) := matchDelimited dquote dquote parts

/-- An attempt to match `(\d+)\s*-->\s*(\d+)` at the start of `s`; the result is the
pair of captured groups.  Each of `\d+`, `\s*` is greedy and giving back a character
never helps (the next thing to match is of a different class), so the attempt is
deterministic: the longest run of digits, the longest run of white space, the arrow,
the longest run of white space, the longest run of digits. -/
def matchRangeAt (s : List Char) : Option (List Char × List Char) :=
  let d1 := s.takeWhile isDigit
  if d1 = [] then none
  else
    match ((s.dropWhile isDigit).dropWhile isJsSpace) with
    | '-' :: '-' :: '>' :: r =>
      let d2 := (r.dropWhile isJsSpace).takeWhile isDigit
      if d2 = [] then none else some (d1, d2)
    | _ => none

/-- `parts.match(/(\d+)\s*-->\s*(\d+)/)`, groups 1 and 2: the attempt at the leftmost
position that succeeds. -/
def matchRange : List Char → Option (List Char × List Char)
  | [] => none
  | c :: cs =>
    match matchRangeAt (c :: cs) with
    | some r => some r
    | none => matchRange cs

/-- The value of a run of decimal digits. -/
def decimalValue (ds : List Char) : Nat :=
  ds.foldl (fun acc c => 10 * acc + (c.toNat - 48)) 0

/-- The exponent part of a `StrDecimalLiteral`: `e` or `E`, an optional sign and at
least one digit; `0` when the text does not start with a complete exponent part. -/
def exponentPart : List Char → ℤ
  | [] => 0
  | c :: r =>
    if c = 'e' ∨ c = 'E' then
      match r with
      | '-' :: r1 =>
        if r1.takeWhile isDigit = [] then 0 else - (decimalValue (r1.takeWhile isDigit) : ℤ)
      | '+' :: r1 => (decimalValue (r1.takeWhile isDigit) : ℤ)
      | _ => (decimalValue (r.takeWhile isDigit) : ℤ)
    else 0

/-- The unsigned part of `parseFloat`: `Infinity`, or digits with an optional fraction
and exponent (`12`, `12.`, `12.5`, `.5`, `1e3`); `NaN` when no prefix has that shape. -/
def parseUnsigned (s : List Char) : JSNum :=
  if "Infinity".toList.isPrefixOf s then .posInf
  else
    let ip := s.takeWhile isDigit
    let r1 := s.dropWhile isDigit
    let fp := match r1 with
      | '.' :: r => r.takeWhile isDigit
      | _ => []
    let r2 := match r1 with
      | '.' :: r => r.dropWhile isDigit
      | _ => r1
    if ip = [] ∧ fp = [] then .nan
    else toBinary64 ((decimalValue (ip ++ fp) : ℚ) * (10 : ℚ) ^ (exponentPart r2 - (fp.length : ℤ)))

/-- `parseFloat(s)`: leading white space is skipped, then the longest prefix that is a
decimal literal is read; the result is the Number value of that literal. -/
def parseFloat (s : List Char) : JSNum :=
  match s.dropWhile isJsSpace with
  | '-' :: r => (parseUnsigned r).neg
  | '+' :: r => parseUnsigned r
  | r => parseUnsigned r

/-! ## 1. The parser -/

/-- The field `yAxis` of the chart model. -/
structure YAxis where
  label : String
  min : JSNum
  max : JSNum
  deriving DecidableEq

/-- The chart model `chartData` built by `parseMermaid`. -/
structure ChartData where
  title : String
  xAxis : List String
  yAxis : YAxis
  dataPoints : List JSNum
  deriving DecidableEq

/-- The initial value of `chartData`. -/
def defaultChartData : ChartData :=
  { title := "Untitled Chart", xAxis := [], yAxis := { label := "", min := 0, max := 100 },
    dataPoints := [] }

/-- The `y-axis` branch of the loop body. -/
def processYAxis (chartData : ChartData) (line : List Char) : ChartData :=
  let parts := trim (removeFirst "y-axis".toList line)
  let afterRange : ChartData :=
    match matchRange parts with
    | some (lo, hi) =>
      { chartData with yAxis := { chartData.yAxis with min := parseFloat lo, max := parseFloat hi } }
    | none => chartData
  match matchQuoted parts with
  | some t => { afterRange with yAxis := { afterRange.yAxis with label := String.mk t } }
  | none => afterRange

/-- The body of `lines.forEach(line => ...)`: one trimmed, non-empty line updates the
model. -/
def processLine (chartData : ChartData) (line : List Char) : ChartData :=
  if "title".toList.isPrefixOf line then
    { chartData with
      title := String.mk (trim ((removeFirst "title".toList line).filter (· ≠ dquote))) }
  else if "x-axis".toList.isPrefixOf line then
    match matchBracket line with
    | some inner =>
      { chartData with xAxis := (inner.splitOn ',').map (fun s => String.mk (trim s)) }
    | none => chartData
  else if "y-axis".toList.isPrefixOf line then
    processYAxis chartData line
  else if "line".toList.isPrefixOf line then
    match matchBracket line with
    | some inner =>
      { chartData with dataPoints := (inner.splitOn ',').map (fun s => parseFloat (trim s)) }
    | none => chartData
  else chartData

/-- The array `lines` of `parseMermaid`: the input cut at line feeds, each piece
trimmed, empty pieces dropped. -/
def splitLines (content : String) : List (List Char) :=
  ((content.toList.splitOn newline).map trim).filter (fun l => 0 < l.length)

/-- The function `parseMermaid(content)`. -/
def parseMermaid (content : String) : ChartData :=
  (splitLines content).foldl processLine defaultChartData

/-! ## 2. The mapper -/

/-- A plotted point `{ x, y }`. -/
structure Point where
  x : JSNum
  y : JSNum
  deriving DecidableEq

/-- The object `{ points, width, height, padding }` returned by `calculateGeometry`. -/
structure Geometry where
  points : List Point
  width : JSNum
  height : JSNum
  padding : JSNum
  deriving DecidableEq

/-- The canvas constant `width`. -/
def width : JSNum := 600

/-- The canvas constant `height`. -/
def height : JSNum := 400

/-- The canvas constant `padding`. -/
def padding : JSNum := 60

/-- The constant `xOffset`: the inset that keeps points off the axis lines. -/
def xOffset : JSNum := 30

/-- The constant `graphWidth = width - (padding * 2)`. -/
def graphWidth : JSNum := width - (padding * 2)

/-- The constant `graphHeight = height - (padding * 2)`. -/
def graphHeight : JSNum := height - (padding * 2)

/-- The constant `usableWidth = graphWidth - (xOffset * 2)`. -/
def usableWidth : JSNum := graphWidth - (xOffset * 2)

/-- The local `xStep` of `calculateGeometry`. -/
def xStep (chartData : ChartData) : JSNum :=
  if chartData.xAxis.length > 1 then
    usableWidth / (JSNum.ofNat chartData.xAxis.length - 1)
  else usableWidth

/-- The function `calculateGeometry(chartData)`. -/
def calculateGeometry (chartData : ChartData) : Geometry :=
  let yRange := chartData.yAxis.max - chartData.yAxis.min
  let points := chartData.dataPoints.mapIdx (fun index val =>
    let x := padding + xOffset + (JSNum.ofNat index * xStep chartData)
    let normalizedY := (val - chartData.yAxis.min) / yRange
    let y := (height - padding) - (normalizedY * graphHeight)
    ({ x := x, y := y } : Point))
  { points := points, width := width, height := height, padding := padding }

/-! ## 3. The document builder -/

/-- An attribute value handed to the XML builder: a string or a number. -/
inductive Attr
  | str (s : String)
  | num (n : JSNum)
  deriving DecidableEq

/-- An `mxPoint` child of an edge geometry. -/
structure MxPoint where
  x : JSNum
  y : JSNum
  deriving DecidableEq

/-- The `mxGeometry` child of an `mxCell`: none (the two default parents), the
source and target points of an edge, or the box of a vertex. -/
inductive MxGeometry
  | absent
  | edge (sourcePoint targetPoint : MxPoint)
  | box (x y : JSNum) (width height : Attr)
  deriving DecidableEq

/-- One `mxCell` element: a primitive of the document.  An attribute the program does
not set, or sets to `undefined`, is `none`. -/
structure MxCell where
  id : String
  value : Option Attr
  style : Option String
  parent : Option String
  vertex : Bool
  edge : Bool
  geometry : MxGeometry
  deriving DecidableEq

/-- The document: the `modified` attribute of `mxfile` and the `mxCell` children of
`root`, in the order in which they are appended.  The other attributes of `mxfile`,
`diagram` and `mxGraphModel` are constants. -/
structure Document where
  modified : String
  cells : List MxCell
  deriving DecidableEq

/-- An edge cell (`edge: '1'`, `value: ''`, `parent: '1'`). -/
def edgeCell (id style : String) (source target : MxPoint) : MxCell :=
  { id := id, value := some (.str ""), style := some style, parent := some "1",
    vertex := false, edge := true, geometry := .edge source target }

/-- A vertex cell (`vertex: '1'`, `parent: '1'`). -/
def vertexCell (id : String) (value : Option Attr) (style : String) (x y : JSNum)
    (w h : Attr) : MxCell :=
  { id := id, value := value, style := some style, parent := some "1",
    vertex := true, edge := false, geometry := .box x y w h }

/-- The style of the two axis lines. -/
def axisStyle : String :=
  "endArrow=classic;html=1;rounded=0;strokeWidth=2;startSize=8;endSize=8;"

/-- The two default parents `0` and `1`, then `axis-y` and `axis-x`. -/
def frameCells (geometry : Geometry) : List MxCell :=
  [ { id := "0", value := none, style := none, parent := none, vertex := false, edge := false,
      geometry := .absent },
    { id := "1", value := none, style := none, parent := some "0", vertex := false,
      edge := false, geometry := .absent },
    edgeCell "axis-y" axisStyle
      ⟨geometry.padding, geometry.height - geometry.padding⟩
      ⟨geometry.padding, geometry.padding⟩,
    edgeCell "axis-x" axisStyle
      ⟨geometry.padding, geometry.height - geometry.padding⟩
      ⟨geometry.width - geometry.padding, geometry.height - geometry.padding⟩ ]

/-- The cell `xlabel-i` of the label `label` under the point `p`. -/
def xLabelCell (geometry : Geometry) (i : Nat) (label : String) (p : Point) : MxCell :=
  vertexCell ("xlabel-" ++ toString i) (some (.str label))
    "text;html=1;strokeColor=none;fillColor=none;align=center;verticalAlign=top;whiteSpace=wrap;rounded=0;"
    (p.x - 20) (geometry.height - geometry.padding + 5) (.str "40") (.str "20")

/-- The cells made by `chartData.xAxis.forEach((label, i) => ...)`. -/
def xLabelCells (chartData : ChartData) (geometry : Geometry) : List MxCell :=
  (chartData.xAxis.mapIdx (fun i label =>
    if i < geometry.points.length then
      match geometry.points[i]? with
      | some p => [xLabelCell geometry i label p]
      | none => []
    else [])).flatten

/-- The number of steps of the value axis. -/
def steps : Nat := 5

/-- The local `value` of tick `i`: `Math.round(min + (yRange * (i/steps)))`. -/
def tickValue (chartData : ChartData) (i : Nat) : Rounded :=
  let yRange := chartData.yAxis.max - chartData.yAxis.min
  mathRound (chartData.yAxis.min + (yRange * (JSNum.ofNat i / JSNum.ofNat steps)))

/-- The local `yPos` of tick `i`. -/
def tickYPos (chartData : ChartData) (geometry : Geometry) (i : Nat) : JSNum :=
  let yRange := chartData.yAxis.max - chartData.yAxis.min
  let normalizedY := ((tickValue chartData i).toNum - chartData.yAxis.min) / yRange
  (geometry.height - geometry.padding) -
    (normalizedY * (geometry.height - (geometry.padding * 2)))

/-- The cell `ylabel-i`. -/
def yLabelCell (chartData : ChartData) (geometry : Geometry) (i : Nat) : MxCell :=
  vertexCell ("ylabel-" ++ toString i) (some (.str (tickValue chartData i).toString))
    "text;html=1;strokeColor=none;fillColor=none;align=right;verticalAlign=middle;whiteSpace=wrap;rounded=0;"
    (geometry.padding - 45) (tickYPos chartData geometry i - 10) (.str "40") (.str "20")

/-- The cell `grid-i`. -/
def gridCell (chartData : ChartData) (geometry : Geometry) (i : Nat) : MxCell :=
  edgeCell ("grid-" ++ toString i) "endArrow=none;html=1;rounded=0;strokeColor=#E0E0E0;dashed=1;"
    ⟨geometry.padding, tickYPos chartData geometry i⟩
    ⟨geometry.width - geometry.padding, tickYPos chartData geometry i⟩

/-- The cells made by the loop `for (let i = 0; i <= steps; i++)`. -/
def tickCells (chartData : ChartData) (geometry : Geometry) : List MxCell :=
  ((List.range (steps + 1)).map (fun i =>
    yLabelCell chartData geometry i ::
      (if i > 0 then [gridCell chartData geometry i] else []))).flatten

/-- The cell `line-i` from `p1` to `p2`. -/
def lineCell (i : Nat) (p1 p2 : Point) : MxCell :=
  edgeCell ("line-" ++ toString i) "endArrow=none;html=1;rounded=0;strokeWidth=2;strokeColor=#0066CC;"
    ⟨p1.x, p1.y⟩ ⟨p2.x, p2.y⟩

/-- The cell `point-i` at `p1`; its value is `chartData.dataPoints[i]`. -/
def pointCell (chartData : ChartData) (i : Nat) (p1 : Point) : MxCell :=
  vertexCell ("point-" ++ toString i) (chartData.dataPoints[i]?.map Attr.num)
    "ellipse;whiteSpace=wrap;html=1;aspect=fixed;fillColor=#FF0000;strokeColor=none;verticalLabelPosition=top;verticalAlign=bottom;fontSize=11;fontStyle=1;labelBackgroundColor=#ffffff;"
    (p1.x - 4) (p1.y - 4) (.str "8") (.str "8")

/-- One turn of the loop `for (let i = 0; i < geometry.points.length; i++)`: the line
to the next point when there is one, then the point marker.  (`geometry.points[i]` is
defined for every `i` the loop reaches.) -/
def seriesStep (chartData : ChartData) (geometry : Geometry) (i : Nat) : List MxCell :=
  match geometry.points[i]? with
  | none => []
  | some p1 =>
    (if i < geometry.points.length - 1 then
      match geometry.points[i + 1]? with
      | some p2 => [lineCell i p1 p2]
      | none => []
    else []) ++ [pointCell chartData i p1]

/-- The cells made by the loop over `geometry.points`. -/
def seriesCells (chartData : ChartData) (geometry : Geometry) : List MxCell :=
  ((List.range geometry.points.length).map (seriesStep chartData geometry)).flatten

/-- The cell `title`. -/
def titleCell (chartData : ChartData) (geometry : Geometry) : MxCell :=
  vertexCell "title" (some (.str chartData.title))
    "text;html=1;strokeColor=none;fillColor=none;align=center;verticalAlign=middle;whiteSpace=wrap;rounded=0;fontSize=18;fontStyle=1"
    geometry.padding 10 (.num (geometry.width - (geometry.padding * 2))) (.str "30")

/-- The function `generateDrawioXML(chartData, geometry)`, up to the printing of the
tree; `now` is the value of `new Date().toISOString()`. -/
def generateDrawioXML (now : String) (chartData : ChartData) (geometry : Geometry) : Document :=
  { modified := now,
    cells := frameCells geometry ++ xLabelCells chartData geometry ++
      tickCells chartData geometry ++ seriesCells chartData geometry ++
      [titleCell chartData geometry] }

/-- The conversion done by the command line action: parse, map, build. -/
def convert (now : String) (content : String) : Document :=
  generateDrawioXML now (parseMermaid content) (calculateGeometry (parseMermaid content))

/-! ## Reading the document -/

/-- The identifier of the cell `c` starts with `tag`. -/
def hasTag (tag : String) (c : MxCell) : Bool := tag.toList.isPrefixOf c.id.toList

/-- The cells whose identifier starts with `tag`. -/
def cellsTagged (tag : String) (doc : Document) : List MxCell :=
  doc.cells.filter (hasTag tag)

/-- The first character of the identifier of a cell. -/
def idHead (c : MxCell) : Option Char := c.id.toList.head?

/-- The cells of a document whose identifier is `id`. -/
def cellsWithId (id : String) (doc : Document) : List MxCell :=
  doc.cells.filter (fun c => c.id == id)

/-- The `title` directives among the lines of a text: the trimmed, non-empty lines that
start with `title`. -/
def titleLines (content : String) : List (List Char) :=
  (splitLines content).filter (fun l => "title".toList.isPrefixOf l)

/-- The point markers of a document: the cells `point-<i>`. -/
def pointMarkers (doc : Document) : List MxCell := cellsTagged "point-" doc

/-- The connecting lines of a document: the cells `line-<i>`. -/
def connectingLines (doc : Document) : List MxCell := cellsTagged "line-" doc

/-! ## Notions used in the statements -/

/-- The text of the Sales scenario. -/
def salesText : String :=
  "xychart-beta\n  title \"Sales\"\n  x-axis [Jan, Feb, Mar]\n  y-axis \"USD\" 0 --> 100\n  line [10, 50, 90]\n"

/-- The x-coordinate formula as the specification words it (section 8):
`padding + xOffset + i * (graphWidth - 2*padding - 2*xOffset)/(L-1)`. -/
def specX (L i : Nat) : JSNum :=
  padding + xOffset +
    JSNum.ofNat i * (graphWidth - 2 * padding - 2 * xOffset) / (JSNum.ofNat L - 1)

/-- A chart with two categories and two values. -/
def twoPointText : String := "x-axis [a, b]\nline [1, 2]"

/-- Both bounds of the value axis are Number values of non-negative integers. -/
def NatRange (cd : ChartData) : Prop :=
  ∃ a b : ℕ, cd.yAxis.min = toBinary64 a ∧ cd.yAxis.max = toBinary64 b

/-- A chart whose value axis runs from 0 to 1. -/
def unitRangeText : String := "y-axis 0 --> 1"

/-- A chart with one category and one value. -/
def singlePointText : String := "x-axis [Jan]\ny-axis 0 --> 10\nline [5]"

/-- The title written by a `title` line. -/
def titleOf (line : List Char) : String :=
  String.mk (trim ((line.drop 5).filter (· ≠ dquote)))

/-- A text with two title directives. -/
def twoTitlesText : String := "title \"First\"\ntitle  \"Second\" chart \nline [1]"

/-- A non-empty run of ASCII digits: an unsigned decimal integer numeral. -/
def IsDigits (s : List Char) : Prop := s ≠ [] ∧ ∀ c ∈ s, isDigit c = true

/-- A run of white space, possibly empty. -/
def IsSpaces (s : List Char) : Prop := ∀ c ∈ s, isJsSpace c = true

instance (s : List Char) : Decidable (IsDigits s) :=
  inferInstanceAs (Decidable (s ≠ [] ∧ ∀ c ∈ s, isDigit c = true))

instance (s : List Char) : Decidable (IsSpaces s) :=
  inferInstanceAs (Decidable (∀ c ∈ s, isJsSpace c = true))

/-- The text `t` starts with a range `a --> b`: the digits `a`, optional white space, the
arrow, optional white space, the digits `b`. -/
def StartsWithRange (t a b : List Char) : Prop :=
  ∃ s1 s2 post, t = a ++ (s1 ++ ("-->".toList ++ (s2 ++ (b ++ post)))) ∧
    IsDigits a ∧ IsSpaces s1 ∧ IsSpaces s2 ∧ IsDigits b

/-- The first character of `t`, if any, is not a digit. -/
def NoDigitAhead (t : List Char) : Prop := ∀ c, t.head? = some c → isDigit c = false

/-- The items of a bracketed list, separated by a comma and a space. -/
def commaList (items : List (List Char)) : List Char := ", ".toList.intercalate items

/-- The line `title "T"`. -/
def titleLine (T : List Char) : List Char := "title \"".toList ++ (T ++ [dquote])

/-- The line `x-axis [c1, ..., cn]`. -/
def xAxisLine (cs : List (List Char)) : List Char := "x-axis [".toList ++ (commaList cs ++ [']'])

/-- The line `y-axis "L" a --> b`. -/
def yAxisLine (L a b : List Char) : List Char :=
  "y-axis \"".toList ++ (L ++ (dquote :: ' ' :: (a ++ (" --> ".toList ++ b))))

/-- The line `line [v1, ..., vn]`. -/
def seriesLine (vs : List (List Char)) : List Char := "line [".toList ++ (commaList vs ++ [']'])

/-- The chart text made of the four lines, in this order, separated by line feeds. -/
def chartText (T : List Char) (cs : List (List Char)) (L a b : List Char)
    (vs : List (List Char)) : String :=
  String.mk ([newline].intercalate [titleLine T, xAxisLine cs, yAxisLine L a b, seriesLine vs])

/-- The characters of a list item: no comma, no bracket, no line terminator. -/
def IsItem (s : List Char) : Prop :=
  ∀ c ∈ s, c ≠ ',' ∧ c ≠ '[' ∧ c ≠ ']' ∧ isLineTerminator c = false

instance (s : List Char) : Decidable (IsItem s) :=
  inferInstanceAs (Decidable (∀ c ∈ s, c ≠ ',' ∧ c ≠ '[' ∧ c ≠ ']' ∧ isLineTerminator c = false))

/-- A character that can be part of no range: not a digit, not white space, not `-`,
not `>`. -/
def IsBarrier (q : Char) : Prop :=
  isDigit q = false ∧ isJsSpace q = false ∧ q ≠ '-' ∧ q ≠ '>'

/-- The remainder `"L" a --> b` of a `y-axis` line. -/
def yAxisParts (L a b : List Char) : List Char :=
  dquote :: (L ++ (dquote :: ' ' :: (a ++ (" --> ".toList ++ b))))

/-- A well-formed chart text whose value-axis label contains a range of its own. -/
def rangeLabelText : String :=
  chartText "Sales".toList ["Jan".toList, "Feb".toList, "Mar".toList] "1 --> 2".toList
    "0".toList "100".toList ["10".toList, "50".toList, "90".toList]

/-! ## Directive kinds -/

/-- The kind of a trimmed line: the branch of the loop body of `parseMermaid` that
handles it. -/
inductive Kind
  | title
  | xAxis
  | yAxis
  | series
  | other
  deriving DecidableEq

/-- The kind of a trimmed line, by the chain of `startsWith` tests of the loop body. -/
def kindOf (line : List Char) : Kind :=
  if "title".toList.isPrefixOf line then .title
  else if "x-axis".toList.isPrefixOf line then .xAxis
  else if "y-axis".toList.isPrefixOf line then .yAxis
  else if "line".toList.isPrefixOf line then .series
  else .other

/-- The lines of a text as written: the pieces between line feeds, not yet trimmed. -/
def rawLines (content : String) : List (List Char) := content.toList.splitOn newline

/-- The lines of kind `k` among raw lines, in their order. -/
def linesOfKind (k : Kind) (ls : List (List Char)) : List (List Char) :=
  ls.filter (fun l => kindOf (trim l) = k)

/-- What an `x-axis` line does to the field `xAxis`. -/
def stepXAxis (xs : List String) (line : List Char) : List String :=
  match matchBracket line with
  | some inner => (inner.splitOn ',').map (fun s => String.mk (trim s))
  | none => xs

/-- What a `line` line does to the field `dataPoints`. -/
def stepSeries (ds : List JSNum) (line : List Char) : List JSNum :=
  match matchBracket line with
  | some inner => (inner.splitOn ',').map (fun s => parseFloat (trim s))
  | none => ds

/-- What a `y-axis` line does to the field `yAxis`. -/
def stepYAxis (y : YAxis) (line : List Char) : YAxis :=
  (processYAxis { defaultChartData with yAxis := y } line).yAxis

/-- The line `y-axis a --> b`, without a label. -/
def plainYAxisLine (a b : List Char) : List Char :=
  "y-axis ".toList ++ (a ++ (" --> ".toList ++ b))

/-- A text whose `y-axis` directive has the bounds `2^53` and `2^53 + 1`. -/
def largeBoundText : String := "y-axis 9007199254740992 --> 9007199254740993"

/-- A text with a single `y-axis` directive, which has no label. -/
def plainYAxisText : String := "title \"T\"\n  y-axis 0 --> 50\nline [1, 2]"

/-- Two texts with the same lines in different orders. -/
def orderedText : String := "title \"A\"\nx-axis [a, b]\nnote\nline [1, 2]\ntitle \"B\""

/-- The lines of `orderedText` in another order that keeps the two `title` lines in
their order. -/
def reorderedText : String := "line [1, 2]\ntitle \"A\"\ntitle \"B\"\nnote\nx-axis [a, b]"

/-- A trimmed line assigns every field that its kind can assign: a `title` line always,
an `x-axis` or `line` directive when it has a bracket group, a `y-axis` directive when it
has both a range and a quoted label. -/
def assigns (line : List Char) : Bool :=
  match kindOf line with
  | .title => true
  | .xAxis => (matchBracket line).isSome
  | .series => (matchBracket line).isSome
  | .yAxis =>
    (matchRange (trim (removeFirst "y-axis".toList line))).isSome &&
    (matchQuoted (trim (removeFirst "y-axis".toList line))).isSome
  | .other => false

/-- A text with two `x-axis` lines, the later one without a bracket group. -/
def twoXAxisText : String := "x-axis [a, b]\nx-axis none"

/-- The text `twoXAxisText` without its first line. -/
def laterXAxisText : String := "x-axis none"

/-- A chart text with three directive lines. -/
def threeLineText : String := "title \"T\"\nx-axis [a, b]\nline [1, 2]"

/-- The text `threeLineText` with the header and an empty line inserted. -/
def paddedText : String := "title \"T\"\n  xychart-beta\nx-axis [a, b]\nline [1, 2]"

/-- A text with two `y-axis` lines, the later one with a range and a label. -/
def twoYAxisText : String := "y-axis \"old\" 1 --> 2\ntitle \"T\"\ny-axis \"new\" 3 --> 4"

/-- The text `twoYAxisText` without its first line. -/
def laterYAxisText : String := "title \"T\"\ny-axis \"new\" 3 --> 4"

/-- The identifiers of the primitives of a document, in order. -/
def cellIds (doc : Document) : List String := doc.cells.map (·.id)

/-- The category label `xlabel-i` as the list `(id, value, geometry)` for the `i`-th pair of
a label and a point. -/
def xLabelEntry (geometry : Geometry) (entry : Nat × String × Point) :
    String × Option Attr × MxGeometry :=
  ("xlabel-" ++ toString entry.1, some (Attr.str entry.2.1),
    MxGeometry.box (entry.2.2.x - 20) (geometry.height - geometry.padding + 5)
      (Attr.str "40") (Attr.str "20"))

/-- Every identifier of the list starts with one of the characters `hs`. -/
def HeadIn (hs : List Char) (ids : List String) : Prop :=
  ∀ s ∈ ids, ∃ h ∈ hs, s.toList.head? = some h

/-- The local `y` of `calculateGeometry` for the series value `val`. -/
def yCoordinate (chartData : ChartData) (val : JSNum) : JSNum :=
  (height - padding) -
    (((val - chartData.yAxis.min) / (chartData.yAxis.max - chartData.yAxis.min)) * graphHeight)

/-- The local `x` of `calculateGeometry` for the index `index`. -/
def xCoordinate (chartData : ChartData) (index : Nat) : JSNum :=
  padding + xOffset + (JSNum.ofNat index * xStep chartData)

/-- A time stamp. -/
def morning : String := "2024-01-01T08:00:00.000Z"

/-- The local `value` of tick `i` for finite bounds `a` and `b` whose difference is
exact, when no operation overflows: every operation rounds to binary64. -/
def tickValueQ (a b : ℚ) (i : ℕ) : ℤ :=
  ⌊nearest (a + nearest ((b - a) * nearest ((i : ℚ) / 5))) + 1 / 2⌋

/-- The local `yPos` of tick `i` for finite bounds `a` and `b`, when the differences
`b - a` and `value - a` are exact and no operation overflows. -/
def tickYPosQ (a b : ℚ) (i : ℕ) : ℚ :=
  nearest (340 - nearest (nearest (((tickValueQ a b i : ℤ) - a) / (b - a)) * 280))

/-- A chart whose value axis runs from 1 to `2^53 + 2`. -/
def wideRangeText : String := "y-axis 1 --> 9007199254740994"

/-- A chart whose value axis runs from 0 to `2^50 + 4`. -/
def largeRangeText : String := "y-axis 0 --> 1125899906842628"

/-- The numeral `1` followed by 309 zeros: `10^309`, which is beyond the binary64 range. -/
def hugeNumeral : List Char := '1' :: List.replicate 309 '0'

/-- A chart whose upper bound and whose only value are the numeral `hugeNumeral`. -/
def overflowText : String :=
  String.mk ("y-axis 0 --> ".toList ++ hugeNumeral ++ "\nline [".toList ++ hugeNumeral ++ "]".toList)

/-- The local `x` of `calculateGeometry` for the index `i` and `L` category labels, when
no operation overflows: every operation rounds to binary64. -/
def xCoordinateQ (L i : ℕ) : ℚ :=
  nearest (90 + nearest ((i : ℚ) * nearest (420 / ((L : ℚ) - 1))))

/-- A chart model with 40 category labels and 40 values. -/
def fortyPoints : ChartData :=
  { defaultChartData with xAxis := List.replicate 40 "a", dataPoints := List.replicate 40 0 }

/-! ## Rounding to binary64: the basic facts -/

theorem bitLengthAux_spec (fuel : ℕ) : ∀ n : ℕ, n ≤ fuel → n ≠ 0 →
    2 ^ (bitLengthAux fuel n - 1) ≤ n ∧ n < 2 ^ bitLengthAux fuel n ∧ 0 < bitLengthAux fuel n := by
  induction fuel with
  | zero => intro n h h0; omega
  | succ f ih =>
    intro n h h0
    simp only [bitLengthAux, h0, if_false]
    by_cases hm : n / 2 = 0
    · have h1 : n = 1 := by omega
      subst h1
      cases f with
      | zero => simp [bitLengthAux]
      | succ g => simp [bitLengthAux]
    · obtain ⟨h1, h2, h3⟩ := ih (n / 2) (by omega) hm
      refine ⟨?_, ?_, by omega⟩
      · have e : bitLengthAux f (n / 2) + 1 - 1 = (bitLengthAux f (n / 2) - 1) + 1 := by omega
        rw [e, pow_succ]
        omega
      · rw [pow_succ]
        omega

theorem bitLength_spec (n : ℕ) (h0 : n ≠ 0) :
    2 ^ (bitLength n - 1) ≤ n ∧ n < 2 ^ bitLength n ∧ 0 < bitLength n :=
  bitLengthAux_spec n n (le_refl n) h0

theorem two_zpow_pos (e : ℤ) : (0 : ℚ) < 2 ^ e := zpow_pos (by norm_num) e

theorem two_zpow_le {a b : ℤ} (h : a ≤ b) : (2 : ℚ) ^ a ≤ 2 ^ b :=
  zpow_le_zpow_right₀ (by norm_num) h

theorem two_zpow_lt {a b : ℤ} (h : a < b) : (2 : ℚ) ^ a < 2 ^ b :=
  zpow_lt_zpow_right₀ (by norm_num) h

theorem two_zpow_succ (e : ℤ) : (2 : ℚ) ^ (e + 1) = 2 ^ e * 2 := by
  rw [zpow_add₀ (by norm_num : (2 : ℚ) ≠ 0), zpow_one]

theorem two_zpow_natCast (n : ℕ) : (2 : ℚ) ^ (n : ℤ) = ((2 ^ n : ℕ) : ℚ) := by
  rw [zpow_natCast]; push_cast; rfl

theorem binade_spec (a : ℚ) (ha : 0 < a) :
    (2 : ℚ) ^ binade a ≤ a ∧ a < 2 ^ (binade a + 1) := by
  have hn0 : a.num.natAbs ≠ 0 := by
    have : a.num ≠ 0 := Rat.num_ne_zero.mpr (ne_of_gt ha)
    exact Int.natAbs_ne_zero.mpr this
  have hd0 : a.den ≠ 0 := a.den_nz
  obtain ⟨n1, n2, n3⟩ := bitLength_spec _ hn0
  obtain ⟨d1, d2, d3⟩ := bitLength_spec _ hd0
  have hnum : (a.num : ℚ) = (a.num.natAbs : ℚ) := by
    have : 0 < a.num := Rat.num_pos.mpr ha
    have h : ((a.num.natAbs : ℕ) : ℤ) = a.num := Int.natAbs_of_nonneg (le_of_lt this)
    rw [← Int.cast_natCast, h]
  have hdpos : (0 : ℚ) < a.den := by exact_mod_cast Nat.pos_of_ne_zero hd0
  have ha_eq : a = (a.num.natAbs : ℚ) / (a.den : ℚ) := by
    rw [← hnum]; exact (Rat.num_div_den a).symm
  set ln := bitLength a.num.natAbs with hln
  set ld := bitLength a.den with hld
  set n := a.num.natAbs with hn
  set d := a.den with hd
  have N1 : (2 : ℚ) ^ ((ln : ℤ) - 1) ≤ (n : ℚ) := by
    have : ((ln : ℤ) - 1) = ((ln - 1 : ℕ) : ℤ) := by omega
    rw [this, two_zpow_natCast]; exact_mod_cast n1
  have N2 : (n : ℚ) < (2 : ℚ) ^ (ln : ℤ) := by
    rw [two_zpow_natCast]; exact_mod_cast n2
  have D1 : (2 : ℚ) ^ ((ld : ℤ) - 1) ≤ (d : ℚ) := by
    have : ((ld : ℤ) - 1) = ((ld - 1 : ℕ) : ℤ) := by omega
    rw [this, two_zpow_natCast]; exact_mod_cast d1
  have D2 : (d : ℚ) < (2 : ℚ) ^ (ld : ℤ) := by
    rw [two_zpow_natCast]; exact_mod_cast d2
  -- a < 2^(ln - ld + 1) and 2^(ln - ld - 1) < a
  have U : a < (2 : ℚ) ^ ((ln : ℤ) - ld + 1) := by
    rw [ha_eq, div_lt_iff₀ hdpos]
    calc (n : ℚ) < 2 ^ (ln : ℤ) := N2
      _ = 2 ^ ((ln : ℤ) - ld + 1) * 2 ^ ((ld : ℤ) - 1) := by
          rw [← zpow_add₀ (by norm_num : (2 : ℚ) ≠ 0)]; congr 1; ring
      _ ≤ 2 ^ ((ln : ℤ) - ld + 1) * d :=
          mul_le_mul_of_nonneg_left D1 (le_of_lt (two_zpow_pos _))
  have L : (2 : ℚ) ^ ((ln : ℤ) - ld - 1) ≤ a := by
    rw [ha_eq, le_div_iff₀ hdpos]
    calc (2 : ℚ) ^ ((ln : ℤ) - ld - 1) * d ≤ 2 ^ ((ln : ℤ) - ld - 1) * 2 ^ (ld : ℤ) :=
          mul_le_mul_of_nonneg_left (le_of_lt D2) (le_of_lt (two_zpow_pos _))
      _ = 2 ^ ((ln : ℤ) - 1) := by
          rw [← zpow_add₀ (by norm_num : (2 : ℚ) ≠ 0)]; congr 1; ring
      _ ≤ n := N1
  unfold binade
  simp only [← hln, ← hld]
  split_ifs with hc
  · exact ⟨hc, U⟩
  · refine ⟨L, ?_⟩
    have : (ln : ℤ) - ld - 1 + 1 = (ln : ℤ) - ld := by ring
    rw [this]
    exact lt_of_not_le hc

theorem roundHalfEven_bounds (x : ℚ) :
    (roundHalfEven x : ℚ) - 1 / 2 ≤ x ∧ x ≤ (roundHalfEven x : ℚ) + 1 / 2 := by
  have h1 : (⌊x⌋ : ℚ) ≤ x := Int.floor_le x
  have h2 : x < (⌊x⌋ : ℚ) + 1 := Int.lt_floor_add_one x
  unfold roundHalfEven
  split_ifs with a b c
  · constructor <;> linarith
  · push_cast; constructor <;> linarith
  · constructor <;> linarith
  · push_cast; constructor <;> linarith

theorem roundHalfEven_intCast (n : ℤ) : roundHalfEven (n : ℚ) = n := by
  unfold roundHalfEven
  rw [Int.floor_intCast]
  simp

theorem roundHalfEven_mono {x y : ℚ} (h : x ≤ y) : roundHalfEven x ≤ roundHalfEven y := by
  by_contra hc
  push_neg at hc
  have hx := roundHalfEven_bounds x
  have hy := roundHalfEven_bounds y
  have h1 : (roundHalfEven y : ℚ) + 1 ≤ roundHalfEven x := by exact_mod_cast hc
  have hxy : x = y := by linarith [hx.1, hy.2]
  rw [hxy] at hc
  exact lt_irrefl _ hc

theorem roundHalfEven_le_of_le {x : ℚ} {z : ℤ} (h : x ≤ z) : roundHalfEven x ≤ z := by
  have := roundHalfEven_mono h
  rwa [roundHalfEven_intCast] at this

theorem le_roundHalfEven_of_le {x : ℚ} {z : ℤ} (h : (z : ℚ) ≤ x) : z ≤ roundHalfEven x := by
  have := roundHalfEven_mono h
  rwa [roundHalfEven_intCast] at this

theorem nearest_zero : nearest 0 = 0 := by simp [nearest]

theorem nearest_of_ne {q : ℚ} (h : q ≠ 0) :
    nearest q = (roundHalfEven (q / 2 ^ quantum q) : ℚ) * 2 ^ quantum q := by
  simp [nearest, h]

/-- A multiple of the unit in the last place above `q` is above the rounded value. -/
theorem nearest_le_of_le {q : ℚ} {z : ℤ} (h : q ≤ z * 2 ^ quantum q) :
    nearest q ≤ z * 2 ^ quantum q := by
  by_cases h0 : q = 0
  · subst h0; rw [nearest_zero]; exact h
  · rw [nearest_of_ne h0]
    have hp := two_zpow_pos (quantum q)
    have : q / 2 ^ quantum q ≤ z := by rw [div_le_iff₀ hp]; exact h
    have := roundHalfEven_le_of_le this
    have : (roundHalfEven (q / 2 ^ quantum q) : ℚ) ≤ z := by exact_mod_cast this
    exact mul_le_mul_of_nonneg_right this (le_of_lt hp)

/-- A multiple of the unit in the last place below `q` is below the rounded value. -/
theorem le_nearest_of_le {q : ℚ} {z : ℤ} (h : (z : ℚ) * 2 ^ quantum q ≤ q) :
    (z : ℚ) * 2 ^ quantum q ≤ nearest q := by
  by_cases h0 : q = 0
  · subst h0; rw [nearest_zero]; exact h
  · rw [nearest_of_ne h0]
    have hp := two_zpow_pos (quantum q)
    have : (z : ℚ) ≤ q / 2 ^ quantum q := by rw [le_div_iff₀ hp]; exact h
    have := le_roundHalfEven_of_le this
    have : (z : ℚ) ≤ roundHalfEven (q / 2 ^ quantum q) := by exact_mod_cast this
    exact mul_le_mul_of_nonneg_right this (le_of_lt hp)

theorem nearest_nonneg {q : ℚ} (h : 0 ≤ q) : 0 ≤ nearest q := by
  have := le_nearest_of_le (q := q) (z := 0) (by simpa using h)
  simpa using this

theorem nearest_nonpos {q : ℚ} (h : q ≤ 0) : nearest q ≤ 0 := by
  have := nearest_le_of_le (q := q) (z := 0) (by simpa using h)
  simpa using this

theorem two_zpow_eq_intCast {k : ℤ} (h : 0 ≤ k) : ∃ z : ℤ, (2 : ℚ) ^ k = z ∧ 0 < z := by
  obtain ⟨n, rfl⟩ := Int.eq_ofNat_of_zero_le h
  refine ⟨2 ^ n, ?_, by positivity⟩
  rw [zpow_natCast]
  push_cast
  rfl

theorem quantum_ge (q : ℚ) : -1074 ≤ quantum q := le_max_right _ _

theorem quantum_ge_binade (q : ℚ) : binade |q| - 52 ≤ quantum q := le_max_left _ _

theorem quantum_cases (q : ℚ) : quantum q = binade |q| - 52 ∨ quantum q = -1074 := by
  unfold quantum
  rcases le_total (binade |q| - 52) (-1074) with h | h
  · right; exact max_eq_right h
  · left; exact max_eq_left h

/-- The value `2^e`, for a binade `e` at or above that of `q`, is a multiple of the unit
in the last place of `q`. -/
theorem two_zpow_eq_mul_quantum {q : ℚ} {e : ℤ} (h : quantum q ≤ e) :
    ∃ z : ℤ, (2 : ℚ) ^ e = z * 2 ^ quantum q ∧ 0 < z := by
  obtain ⟨z, hz, hpos⟩ := two_zpow_eq_intCast (k := e - quantum q) (by omega)
  refine ⟨z, ?_, hpos⟩
  rw [← hz, ← zpow_add₀ (by norm_num : (2 : ℚ) ≠ 0)]
  congr 1; ring

theorem nearest_mono {q1 q2 : ℚ} (h : q1 ≤ q2) : nearest q1 ≤ nearest q2 := by
  by_cases h1 : q1 = 0
  · subst h1; rw [nearest_zero]; exact nearest_nonneg h
  by_cases h2 : q2 = 0
  · subst h2; rw [nearest_zero]; exact nearest_nonpos h
  have a1 : 0 < |q1| := abs_pos.mpr h1
  have a2 : 0 < |q2| := abs_pos.mpr h2
  obtain ⟨b1l, b1u⟩ := binade_spec _ a1
  obtain ⟨b2l, b2u⟩ := binade_spec _ a2
  rcases lt_trichotomy (quantum q1) (quantum q2) with hp | hp | hp
  · -- the binade of q2 is higher
    have hq2 : quantum q2 = binade |q2| - 52 := by
      rcases quantum_cases q2 with c | c
      · exact c
      · have := quantum_ge q1; omega
    have he : binade |q1| + 1 ≤ binade |q2| := by
      have := quantum_ge_binade q1; omega
    have habs : |q1| < 2 ^ binade |q2| := lt_of_lt_of_le b1u (two_zpow_le he)
    have hpos : 0 < q2 := by
      by_contra hc
      push_neg at hc
      have e2 : |q2| = -q2 := abs_of_nonpos hc
      have e1 : |q1| = -q1 := abs_of_nonpos (le_trans h hc)
      linarith
    have e2 : |q2| = q2 := abs_of_pos hpos
    replace b2l : (2 : ℚ) ^ binade |q2| ≤ q2 := b2l.trans_eq e2
    obtain ⟨z2, hz2, _⟩ := two_zpow_eq_mul_quantum (q := q2) (e := binade |q2|) (by omega)
    obtain ⟨z1, hz1, _⟩ := two_zpow_eq_mul_quantum (q := q1) (e := binade |q2|) (by omega)
    have L : (2 : ℚ) ^ binade |q2| ≤ nearest q2 := by
      rw [hz2]; apply le_nearest_of_le; rw [← hz2]; exact b2l
    have U : nearest q1 ≤ (2 : ℚ) ^ binade |q2| := by
      rw [hz1]; apply nearest_le_of_le; rw [← hz1]
      exact le_of_lt (lt_of_le_of_lt (le_abs_self q1) habs)
    exact le_trans U L
  · rw [nearest_of_ne h1, nearest_of_ne h2, hp]
    have hpp := two_zpow_pos (quantum q2)
    have : q1 / 2 ^ quantum q2 ≤ q2 / 2 ^ quantum q2 :=
      div_le_div_of_nonneg_right h (le_of_lt hpp)
    have := roundHalfEven_mono this
    have : (roundHalfEven (q1 / 2 ^ quantum q2) : ℚ) ≤ roundHalfEven (q2 / 2 ^ quantum q2) := by
      exact_mod_cast this
    exact mul_le_mul_of_nonneg_right this (le_of_lt hpp)
  · -- the binade of q1 is higher: q1 is negative
    have hq1 : quantum q1 = binade |q1| - 52 := by
      rcases quantum_cases q1 with c | c
      · exact c
      · have := quantum_ge q2; omega
    have he : binade |q2| + 1 ≤ binade |q1| := by
      have := quantum_ge_binade q2; omega
    have habs : |q2| < 2 ^ binade |q1| := lt_of_lt_of_le b2u (two_zpow_le he)
    have hneg : q1 < 0 := by
      by_contra hc
      push_neg at hc
      have e1 : |q1| = q1 := abs_of_nonneg hc
      have e2 : |q2| = q2 := abs_of_nonneg (le_trans hc h)
      linarith
    have e1 : |q1| = -q1 := abs_of_neg hneg
    replace b1l : (2 : ℚ) ^ binade |q1| ≤ -q1 := b1l.trans_eq e1
    obtain ⟨z1, hz1, _⟩ := two_zpow_eq_mul_quantum (q := q1) (e := binade |q1|) (by omega)
    obtain ⟨z2, hz2, _⟩ := two_zpow_eq_mul_quantum (q := q2) (e := binade |q1|) (by omega)
    have U : nearest q1 ≤ -(2 : ℚ) ^ binade |q1| := by
      have hh : -(2 : ℚ) ^ binade |q1| = ((-z1 : ℤ) : ℚ) * 2 ^ quantum q1 := by
        rw [hz1]; push_cast; ring
      rw [hh]; apply nearest_le_of_le; rw [← hh]; linarith
    have L : -(2 : ℚ) ^ binade |q1| ≤ nearest q2 := by
      have hh : -(2 : ℚ) ^ binade |q1| = ((-z2 : ℤ) : ℚ) * 2 ^ quantum q2 := by
        rw [hz2]; push_cast; ring
      rw [hh]; apply le_nearest_of_le; rw [← hh]
      have := neg_abs_le q2
      linarith
    exact le_trans U L

/-- The rounding error is at most half a unit in the last place. -/
theorem nearest_error_quantum (q : ℚ) : |nearest q - q| ≤ 2 ^ quantum q / 2 := by
  by_cases h0 : q = 0
  · subst h0
    rw [nearest_zero, sub_zero, abs_zero]
    have := two_zpow_pos (quantum (0 : ℚ))
    linarith
  · rw [nearest_of_ne h0]
    have hp := two_zpow_pos (quantum q)
    obtain ⟨b1, b2⟩ := roundHalfEven_bounds (q / 2 ^ quantum q)
    have e : q = q / 2 ^ quantum q * 2 ^ quantum q := by field_simp
    rw [abs_le]
    constructor
    · have := mul_le_mul_of_nonneg_right b2 (le_of_lt hp)
      rw [← e] at this
      linarith
    · have := mul_le_mul_of_nonneg_right b1 (le_of_lt hp)
      rw [← e] at this
      linarith

/-- The relative rounding error is at most `2^-53`, up to the subnormal spacing. -/
theorem nearest_error (q : ℚ) : |nearest q - q| ≤ |q| / 2 ^ 53 + 1 / 2 ^ 1075 := by
  have h := nearest_error_quantum q
  by_cases h0 : q = 0
  · subst h0; rw [nearest_zero]; simp
  have a1 : 0 < |q| := abs_pos.mpr h0
  obtain ⟨bl, _⟩ := binade_spec _ a1
  rcases quantum_cases q with c | c
  · have : (2 : ℚ) ^ quantum q = 2 ^ binade |q| / 2 ^ 52 := by
      rw [c, zpow_sub₀ (by norm_num : (2 : ℚ) ≠ 0)]; norm_num
    rw [this] at h
    have : (2 : ℚ) ^ binade |q| / 2 ^ 52 / 2 ≤ |q| / 2 ^ 53 := by
      rw [div_div, div_le_div_iff₀ (by positivity) (by positivity)]
      nlinarith
    have : (0 : ℚ) ≤ 1 / 2 ^ 1075 := by positivity
    linarith
  · have : (2 : ℚ) ^ quantum q / 2 = 1 / 2 ^ 1075 := by
      rw [c, zpow_neg]; norm_num
    rw [this] at h
    have : (0 : ℚ) ≤ |q| / 2 ^ 53 := by positivity
    linarith

/-- A number with at most 53 significant bits and an exponent of `-1074` or more is
not changed by rounding. -/
theorem nearest_exact (m k : ℤ) (hm : |m| < 2 ^ 53) (hk : -1074 ≤ k) :
    nearest ((m : ℚ) * 2 ^ k) = (m : ℚ) * 2 ^ k := by
  by_cases hm0 : m = 0
  · subst hm0; simp [nearest_zero]
  have hk2 := two_zpow_pos k
  have hq0 : (m : ℚ) * 2 ^ k ≠ 0 := by
    have : (m : ℚ) ≠ 0 := by exact_mod_cast hm0
    positivity
  set q := (m : ℚ) * 2 ^ k with hq
  have a1 : 0 < |q| := abs_pos.mpr hq0
  obtain ⟨bl, _⟩ := binade_spec _ a1
  have habs : |q| < 2 ^ (53 + k) := by
    rw [hq, abs_mul, abs_of_pos hk2, zpow_add₀ (by norm_num : (2 : ℚ) ≠ 0)]
    apply mul_lt_mul_of_pos_right _ hk2
    calc |(m : ℚ)| = ((|m| : ℤ) : ℚ) := (Int.cast_abs).symm
      _ < ((2 ^ 53 : ℤ) : ℚ) := Int.cast_lt.mpr hm
      _ = 2 ^ (53 : ℤ) := by norm_num
  have he : binade |q| < 53 + k := by
    by_contra hc
    push_neg at hc
    have := two_zpow_le hc
    linarith
  have hp : quantum q ≤ k := by
    rcases quantum_cases q with c | c <;> omega
  obtain ⟨z, hz, _⟩ := two_zpow_eq_intCast (k := k - quantum q) (by omega)
  have hdiv : q / 2 ^ quantum q = ((m * z : ℤ) : ℚ) := by
    rw [hq, mul_div_assoc, ← zpow_sub₀ (by norm_num : (2 : ℚ) ≠ 0), hz]
    push_cast; ring
  rw [nearest_of_ne hq0, hdiv, roundHalfEven_intCast]
  push_cast
  rw [← hz, mul_assoc, ← zpow_add₀ (by norm_num : (2 : ℚ) ≠ 0)]
  congr 2; ring

theorem nearest_intCast (n : ℤ) (h : |n| < 2 ^ 53) : nearest (n : ℚ) = n := by
  have := nearest_exact n 0 h (by norm_num)
  simpa using this

theorem nearest_natCast (n : ℕ) (h : n < 2 ^ 53) : nearest (n : ℚ) = n := by
  have := nearest_intCast (n : ℤ) (by rw [abs_of_nonneg (by positivity)]; exact_mod_cast h)
  simpa using this

/-! ## Identifiers and tags -/

theorem hasTag_of_id (tag s : String) (c : MxCell) (h : c.id = tag ++ s) :
    hasTag tag c = true := by
  simp [hasTag, h, String.toList, List.isPrefixOf_iff_prefix]

theorem hasTag_false (tag : String) (a : Char) (c : MxCell)
    (ha : tag.toList.head? = some a) (h : idHead c ≠ some a) : hasTag tag c = false := by
  unfold hasTag
  unfold idHead at h
  generalize c.id.toList = l at h
  generalize tag.toList = t at ha
  cases t with
  | nil => simp at ha
  | cons x t =>
    simp only [List.head?_cons, Option.some.injEq] at ha
    subst ha
    cases l with
    | nil => rfl
    | cons b u =>
      have hb : ¬ x = b := fun e => h (by simp [e])
      simp [List.isPrefixOf, hb]

theorem filter_tag_eq_nil (tag : String) (a : Char) (l : List MxCell)
    (ha : tag.toList.head? = some a) (h : ∀ c ∈ l, idHead c ≠ some a) :
    l.filter (hasTag tag) = [] := by
  rw [List.filter_eq_nil_iff]
  intro c hc
  rw [hasTag_false tag a c ha (h c hc)]
  exact Bool.false_ne_true

theorem idHead_xLabelCell (g : Geometry) (i : Nat) (label : String) (p : Point) :
    idHead (xLabelCell g i label p) = some 'x' := rfl

theorem idHead_yLabelCell (cd : ChartData) (g : Geometry) (i : Nat) :
    idHead (yLabelCell cd g i) = some 'y' := rfl

theorem idHead_gridCell (cd : ChartData) (g : Geometry) (i : Nat) :
    idHead (gridCell cd g i) = some 'g' := rfl

theorem idHead_lineCell (i : Nat) (p1 p2 : Point) : idHead (lineCell i p1 p2) = some 'l' := rfl

theorem idHead_pointCell (cd : ChartData) (i : Nat) (p : Point) :
    idHead (pointCell cd i p) = some 'p' := rfl

theorem idHead_titleCell (cd : ChartData) (g : Geometry) :
    idHead (titleCell cd g) = some 't' := rfl

theorem idHead_frameCells (g : Geometry) (c : MxCell) (hc : c ∈ frameCells g) :
    idHead c = some '0' ∨ idHead c = some '1' ∨ idHead c = some 'a' := by
  simp only [frameCells, List.mem_cons, List.mem_singleton, List.not_mem_nil, or_false] at hc
  rcases hc with rfl | rfl | rfl | rfl
  · exact Or.inl rfl
  · exact Or.inr (Or.inl rfl)
  · exact Or.inr (Or.inr rfl)
  · exact Or.inr (Or.inr rfl)

theorem idHead_xLabelCells (cd : ChartData) (g : Geometry) (c : MxCell)
    (hc : c ∈ xLabelCells cd g) : idHead c = some 'x' := by
  simp only [xLabelCells, List.mem_flatten, List.mem_mapIdx] at hc
  obtain ⟨l, ⟨i, hi, rfl⟩, hcl⟩ := hc
  split at hcl
  · split at hcl
    · simp only [List.mem_singleton] at hcl
      subst hcl
      rfl
    · simp at hcl
  · simp at hcl

theorem idHead_tickCells (cd : ChartData) (g : Geometry) (c : MxCell)
    (hc : c ∈ tickCells cd g) : idHead c = some 'y' ∨ idHead c = some 'g' := by
  simp only [tickCells, List.mem_flatten, List.mem_map] at hc
  obtain ⟨l, ⟨i, _, rfl⟩, hcl⟩ := hc
  rcases List.mem_cons.1 hcl with rfl | h
  · exact Or.inl rfl
  · split at h
    · simp only [List.mem_singleton] at h
      subst h
      exact Or.inr rfl
    · simp at h

theorem idHead_seriesStep (cd : ChartData) (g : Geometry) (i : Nat) (c : MxCell)
    (hc : c ∈ seriesStep cd g i) : idHead c = some 'l' ∨ idHead c = some 'p' := by
  unfold seriesStep at hc
  split at hc
  · simp at hc
  · rcases List.mem_append.1 hc with h | h
    · split at h
      · split at h
        · simp only [List.mem_singleton] at h
          subst h
          exact Or.inl rfl
        · simp at h
      · simp at h
    · simp only [List.mem_singleton] at h
      subst h
      exact Or.inr rfl

theorem idHead_seriesCells (cd : ChartData) (g : Geometry) (c : MxCell)
    (hc : c ∈ seriesCells cd g) : idHead c = some 'l' ∨ idHead c = some 'p' := by
  simp only [seriesCells, List.mem_flatten, List.mem_map] at hc
  obtain ⟨l, ⟨i, _, rfl⟩, hcl⟩ := hc
  exact idHead_seriesStep cd g i c hcl

/-- Filtering the cells of a loop, then reading a field, turn by turn. -/
theorem filter_flatten_map {β : Type} (p : MxCell → Bool) (h : MxCell → β)
    (f : Nat → List MxCell) (l : List Nat) :
    (((l.map f).flatten).filter p).map h = (l.map (fun i => ((f i).filter p).map h)).flatten := by
  induction l with
  | nil => rfl
  | cons a l ih =>
    simp only [List.map_cons, List.flatten_cons, List.filter_append, List.map_append, ih]

theorem flatten_map_singleton {β : Type} (g : Nat → β) (l : List Nat) :
    (l.map (fun i => [g i])).flatten = l.map g := by
  induction l with
  | nil => rfl
  | cons a l ih => simp [ih]

theorem hasTag_point_pointCell (cd : ChartData) (i : Nat) (p : Point) :
    hasTag "point-" (pointCell cd i p) = true := hasTag_of_id _ (toString i) _ rfl

theorem hasTag_line_lineCell (i : Nat) (p1 p2 : Point) :
    hasTag "line-" (lineCell i p1 p2) = true := hasTag_of_id _ (toString i) _ rfl

theorem hasTag_point_lineCell (i : Nat) (p1 p2 : Point) :
    hasTag "point-" (lineCell i p1 p2) = false :=
  hasTag_false _ 'p' _ rfl (by rw [idHead_lineCell]; decide)

theorem hasTag_line_pointCell (cd : ChartData) (i : Nat) (p : Point) :
    hasTag "line-" (pointCell cd i p) = false :=
  hasTag_false _ 'l' _ rfl (by rw [idHead_pointCell]; decide)

theorem seriesStep_points (cd : ChartData) (g : Geometry) (i : Nat) (hi : i < g.points.length) :
    ((seriesStep cd g i).filter (hasTag "point-")).map (·.id) = ["point-" ++ toString i] := by
  unfold seriesStep
  rw [List.getElem?_eq_getElem hi]
  by_cases h1 : i < g.points.length - 1
  · have h2 : i + 1 < g.points.length := by omega
    simp only [h1, if_true, List.getElem?_eq_getElem h2, List.filter_cons, List.filter_nil,
      List.filter_append, hasTag_point_lineCell, hasTag_point_pointCell]
    rfl
  · simp only [h1, if_false, List.filter_cons, List.filter_nil, List.filter_append,
      hasTag_point_pointCell]
    rfl

theorem seriesStep_lines (cd : ChartData) (g : Geometry) (i : Nat) (hi : i < g.points.length) :
    ((seriesStep cd g i).filter (hasTag "line-")).map (·.id)
      = if i < g.points.length - 1 then ["line-" ++ toString i] else [] := by
  unfold seriesStep
  rw [List.getElem?_eq_getElem hi]
  by_cases h1 : i < g.points.length - 1
  · have h2 : i + 1 < g.points.length := by omega
    simp only [h1, if_true, List.getElem?_eq_getElem h2, List.filter_cons, List.filter_nil,
      List.filter_append, hasTag_line_lineCell, hasTag_line_pointCell]
    rfl
  · simp only [h1, if_false, List.filter_cons, List.filter_nil, List.filter_append,
      hasTag_line_pointCell]
    rfl

theorem seriesCells_points (cd : ChartData) (g : Geometry) :
    ((seriesCells cd g).filter (hasTag "point-")).map (·.id)
      = (List.range g.points.length).map (fun i => "point-" ++ toString i) := by
  unfold seriesCells
  rw [filter_flatten_map, ← flatten_map_singleton (fun i => "point-" ++ toString i)]
  congr 1
  apply List.map_congr_left
  intro i hi
  exact seriesStep_points cd g i (List.mem_range.1 hi)

theorem seriesCells_lines (cd : ChartData) (g : Geometry) :
    ((seriesCells cd g).filter (hasTag "line-")).map (·.id)
      = (List.range (g.points.length - 1)).map (fun i => "line-" ++ toString i) := by
  unfold seriesCells
  rw [filter_flatten_map]
  cases hn : g.points.length with
  | zero => rfl
  | succ n =>
    rw [List.range_succ, List.map_append, List.flatten_append, Nat.add_sub_cancel,
      ← flatten_map_singleton (fun i => "line-" ++ toString i)]
    have h1 : (List.range n).map (fun i => ((seriesStep cd g i).filter (hasTag "line-")).map (·.id))
        = (List.range n).map (fun i => ["line-" ++ toString i]) := by
      apply List.map_congr_left
      intro i hi
      have hi1 := List.mem_range.1 hi
      rw [seriesStep_lines cd g i (by omega), if_pos (by omega)]
    rw [h1, List.map_singleton, seriesStep_lines cd g n (by omega), if_neg (by omega)]
    simp

/-- A field of the cells with a given tag, part by part of the document. -/
theorem cellsTagged_map {β : Type} (h : MxCell → β) (tag : String) (now : String)
    (cd : ChartData) (g : Geometry) :
    (cellsTagged tag (generateDrawioXML now cd g)).map h
      = ((frameCells g).filter (hasTag tag)).map h
        ++ ((xLabelCells cd g).filter (hasTag tag)).map h
        ++ ((tickCells cd g).filter (hasTag tag)).map h
        ++ ((seriesCells cd g).filter (hasTag tag)).map h
        ++ ([titleCell cd g].filter (hasTag tag)).map h := by
  simp only [cellsTagged, generateDrawioXML, List.filter_append, List.map_append]

theorem pointMarkers_ids (now : String) (cd : ChartData) (g : Geometry) :
    (pointMarkers (generateDrawioXML now cd g)).map (·.id)
      = (List.range g.points.length).map (fun i => "point-" ++ toString i) := by
  unfold pointMarkers
  rw [cellsTagged_map, seriesCells_points,
    filter_tag_eq_nil "point-" 'p' (frameCells g) rfl,
    filter_tag_eq_nil "point-" 'p' (xLabelCells cd g) rfl,
    filter_tag_eq_nil "point-" 'p' (tickCells cd g) rfl,
    filter_tag_eq_nil "point-" 'p' [titleCell cd g] rfl]
  · simp
  · intro c hc
    rw [List.mem_singleton.1 hc, idHead_titleCell]
    decide
  · intro c hc
    rcases idHead_tickCells cd g c hc with h | h <;> rw [h] <;> decide
  · intro c hc
    rw [idHead_xLabelCells cd g c hc]
    decide
  · intro c hc
    rcases idHead_frameCells g c hc with h | h | h <;> rw [h] <;> decide

theorem connectingLines_ids (now : String) (cd : ChartData) (g : Geometry) :
    (connectingLines (generateDrawioXML now cd g)).map (·.id)
      = (List.range (g.points.length - 1)).map (fun i => "line-" ++ toString i) := by
  unfold connectingLines
  rw [cellsTagged_map, seriesCells_lines,
    filter_tag_eq_nil "line-" 'l' (frameCells g) rfl,
    filter_tag_eq_nil "line-" 'l' (xLabelCells cd g) rfl,
    filter_tag_eq_nil "line-" 'l' (tickCells cd g) rfl,
    filter_tag_eq_nil "line-" 'l' [titleCell cd g] rfl]
  · simp
  · intro c hc
    rw [List.mem_singleton.1 hc, idHead_titleCell]
    decide
  · intro c hc
    rcases idHead_tickCells cd g c hc with h | h <;> rw [h] <;> decide
  · intro c hc
    rw [idHead_xLabelCells cd g c hc]
    decide
  · intro c hc
    rcases idHead_frameCells g c hc with h | h | h <;> rw [h] <;> decide

theorem calculateGeometry_points_length (cd : ChartData) :
    (calculateGeometry cd).points.length = cd.dataPoints.length := by
  simp [calculateGeometry]

/-- C1. For every input text whose parsed model has `N ≥ 2` category labels and exactly
`N` series values, the document built from it contains exactly `N` point markers, with the
identifiers `point-0 .. point-(N-1)` in this order, and exactly `N - 1` connecting lines,
with the identifiers `line-0 .. line-(N-2)`. -/
theorem markers_and_lines_count (now : String) (text : String) (N : Nat) (_hN : 2 ≤ N)
    (_hx : (parseMermaid text).xAxis.length = N)
    (hd : (parseMermaid text).dataPoints.length = N) :
    (pointMarkers (convert now text)).length = N ∧
    (pointMarkers (convert now text)).map (·.id)
      = (List.range N).map (fun i => "point-" ++ toString i) ∧
    (connectingLines (convert now text)).length = N - 1 ∧
    (connectingLines (convert now text)).map (·.id)
      = (List.range (N - 1)).map (fun i => "line-" ++ toString i) := by
  have hp := pointMarkers_ids now (parseMermaid text) (calculateGeometry (parseMermaid text))
  have hl := connectingLines_ids now (parseMermaid text) (calculateGeometry (parseMermaid text))
  rw [calculateGeometry_points_length, hd] at hp hl
  refine ⟨?_, hp, ?_, hl⟩
  · have := congrArg List.length hp
    simpa [convert] using this
  · have := congrArg List.length hl
    simpa [convert] using this

theorem markers_and_lines_count_witness :
    (pointMarkers (convert "2024-01-01T00:00:00.000Z" salesText)).length = 3 ∧
    (pointMarkers (convert "2024-01-01T00:00:00.000Z" salesText)).map (·.id)
      = (List.range 3).map (fun i => "point-" ++ toString i) ∧
    (connectingLines (convert "2024-01-01T00:00:00.000Z" salesText)).length = 3 - 1 ∧
    (connectingLines (convert "2024-01-01T00:00:00.000Z" salesText)).map (·.id)
      = (List.range (3 - 1)).map (fun i => "line-" ++ toString i) :=
  markers_and_lines_count "2024-01-01T00:00:00.000Z" salesText 3 (by decide) (by decide!)
    (by decide!)

/-! ## Arithmetic on finite numbers -/

theorem nearest_two_pow_1023 : nearest ((2 : ℚ) ^ 1023) = 2 ^ 1023 := by
  have h := nearest_exact 1 1023 (by norm_num) (by norm_num)
  have e : (2 : ℚ) ^ (1023 : ℤ) = 2 ^ 1023 := zpow_ofNat 2 1023
  rw [Int.cast_one, one_mul, e] at h
  exact h

theorem nearest_neg_two_pow_1023 : nearest (-(2 : ℚ) ^ 1023) = -2 ^ 1023 := by
  have h := nearest_exact (-1) 1023 (by norm_num) (by norm_num)
  have e : (2 : ℚ) ^ (1023 : ℤ) = 2 ^ 1023 := zpow_ofNat 2 1023
  rw [Int.cast_neg, Int.cast_one, neg_one_mul, e] at h
  exact h

/-- No overflow: a value of magnitude at most `2^1023` rounds to a finite number. -/
theorem toBinary64_fin {q : ℚ} (h1 : -(2 : ℚ) ^ 1023 ≤ q) (h2 : q ≤ 2 ^ 1023) :
    toBinary64 q = JSNum.fin (nearest q) := by
  have u := nearest_mono h2
  have l := nearest_mono h1
  rw [nearest_two_pow_1023] at u
  rw [nearest_neg_two_pow_1023] at l
  unfold toBinary64
  rw [if_neg (by norm_num at u ⊢; linarith), if_neg (by norm_num at l ⊢; linarith)]

theorem toBinary64_intCast (n : ℤ) (h : |n| < 2 ^ 53) : toBinary64 (n : ℚ) = JSNum.fin n := by
  have hq : |(n : ℚ)| < 2 ^ 53 := by
    calc |(n : ℚ)| = ((|n| : ℤ) : ℚ) := (Int.cast_abs).symm
      _ < ((2 ^ 53 : ℤ) : ℚ) := Int.cast_lt.mpr h
      _ = 2 ^ 53 := by norm_num
  rw [abs_lt] at hq
  rw [toBinary64_fin (by norm_num at hq ⊢; linarith) (by norm_num at hq ⊢; linarith),
    nearest_intCast n h]

theorem toBinary64_natCast (n : ℕ) (h : n < 2 ^ 53) : toBinary64 (n : ℚ) = JSNum.fin n := by
  have := toBinary64_intCast (n : ℤ) (by rw [abs_of_nonneg (by positivity)]; exact_mod_cast h)
  simpa using this

/-- Rounding to binary64 is monotone. -/
theorem toBinary64_le {q1 q2 : ℚ} (h : q1 ≤ q2) :
    (toBinary64 q1).le (toBinary64 q2) = true := by
  have m := nearest_mono h
  unfold toBinary64
  split_ifs <;> simp [JSNum.le] <;> linarith

theorem fin_add (a b : ℚ) : (JSNum.fin a + JSNum.fin b) = toBinary64 (a + b) := rfl

theorem fin_sub (a b : ℚ) : (JSNum.fin a - JSNum.fin b) = toBinary64 (a - b) := by
  show toBinary64 (a + -b) = _
  rw [sub_eq_add_neg]

theorem fin_mul (a b : ℚ) : (JSNum.fin a * JSNum.fin b) = toBinary64 (a * b) := rfl

theorem fin_div (a b : ℚ) (hb : b ≠ 0) : (JSNum.fin a / JSNum.fin b) = toBinary64 (a / b) := by
  show JSNum.div _ _ = _
  simp [JSNum.div, hb]

theorem ofNat_eq_fin (n : Nat) (h : n < 2 ^ 53) : JSNum.ofNat n = JSNum.fin n :=
  toBinary64_natCast n h

theorem padding_eq : padding = JSNum.fin 60 := by decide!

theorem xOffset_eq : xOffset = JSNum.fin 30 := by decide!

theorem width_eq : width = JSNum.fin 600 := by decide!

theorem height_eq : height = JSNum.fin 400 := by decide!

theorem graphHeight_eq : graphHeight = JSNum.fin 280 := by decide!

theorem usableWidth_eq : usableWidth = JSNum.fin 420 := by decide!

/-! ## C2: the x-coordinate -/

/-- C2, counterexample. With two categories the second point is at `x = 510`, where the
formula of the specification gives `390`. -/
theorem x_formula_counterexample :
    (parseMermaid twoPointText).xAxis.length = 2 ∧
    (calculateGeometry (parseMermaid twoPointText)).points.map (·.x) = [90, 510] ∧
    (List.range 2).map (specX 2) = [90, 390] ∧
    (calculateGeometry (parseMermaid twoPointText)).points[1]?.map (·.x) ≠ some (specX 2 1) := by
  decide!

/-- C2, amended. For every chart model with `L > 1` category labels and every plotted index
`i`, the x-coordinate of point `i` is the binary64 value of
`padding + xOffset + i * (usableWidth / (L - 1))` with `usableWidth = graphWidth - 2 * xOffset`,
that is of `90 + i * (420 / (L - 1))`, each operation rounded as the program computes it: the
quotient first, then the product, then the sum. -/
theorem x_coordinate (cd : ChartData) (i : Nat) (hL : 1 < cd.xAxis.length)
    (hi : i < cd.dataPoints.length) :
    (calculateGeometry cd).points[i]?.map (·.x)
      = some (padding + xOffset +
          JSNum.ofNat i * ((graphWidth - xOffset * 2) / (JSNum.ofNat cd.xAxis.length - 1))) ∧
    (calculateGeometry cd).points[i]?.map (·.x)
      = some (JSNum.fin 90 +
          JSNum.ofNat i * (JSNum.fin 420 / (JSNum.ofNat cd.xAxis.length - 1))) := by
  have hget : (calculateGeometry cd).points[i]?.map (·.x)
      = some (padding + xOffset + JSNum.ofNat i * xStep cd) := by
    simp [calculateGeometry, List.getElem?_mapIdx, List.getElem?_eq_getElem hi]
  have hstep : xStep cd = (graphWidth - xOffset * 2) / (JSNum.ofNat cd.xAxis.length - 1) := by
    unfold xStep
    rw [if_pos hL]
    rfl
  have h90 : padding + xOffset = JSNum.fin 90 := by decide!
  have h420 : graphWidth - xOffset * 2 = JSNum.fin 420 := by decide!
  refine ⟨?_, ?_⟩
  · rw [hget, hstep]
  · rw [hget, hstep, h90, h420]

theorem x_coordinate_witness :
    (calculateGeometry (parseMermaid salesText)).points[1]?.map (·.x)
      = some (padding + xOffset +
          JSNum.ofNat 1 * ((graphWidth - xOffset * 2) /
            (JSNum.ofNat (parseMermaid salesText).xAxis.length - 1))) ∧
    (calculateGeometry (parseMermaid salesText)).points[1]?.map (·.x)
      = some (JSNum.fin 90 +
          JSNum.ofNat 1 * (JSNum.fin 420 /
            (JSNum.ofNat (parseMermaid salesText).xAxis.length - 1))) :=
  x_coordinate (parseMermaid salesText) 1 (by decide!) (by decide!)

/-! ## The value axis of a parsed model -/

theorem isJsSpace_of_isDigit (c : Char) (h : isDigit c = true) : isJsSpace c = false := by
  simp only [isDigit, Bool.and_eq_true, decide_eq_true_eq] at h
  simp only [isJsSpace, isLineTerminator, Bool.or_eq_false_iff, Bool.and_eq_false_iff,
    beq_eq_false_iff_ne, ne_eq, decide_eq_false_iff_not]
  omega

theorem takeWhile_all {p : Char → Bool} (l : List Char) (h : ∀ c ∈ l, p c = true) :
    l.takeWhile p = l := List.takeWhile_eq_self_iff.2 h

theorem dropWhile_all {p : Char → Bool} (l : List Char) (h : ∀ c ∈ l, p c = true) :
    l.dropWhile p = [] := List.dropWhile_eq_nil_iff.2 h

theorem parseUnsigned_digits (ds : List Char) (hne : ds ≠ [])
    (hd : ∀ c ∈ ds, isDigit c = true) : parseUnsigned ds = toBinary64 (decimalValue ds) := by
  cases ds with
  | nil => exact absurd rfl hne
  | cons c cs =>
    have hc : isDigit c = true := hd c (List.mem_cons_self _ _)
    have hI : "Infinity".toList.isPrefixOf (c :: cs) = false := by
      have : ¬ 'I' = c := by
        rintro rfl
        exact absurd hc (by decide)
      simp [String.toList, List.isPrefixOf, this]
    unfold parseUnsigned
    rw [hI]
    simp only [Bool.false_eq_true, if_false, takeWhile_all _ hd, dropWhile_all _ hd]
    simp [exponentPart]

theorem parseFloat_digits (ds : List Char) (hne : ds ≠ [])
    (hd : ∀ c ∈ ds, isDigit c = true) : parseFloat ds = toBinary64 (decimalValue ds) := by
  cases ds with
  | nil => exact absurd rfl hne
  | cons c cs =>
    have hc : isDigit c = true := hd c (List.mem_cons_self _ _)
    have hs : (c :: cs).dropWhile isJsSpace = c :: cs := by
      simp [List.dropWhile_cons, isJsSpace_of_isDigit c hc]
    unfold parseFloat
    rw [hs]
    split
    · rename_i r heq
      injection heq with h1 h2
      subst h1
      exact absurd hc (by decide)
    · rename_i r heq
      injection heq with h1 h2
      subst h1
      exact absurd hc (by decide)
    · exact parseUnsigned_digits _ hne hd

/-- The groups captured by the range pattern are non-empty runs of digits. -/
theorem matchRangeAt_digits (s lo hi : List Char) (h : matchRangeAt s = some (lo, hi)) :
    (lo ≠ [] ∧ ∀ c ∈ lo, isDigit c = true) ∧ (hi ≠ [] ∧ ∀ c ∈ hi, isDigit c = true) := by
  unfold matchRangeAt at h
  simp only at h
  split at h
  · simp at h
  · rename_i h1
    split at h
    · split at h
      · simp at h
      · rename_i h2
        simp only [Option.some.injEq, Prod.mk.injEq] at h
        obtain ⟨rfl, rfl⟩ := h
        exact ⟨⟨h1, fun c hc => List.mem_takeWhile_imp hc⟩,
          ⟨h2, fun c hc => List.mem_takeWhile_imp hc⟩⟩
    · simp at h

theorem matchRange_digits (s lo hi : List Char) (h : matchRange s = some (lo, hi)) :
    (lo ≠ [] ∧ ∀ c ∈ lo, isDigit c = true) ∧ (hi ≠ [] ∧ ∀ c ∈ hi, isDigit c = true) := by
  induction s with
  | nil => simp [matchRange] at h
  | cons c cs ih =>
    unfold matchRange at h
    split at h
    · rename_i r hr
      simp only [Option.some.injEq] at h
      subst h
      exact matchRangeAt_digits _ _ _ hr
    · exact ih h

theorem processYAxis_range (cd : ChartData) (line : List Char) :
    (matchRange (trim (removeFirst "y-axis".toList line)) = none ∧
      (processYAxis cd line).yAxis.min = cd.yAxis.min ∧
      (processYAxis cd line).yAxis.max = cd.yAxis.max) ∨
    (∃ lo hi, matchRange (trim (removeFirst "y-axis".toList line)) = some (lo, hi) ∧
      (processYAxis cd line).yAxis.min = toBinary64 (decimalValue lo) ∧
      (processYAxis cd line).yAxis.max = toBinary64 (decimalValue hi)) := by
  cases hr : matchRange (trim (removeFirst "y-axis".toList line)) with
  | none =>
    left
    refine ⟨rfl, ?_⟩
    simp only [processYAxis, hr]
    cases matchQuoted (trim (removeFirst "y-axis".toList line)) <;> exact ⟨rfl, rfl⟩
  | some r =>
    obtain ⟨lo, hi⟩ := r
    right
    obtain ⟨⟨h1, h2⟩, ⟨h3, h4⟩⟩ := matchRange_digits _ _ _ hr
    refine ⟨lo, hi, rfl, ?_⟩
    simp only [processYAxis, hr]
    cases matchQuoted (trim (removeFirst "y-axis".toList line)) <;>
      exact ⟨parseFloat_digits lo h1 h2, parseFloat_digits hi h3 h4⟩

theorem processLine_yAxis_cases (cd : ChartData) (line : List Char) :
    (processLine cd line).yAxis = cd.yAxis ∨ processLine cd line = processYAxis cd line := by
  unfold processLine
  split
  · exact Or.inl rfl
  · split
    · split <;> exact Or.inl rfl
    · split
      · exact Or.inr rfl
      · split
        · split <;> exact Or.inl rfl
        · exact Or.inl rfl

theorem processLine_natRange (cd : ChartData) (line : List Char) (h : NatRange cd) :
    NatRange (processLine cd line) := by
  rcases processLine_yAxis_cases cd line with he | he
  · unfold NatRange
    rw [he]
    exact h
  · rw [he]
    rcases processYAxis_range cd line with ⟨_, h1, h2⟩ | ⟨lo, hi, _, h1, h2⟩
    · unfold NatRange
      rw [h1, h2]
      exact h
    · exact ⟨_, _, h1, h2⟩

theorem foldl_natRange (lines : List (List Char)) (cd : ChartData) (h : NatRange cd) :
    NatRange (lines.foldl processLine cd) := by
  induction lines generalizing cd with
  | nil => exact h
  | cons l ls ih => exact ih _ (processLine_natRange cd l h)

/-- The bounds of the value axis of every parsed model are Number values of non-negative
integers: the defaults `0` and `100`, or digit runs captured by the range pattern. -/
theorem parseMermaid_natRange (text : String) : NatRange (parseMermaid text) :=
  foldl_natRange _ _ ⟨0, 100, by decide!, by decide!⟩

/-! ## The ticks of the value axis -/

theorem nearest_le_natCast {q : ℚ} {n : ℕ} (h : q ≤ n) (hn : n < 2 ^ 53) : nearest q ≤ n := by
  have := nearest_mono h
  rwa [nearest_natCast n hn] at this

theorem natCast_le_nearest {q : ℚ} {n : ℕ} (h : (n : ℚ) ≤ q) (hn : n < 2 ^ 53) :
    (n : ℚ) ≤ nearest q := by
  have := nearest_mono h
  rwa [nearest_natCast n hn] at this

theorem nearest_ofNat (n : ℕ) [n.AtLeastTwo] (hn : n < 2 ^ 53) :
    nearest (OfNat.ofNat n : ℚ) = OfNat.ofNat n := by
  have := nearest_natCast n hn
  simpa using this

theorem nearest_one : nearest 1 = 1 := by
  have := nearest_natCast 1 (by norm_num)
  simpa using this

theorem floor_int_add_half (z : ℤ) : ⌊(z : ℚ) + 1 / 2⌋ = z := by
  rw [Int.floor_eq_iff]
  constructor <;> norm_num

theorem tickFraction_bounds (i : ℕ) (hi : i ≤ 5) :
    0 ≤ nearest ((i : ℚ) / 5) ∧ nearest ((i : ℚ) / 5) ≤ 1 := by
  have h5 : (i : ℚ) ≤ 5 := by exact_mod_cast hi
  refine ⟨nearest_nonneg (by positivity), ?_⟩
  have := nearest_le_natCast (q := (i : ℚ) / 5) (n := 1)
    (by rw [div_le_iff₀ (by norm_num)]; simpa using h5) (by norm_num)
  simpa using this

/-- For integer bounds `a < b` below `2^53` the intermediate values of a tick stay between
the bounds. -/
theorem tickValueQ_bounds (a b : ℕ) (hab : a < b) (hb : b < 2 ^ 53) (i : ℕ) (hi : i ≤ 5) :
    0 ≤ nearest (((b : ℚ) - a) * nearest ((i : ℚ) / 5)) ∧
    nearest (((b : ℚ) - a) * nearest ((i : ℚ) / 5)) ≤ (b : ℚ) - a ∧
    (a : ℚ) ≤ nearest ((a : ℚ) + nearest (((b : ℚ) - a) * nearest ((i : ℚ) / 5))) ∧
    nearest ((a : ℚ) + nearest (((b : ℚ) - a) * nearest ((i : ℚ) / 5))) ≤ b ∧
    (a : ℤ) ≤ tickValueQ a b i ∧ tickValueQ a b i ≤ b := by
  obtain ⟨t0, t1⟩ := tickFraction_bounds i hi
  have hR : (0 : ℚ) < (b : ℚ) - a := by
    have : (a : ℚ) < b := by exact_mod_cast hab
    linarith
  have hRn : ((b - a : ℕ) : ℚ) = (b : ℚ) - a := by
    rw [Nat.cast_sub (le_of_lt hab)]
  have u0 : 0 ≤ nearest (((b : ℚ) - a) * nearest ((i : ℚ) / 5)) :=
    nearest_nonneg (mul_nonneg hR.le t0)
  have u1 : nearest (((b : ℚ) - a) * nearest ((i : ℚ) / 5)) ≤ (b : ℚ) - a := by
    rw [← hRn]
    apply nearest_le_natCast _ (by omega)
    rw [hRn]
    nlinarith
  have w0 : (a : ℚ) ≤ nearest ((a : ℚ) + nearest (((b : ℚ) - a) * nearest ((i : ℚ) / 5))) :=
    natCast_le_nearest (by linarith) (by omega)
  have w1 : nearest ((a : ℚ) + nearest (((b : ℚ) - a) * nearest ((i : ℚ) / 5))) ≤ b :=
    nearest_le_natCast (by linarith) hb
  refine ⟨u0, u1, w0, w1, ?_, ?_⟩
  · unfold tickValueQ
    apply Int.le_floor.2
    push_cast
    linarith
  · unfold tickValueQ
    have := Int.floor_mono (add_le_add_right w1 (1 / 2))
    have e := floor_int_add_half (b : ℤ)
    push_cast at e
    rw [e] at this
    exact this

theorem tickValueQ_mono (a b : ℕ) (hab : a ≤ b) {i j : ℕ} (hij : i ≤ j) :
    tickValueQ a b i ≤ tickValueQ a b j := by
  unfold tickValueQ
  apply Int.floor_mono
  apply add_le_add_right
  apply nearest_mono
  apply add_le_add_left
  apply nearest_mono
  apply mul_le_mul_of_nonneg_left
  · apply nearest_mono
    have : (i : ℚ) ≤ j := by exact_mod_cast hij
    linarith
  · have : (a : ℚ) ≤ b := by exact_mod_cast hab
    linarith

theorem tickValueQ_zero (a b : ℕ) (ha : a < 2 ^ 53) : tickValueQ a b 0 = a := by
  unfold tickValueQ
  simp only [Nat.cast_zero, zero_div, nearest_zero, mul_zero, add_zero]
  rw [nearest_natCast a ha]
  have e := floor_int_add_half (a : ℤ)
  push_cast at e
  exact e

theorem tickValueQ_five (a b : ℕ) (hab : a < b) (hb : b < 2 ^ 53) : tickValueQ a b 5 = b := by
  unfold tickValueQ
  have h1 : nearest (((5 : ℕ) : ℚ) / 5) = 1 := by
    have : (((5 : ℕ) : ℚ) / 5) = 1 := by norm_num
    rw [this, nearest_one]
  have hRn : ((b - a : ℕ) : ℚ) = (b : ℚ) - a := by
    rw [Nat.cast_sub (le_of_lt hab)]
  rw [h1, mul_one, ← hRn, nearest_natCast _ (by omega), hRn]
  have : (a : ℚ) + ((b : ℚ) - a) = b := by ring
  rw [this, nearest_natCast b hb]
  have e := floor_int_add_half (b : ℤ)
  push_cast at e
  exact e

/-- The tick value of the program for integer bounds `a < b` below `2^53`. -/
theorem tickValue_nat (cd : ChartData) (a b : ℕ) (hmin : cd.yAxis.min = JSNum.fin a)
    (hmax : cd.yAxis.max = JSNum.fin b) (hab : a < b) (hb : b < 2 ^ 53) (i : ℕ) (hi : i ≤ 5) :
    tickValue cd i = Rounded.int (tickValueQ a b i) := by
  obtain ⟨t0, t1⟩ := tickFraction_bounds i hi
  obtain ⟨u0, u1, w0, w1, _, _⟩ := tickValueQ_bounds a b hab hb i hi
  have hbq : (b : ℚ) < 2 ^ 53 := by exact_mod_cast hb
  have haq : (0 : ℚ) ≤ a := by positivity
  have habq : (a : ℚ) < b := by exact_mod_cast hab
  have hi5 : (i : ℚ) ≤ 5 := by exact_mod_cast hi
  have hRn : ((b - a : ℕ) : ℚ) = (b : ℚ) - a := by
    rw [Nat.cast_sub (le_of_lt hab)]
  have e1 : JSNum.fin (b : ℚ) - JSNum.fin (a : ℚ) = JSNum.fin ((b : ℚ) - a) := by
    rw [fin_sub, ← hRn, toBinary64_natCast _ (by omega)]
  have e2 : JSNum.ofNat i / JSNum.ofNat steps = JSNum.fin (nearest ((i : ℚ) / 5)) := by
    rw [ofNat_eq_fin i (by omega), ofNat_eq_fin steps (by decide), fin_div _ _ (by norm_num [steps])]
    have : ((steps : ℕ) : ℚ) = 5 := by norm_num [steps]
    rw [this]
    exact toBinary64_fin (by have : (0 : ℚ) ≤ (i : ℚ) / 5 := by positivity
                             norm_num; linarith)
      (by
        have : (i : ℚ) / 5 ≤ 1 := by rw [div_le_iff₀ (by norm_num)]; linarith
        norm_num; linarith)
  unfold tickValue tickValueQ
  rw [hmin, hmax]
  simp only [e1, e2]
  rw [fin_mul, toBinary64_fin (by norm_num; nlinarith) (by norm_num; nlinarith),
    fin_add, toBinary64_fin (by norm_num; linarith) (by norm_num; linarith)]
  rfl

/-- The tick position of the program for integer bounds `a < b` below `2^53`. -/
theorem tickYPos_nat (cd : ChartData) (a b : ℕ) (hmin : cd.yAxis.min = JSNum.fin a)
    (hmax : cd.yAxis.max = JSNum.fin b) (hab : a < b) (hb : b < 2 ^ 53) (i : ℕ) (hi : i ≤ 5) :
    tickYPos cd (calculateGeometry cd) i = JSNum.fin (tickYPosQ a b i) := by
  obtain ⟨_, _, _, _, z0, z1⟩ := tickValueQ_bounds a b hab hb i hi
  have habq : (a : ℚ) < b := by exact_mod_cast hab
  have hR : (0 : ℚ) < (b : ℚ) - a := by linarith
  have hRn : ((b - a : ℕ) : ℚ) = (b : ℚ) - a := by
    rw [Nat.cast_sub (le_of_lt hab)]
  have zq0 : (a : ℚ) ≤ (tickValueQ a b i : ℚ) := by exact_mod_cast z0
  have zq1 : (tickValueQ a b i : ℚ) ≤ b := by exact_mod_cast z1
  have e1 : JSNum.fin (b : ℚ) - JSNum.fin (a : ℚ) = JSNum.fin ((b : ℚ) - a) := by
    rw [fin_sub, ← hRn, toBinary64_natCast _ (by omega)]
  have e2 : JSNum.fin (tickValueQ a b i : ℚ) - JSNum.fin (a : ℚ)
      = JSNum.fin ((tickValueQ a b i : ℚ) - a) := by
    rw [fin_sub]
    have := toBinary64_intCast (tickValueQ a b i - a) (by rw [abs_lt]; constructor <;> omega)
    push_cast at this
    exact this
  have n0 : 0 ≤ ((tickValueQ a b i : ℚ) - a) / ((b : ℚ) - a) := div_nonneg (by linarith) hR.le
  have n1 : ((tickValueQ a b i : ℚ) - a) / ((b : ℚ) - a) ≤ 1 := by
    rw [div_le_one hR]
    linarith
  have nn0 : 0 ≤ nearest (((tickValueQ a b i : ℚ) - a) / ((b : ℚ) - a)) := nearest_nonneg n0
  have nn1 : nearest (((tickValueQ a b i : ℚ) - a) / ((b : ℚ) - a)) ≤ 1 := by
    have := nearest_mono n1
    rwa [nearest_one] at this
  have e3 : JSNum.fin ((tickValueQ a b i : ℚ) - a) / JSNum.fin ((b : ℚ) - a)
      = JSNum.fin (nearest (((tickValueQ a b i : ℚ) - a) / ((b : ℚ) - a))) := by
    rw [fin_div _ _ (ne_of_gt hR)]
    exact toBinary64_fin (by norm_num; linarith) (by norm_num; linarith)
  have m0 : 0 ≤ nearest (nearest (((tickValueQ a b i : ℚ) - a) / ((b : ℚ) - a)) * 280) :=
    nearest_nonneg (by positivity)
  have m1 : nearest (nearest (((tickValueQ a b i : ℚ) - a) / ((b : ℚ) - a)) * 280) ≤ 280 := by
    have := nearest_le_natCast
      (q := nearest (((tickValueQ a b i : ℚ) - a) / ((b : ℚ) - a)) * 280) (n := 280)
      (by push_cast; linarith) (by norm_num)
    simpa using this
  have e4 : JSNum.fin (nearest (((tickValueQ a b i : ℚ) - a) / ((b : ℚ) - a))) * JSNum.fin 280
      = JSNum.fin (nearest (nearest (((tickValueQ a b i : ℚ) - a) / ((b : ℚ) - a)) * 280)) := by
    rw [fin_mul]
    exact toBinary64_fin (by norm_num; linarith) (by norm_num; linarith)
  have h340 : (calculateGeometry cd).height - (calculateGeometry cd).padding = JSNum.fin 340 := by
    show height - padding = _
    decide!
  have h280 : (calculateGeometry cd).height - (calculateGeometry cd).padding * 2
      = JSNum.fin 280 := by
    show height - padding * 2 = _
    decide!
  unfold tickYPos tickYPosQ
  rw [tickValue_nat cd a b hmin hmax hab hb i hi, hmin, hmax]
  simp only [Rounded.toNum, h340, h280, e1, e2, e3, e4]
  rw [fin_sub]
  exact toBinary64_fin (by norm_num; linarith) (by norm_num; linarith)

theorem tickYPosQ_antitone (a b : ℕ) (hab : a < b) {i j : ℕ} (hij : i ≤ j) :
    tickYPosQ a b j ≤ tickYPosQ a b i := by
  have habq : (a : ℚ) < b := by exact_mod_cast hab
  have hR : (0 : ℚ) < (b : ℚ) - a := by linarith
  have hz : (tickValueQ a b i : ℚ) ≤ tickValueQ a b j := by
    exact_mod_cast tickValueQ_mono a b (le_of_lt hab) hij
  unfold tickYPosQ
  apply nearest_mono
  apply sub_le_sub_left
  apply nearest_mono
  apply mul_le_mul_of_nonneg_right _ (by norm_num)
  apply nearest_mono
  apply div_le_div_of_nonneg_right _ hR.le
  linarith

theorem tickYPosQ_zero (a b : ℕ) (ha : a < 2 ^ 53) : tickYPosQ a b 0 = 340 := by
  unfold tickYPosQ
  rw [tickValueQ_zero a b ha]
  simp only [Int.cast_natCast, sub_self, zero_div, nearest_zero, zero_mul, sub_zero]
  exact nearest_ofNat 340 (by norm_num)

theorem tickYPosQ_five (a b : ℕ) (hab : a < b) (hb : b < 2 ^ 53) : tickYPosQ a b 5 = 60 := by
  have habq : (a : ℚ) < b := by exact_mod_cast hab
  have hR : (b : ℚ) - a ≠ 0 := by linarith
  unfold tickYPosQ
  rw [tickValueQ_five a b hab hb]
  simp only [Int.cast_natCast, div_self hR, nearest_one, one_mul]
  rw [nearest_ofNat 280 (by norm_num)]
  have : (340 : ℚ) - 280 = 60 := by norm_num
  rw [this]
  exact nearest_ofNat 60 (by norm_num)

theorem nearest_two_pow_53 : nearest ((2 : ℚ) ^ 53) = 2 ^ 53 := by
  have h := nearest_exact 1 53 (by norm_num) (by norm_num)
  have e : (2 : ℚ) ^ (53 : ℤ) = 2 ^ 53 := zpow_ofNat 2 53
  rw [Int.cast_one, one_mul, e] at h
  exact h

/-- A Number value of a natural number that is below a bound of at most `2^53` is that
natural number. -/
theorem toBinary64_nat_of_lt {n : ℕ} {c : ℚ} (hc : c ≤ 2 ^ 53)
    (h : (toBinary64 n).lt (JSNum.fin c) = true) :
    toBinary64 n = JSNum.fin n ∧ (n : ℚ) < c := by
  have hn : n < 2 ^ 53 := by
    by_contra hge
    push_neg at hge
    have hq : (2 : ℚ) ^ 53 ≤ n := by exact_mod_cast hge
    have := nearest_mono hq
    rw [nearest_two_pow_53] at this
    unfold toBinary64 at h
    split_ifs at h with h1 h2
    · simp [JSNum.lt] at h
    · norm_num at h2 this
      linarith
    · simp only [JSNum.lt, decide_eq_true_eq] at h
      linarith
  have e := toBinary64_natCast n hn
  rw [e] at h
  exact ⟨e, by simpa [JSNum.lt] using h⟩

/-- C3, counterexample. On the value axis `1 --> 9007199254740994` the top tick is not at
`y = 60`: the range `max - min` rounds to `2^53`, the value of tick 5 to `2^53`, and
`(2^53 - 1) / 2^53 * 280` is below `280`. -/
theorem wide_range_counterexample :
    JSNum.lt (parseMermaid wideRangeText).yAxis.min (parseMermaid wideRangeText).yAxis.max = true ∧
    tickYPos (parseMermaid wideRangeText) (calculateGeometry (parseMermaid wideRangeText)) 5
      = JSNum.fin (60 + 1 / 2 ^ 44) ∧
    tickYPos (parseMermaid wideRangeText) (calculateGeometry (parseMermaid wideRangeText)) 5
      ≠ JSNum.fin 60 := by
  decide!

/-- C3, amended. For every input text whose parsed value axis has `min < max < 2^53`, the
y positions of the six ticks of the value axis move up the screen as the tick index grows
(`yPos(i+1) <= yPos(i)` for `i = 0..4`), tick 0 is at `y = 340` and tick 5 at `y = 60`. -/
theorem ticks_monotone (text : String)
    (hlt : JSNum.lt (parseMermaid text).yAxis.min (parseMermaid text).yAxis.max = true)
    (hmax : JSNum.lt (parseMermaid text).yAxis.max (JSNum.fin (2 ^ 53)) = true) :
    tickYPos (parseMermaid text) (calculateGeometry (parseMermaid text)) 0 = JSNum.fin 340 ∧
    tickYPos (parseMermaid text) (calculateGeometry (parseMermaid text)) 5 = JSNum.fin 60 ∧
    ∀ i, i < 5 →
      JSNum.le (tickYPos (parseMermaid text) (calculateGeometry (parseMermaid text)) (i + 1))
        (tickYPos (parseMermaid text) (calculateGeometry (parseMermaid text)) i) = true := by
  obtain ⟨a, b, hmin, hmax'⟩ := parseMermaid_natRange text
  rw [hmax'] at hmax
  obtain ⟨eb, hb⟩ := toBinary64_nat_of_lt (le_refl _) hmax
  rw [eb] at hmax'
  rw [hmin, hmax'] at hlt
  obtain ⟨ea, hab⟩ := toBinary64_nat_of_lt (le_of_lt hb) hlt
  rw [ea] at hmin
  have hb' : b < 2 ^ 53 := by exact_mod_cast hb
  have hab' : a < b := by exact_mod_cast hab
  refine ⟨?_, ?_, ?_⟩
  · rw [tickYPos_nat _ a b hmin hmax' hab' hb' 0 (by norm_num), tickYPosQ_zero a b (by omega)]
  · rw [tickYPos_nat _ a b hmin hmax' hab' hb' 5 (by norm_num), tickYPosQ_five a b hab' hb']
  · intro i hi
    rw [tickYPos_nat _ a b hmin hmax' hab' hb' (i + 1) (by omega),
      tickYPos_nat _ a b hmin hmax' hab' hb' i (by omega)]
    simp only [JSNum.le, decide_eq_true_eq]
    exact tickYPosQ_antitone a b hab' (Nat.le_succ i)

theorem ticks_monotone_witness :
    tickYPos (parseMermaid salesText) (calculateGeometry (parseMermaid salesText)) 0
      = JSNum.fin 340 ∧
    tickYPos (parseMermaid salesText) (calculateGeometry (parseMermaid salesText)) 5
      = JSNum.fin 60 ∧
    ∀ i, i < 5 →
      JSNum.le (tickYPos (parseMermaid salesText) (calculateGeometry (parseMermaid salesText)) (i + 1))
        (tickYPos (parseMermaid salesText) (calculateGeometry (parseMermaid salesText)) i) = true :=
  ticks_monotone salesText (by decide!) (by decide!)

/-! ## C4: the spacing of the ticks -/

/-- C4, failing input. On the value axis `0 --> 1` the tick values are rounded to
`0, 0, 0, 1, 1, 1`, so the ticks sit at `y = 340, 340, 340, 60, 60, 60`: tick 1 is not at
`340 - 56 = 284`, the labels are stacked, and the grid lines `grid-1` and `grid-2` are drawn
from `(60, 340)` to `(540, 340)`, on top of the horizontal axis `axis-x`. -/
theorem unit_range_ticks :
    JSNum.lt (parseMermaid unitRangeText).yAxis.min (parseMermaid unitRangeText).yAxis.max = true ∧
    (List.range 6).map
      (tickYPos (parseMermaid unitRangeText) (calculateGeometry (parseMermaid unitRangeText)))
      = [JSNum.fin 340, JSNum.fin 340, JSNum.fin 340, JSNum.fin 60, JSNum.fin 60, JSNum.fin 60] ∧
    (List.range 6).map (fun i => (tickValue (parseMermaid unitRangeText) i).toString)
      = ["0", "0", "0", "1", "1", "1"] ∧
    tickYPos (parseMermaid unitRangeText) (calculateGeometry (parseMermaid unitRangeText)) 1
      ≠ JSNum.fin (340 - 56 * 1) ∧
    (cellsWithId "axis-x" (convert morning unitRangeText)).map (·.geometry)
      = [MxGeometry.edge ⟨JSNum.fin 60, JSNum.fin 340⟩ ⟨JSNum.fin 540, JSNum.fin 340⟩] ∧
    (cellsWithId "grid-1" (convert morning unitRangeText)).map (·.geometry)
      = [MxGeometry.edge ⟨JSNum.fin 60, JSNum.fin 340⟩ ⟨JSNum.fin 540, JSNum.fin 340⟩] ∧
    (cellsWithId "grid-2" (convert morning unitRangeText)).map (·.geometry)
      = [MxGeometry.edge ⟨JSNum.fin 60, JSNum.fin 340⟩ ⟨JSNum.fin 540, JSNum.fin 340⟩] := by
  decide!

/-! ## C5: the tick labels -/

theorem abs_nearest_le {q : ℚ} {k : ℕ} (h : |q| ≤ 2 ^ k) : |nearest q| ≤ 2 ^ k := by
  have e : nearest ((2 : ℚ) ^ k) = 2 ^ k := by
    have h := nearest_exact 1 k (by norm_num) (by omega)
    rw [Int.cast_one, one_mul, zpow_natCast] at h
    exact h
  have e' : nearest (-(2 : ℚ) ^ k) = -2 ^ k := by
    have h := nearest_exact (-1) k (by norm_num) (by omega)
    rw [Int.cast_neg, Int.cast_one, neg_one_mul, zpow_natCast] at h
    exact h
  rw [abs_le] at h ⊢
  have u := nearest_mono h.2
  have l := nearest_mono h.1
  rw [e] at u
  rw [e'] at l
  exact ⟨l, u⟩

theorem digitCandidate_spec (x n k v : ℕ) (h : digitCandidate x n k = some v) :
    toBinary64 (v : ℚ) = JSNum.fin x := by
  unfold digitCandidate at h
  split_ifs at h <;> (injection h with h; subst h; assumption)

theorem shortestDecimal_spec (x v k : ℕ) (h : shortestDecimal x = some (v, k)) :
    toBinary64 (v : ℚ) = JSNum.fin x := by
  unfold shortestDecimal at h
  obtain ⟨k', _, hk⟩ := List.exists_of_findSome?_eq_some h
  cases hc : digitCandidate x (Nat.toDigits 10 x).length k' with
  | none => rw [hc] at hk; exact Option.noConfusion hk
  | some v' =>
    rw [hc] at hk
    simp only [Option.map_some', Option.some.injEq, Prod.mk.injEq] at hk
    rw [← hk.1]
    exact digitCandidate_spec _ _ _ _ hc

/-- Below `2^53` a natural number is the only one with its Number value. -/
theorem eq_of_toBinary64_eq (v x : ℕ) (hx : x < 2 ^ 53)
    (h : toBinary64 (v : ℚ) = JSNum.fin x) : v = x := by
  by_cases hv : v < 2 ^ 53
  · rw [toBinary64_natCast v hv] at h
    injection h with h
    exact_mod_cast h
  · exfalso
    push_neg at hv
    have hq : (2 : ℚ) ^ 53 ≤ v := by exact_mod_cast hv
    have hm := nearest_mono hq
    rw [nearest_two_pow_53] at hm
    have hxq : (x : ℚ) < 2 ^ 53 := by exact_mod_cast hx
    unfold toBinary64 at h
    split_ifs at h
    injection h with h
    linarith

/-- Below `2^53` the rendering of a natural number is its decimal expansion. -/
theorem renderNat_small (x : ℕ) (hx : x < 2 ^ 53) : renderNat x = toString x := by
  unfold renderNat
  cases h : shortestDecimal x with
  | none => rfl
  | some r =>
    obtain ⟨v, k⟩ := r
    have hv : v = x := eq_of_toBinary64_eq v x hx (shortestDecimal_spec x v k h)
    subst hv
    have : v < 10 ^ 21 := by
      have : (2 : ℕ) ^ 53 < 10 ^ 21 := by norm_num
      omega
    simp only [this, if_true]

theorem int_toString_ofNat (n : ℕ) : toString (n : ℤ) = toString n := rfl

theorem int_toString_negSucc (n : ℕ) : toString (Int.negSucc n) = "-" ++ toString (n + 1) := rfl

/-- Below `2^53` in magnitude the rendering of an integer is its decimal expansion. -/
theorem toString_small (z : ℤ) (hz : |z| < 2 ^ 53) :
    (Rounded.int z).toString = toString z := by
  have hb := abs_lt.1 hz
  have hn : z.natAbs < 2 ^ 53 := by omega
  show (if z < 0 then "-" ++ renderNat z.natAbs else renderNat z.natAbs) = _
  rw [renderNat_small _ hn]
  cases z with
  | ofNat n =>
    have h0 : ¬ Int.ofNat n < 0 := Int.not_lt.2 (Int.ofNat_nonneg n)
    rw [if_neg h0]
    rfl
  | negSucc n =>
    rw [if_pos (Int.negSucc_lt_zero n)]
    rfl

/-- The tick value of the program for integer bounds of magnitude at most `2^46`. -/
theorem tickValue_int (cd : ChartData) (a b : ℤ) (hmin : cd.yAxis.min = JSNum.fin a)
    (hmax : cd.yAxis.max = JSNum.fin b) (ha : |a| ≤ 2 ^ 46) (hb : |b| ≤ 2 ^ 46)
    (i : ℕ) (hi : i ≤ 5) :
    tickValue cd i = Rounded.int (tickValueQ a b i) := by
  obtain ⟨t0, t1⟩ := tickFraction_bounds i hi
  have ha' := abs_le.1 ha
  have hb' := abs_le.1 hb
  have haq : |(a : ℚ)| ≤ 2 ^ 46 := by
    rw [← Int.cast_abs]
    exact_mod_cast ha
  have hbq : |(b : ℚ)| ≤ 2 ^ 46 := by
    rw [← Int.cast_abs]
    exact_mod_cast hb
  have haq' := abs_le.1 haq
  have hbq' := abs_le.1 hbq
  have hi5 : (i : ℚ) ≤ 5 := by exact_mod_cast hi
  have e1 : JSNum.fin (b : ℚ) - JSNum.fin (a : ℚ) = JSNum.fin ((b : ℚ) - a) := by
    rw [fin_sub]
    have := toBinary64_intCast (b - a) (by rw [abs_lt]; constructor <;> omega)
    push_cast at this
    exact this
  have e2 : JSNum.ofNat i / JSNum.ofNat steps = JSNum.fin (nearest ((i : ℚ) / 5)) := by
    rw [ofNat_eq_fin i (by omega), ofNat_eq_fin steps (by decide), fin_div _ _ (by norm_num [steps])]
    have : ((steps : ℕ) : ℚ) = 5 := by norm_num [steps]
    rw [this]
    exact toBinary64_fin (by have : (0 : ℚ) ≤ (i : ℚ) / 5 := by positivity
                             norm_num; linarith)
      (by
        have : (i : ℚ) / 5 ≤ 1 := by rw [div_le_iff₀ (by norm_num)]; linarith
        norm_num; linarith)
  have hp : |((b : ℚ) - a) * nearest ((i : ℚ) / 5)| ≤ 2 ^ 47 := by
    rw [abs_le]
    constructor <;> nlinarith
  have hu := abs_le.1 (abs_nearest_le hp)
  have hp' := abs_le.1 hp
  unfold tickValue tickValueQ
  rw [hmin, hmax]
  simp only [e1, e2]
  rw [fin_mul, toBinary64_fin (by norm_num; linarith) (by norm_num; linarith),
    fin_add, toBinary64_fin (by norm_num; linarith) (by norm_num; linarith)]
  rfl

/-- For integer bounds of magnitude at most `2^46` the rounding errors of the three
operations do not change the integer nearest to `a + (b - a) * i / 5`. -/
theorem tickValueQ_exact (a b : ℤ) (ha : |a| ≤ 2 ^ 46) (hb : |b| ≤ 2 ^ 46)
    (i : ℕ) (hi : i ≤ 5) :
    tickValueQ a b i = ⌊(a : ℚ) + ((b : ℚ) - a) * (i : ℚ) / 5 + 1 / 2⌋ := by
  obtain ⟨t0, t1⟩ := tickFraction_bounds i hi
  have haq : |(a : ℚ)| ≤ 2 ^ 46 := by
    rw [← Int.cast_abs]
    exact_mod_cast ha
  have hbq : |(b : ℚ)| ≤ 2 ^ 46 := by
    rw [← Int.cast_abs]
    exact_mod_cast hb
  have haq' := abs_le.1 haq
  have hbq' := abs_le.1 hbq
  have hi5 : (i : ℚ) ≤ 5 := by exact_mod_cast hi
  have hi0 : (0 : ℚ) ≤ i := by positivity
  -- the three rounding errors
  have x0 : 0 ≤ (i : ℚ) / 5 := by positivity
  have x1 : (i : ℚ) / 5 ≤ 1 := by rw [div_le_iff₀ (by norm_num)]; linarith
  have et := nearest_error ((i : ℚ) / 5)
  rw [abs_of_nonneg x0] at et
  have et' := abs_le.1 et
  set t := nearest ((i : ℚ) / 5) with ht
  have hp : |((b : ℚ) - a) * t| ≤ 2 ^ 47 := by
    rw [abs_le]
    constructor <;> nlinarith
  have hp' := abs_le.1 hp
  have eu := nearest_error (((b : ℚ) - a) * t)
  have hu := abs_le.1 (abs_nearest_le hp)
  set u := nearest (((b : ℚ) - a) * t) with hu_def
  have eu' := abs_le.1 eu
  have hs : |(a : ℚ) + u| ≤ 2 ^ 48 := by
    rw [abs_le]
    constructor <;> norm_num <;> linarith
  have ew := nearest_error ((a : ℚ) + u)
  set w := nearest ((a : ℚ) + u) with hw_def
  have ew' := abs_le.1 ew
  -- the distance of w to the exact value
  have hR : |(b : ℚ) - a| ≤ 2 ^ 47 := by
    rw [abs_le]
    constructor <;> linarith
  have hR' := abs_le.1 hR
  have d1 : |((b : ℚ) - a) * t - ((b : ℚ) - a) * ((i : ℚ) / 5)| ≤ 2 ^ 47 * (1 / 2 ^ 53 + 1 / 2 ^ 1075) := by
    rw [← mul_sub, abs_mul]
    apply mul_le_mul hR _ (abs_nonneg _) (by positivity)
    rw [abs_le]
    constructor <;> linarith
  have d1' := abs_le.1 d1
  have d2 : |u - ((b : ℚ) - a) * t| ≤ 2 ^ 47 / 2 ^ 53 + 1 / 2 ^ 1075 := by
    have : |((b : ℚ) - a) * t| / 2 ^ 53 ≤ 2 ^ 47 / 2 ^ 53 :=
      div_le_div_of_nonneg_right hp (by positivity)
    linarith
  have d2' := abs_le.1 d2
  have d3 : |w - ((a : ℚ) + u)| ≤ 2 ^ 48 / 2 ^ 53 + 1 / 2 ^ 1075 := by
    have : |(a : ℚ) + u| / 2 ^ 53 ≤ 2 ^ 48 / 2 ^ 53 :=
      div_le_div_of_nonneg_right hs (by positivity)
    linarith
  have d3' := abs_le.1 d3
  have hclose : |w - ((a : ℚ) + ((b : ℚ) - a) * (i : ℚ) / 5)| < 1 / 10 := by
    rw [abs_lt]
    have c : (2 : ℚ) ^ 47 * (1 / 2 ^ 53 + 1 / 2 ^ 1075) + (2 ^ 47 / 2 ^ 53 + 1 / 2 ^ 1075)
        + (2 ^ 48 / 2 ^ 53 + 1 / 2 ^ 1075) < 1 / 10 := by norm_num
    have e : ((b : ℚ) - a) * ((i : ℚ) / 5) = ((b : ℚ) - a) * (i : ℚ) / 5 := by ring
    rw [e] at d1'
    constructor <;> linarith
  have hclose' := abs_lt.1 hclose
  -- the exact value is at least a tenth away from the next half-integer
  unfold tickValueQ
  rw [← ht, ← hu_def, ← hw_def]
  set N := ⌊(a : ℚ) + ((b : ℚ) - a) * (i : ℚ) / 5 + 1 / 2⌋ with hN
  have f1 : (N : ℚ) ≤ (a : ℚ) + ((b : ℚ) - a) * (i : ℚ) / 5 + 1 / 2 := Int.floor_le _
  have f2 : (a : ℚ) + ((b : ℚ) - a) * (i : ℚ) / 5 + 1 / 2 < N + 1 := Int.lt_floor_add_one _
  have hM : (10 : ℚ) * ((a : ℚ) + ((b : ℚ) - a) * (i : ℚ) / 5 + 1 / 2)
      = ((2 * (5 * a + (b - a) * i) + 5 : ℤ) : ℚ) := by
    push_cast
    ring
  have g1 : 10 * N ≤ 2 * (5 * a + (b - a) * i) + 5 := by
    have : (10 : ℚ) * N ≤ ((2 * (5 * a + (b - a) * i) + 5 : ℤ) : ℚ) := by
      rw [← hM]; linarith
    exact_mod_cast this
  have g2 : 2 * (5 * a + (b - a) * i) + 5 < 10 * N + 10 := by
    have : ((2 * (5 * a + (b - a) * i) + 5 : ℤ) : ℚ) < 10 * N + 10 := by
      rw [← hM]; linarith
    exact_mod_cast this
  have g3 : 10 * N + 1 ≤ 2 * (5 * a + (b - a) * i) + 5 := by omega
  have g4 : 2 * (5 * a + (b - a) * i) + 5 ≤ 10 * N + 9 := by omega
  have k1 : (10 : ℚ) * N + 1 ≤ 10 * ((a : ℚ) + ((b : ℚ) - a) * (i : ℚ) / 5 + 1 / 2) := by
    rw [hM]; exact_mod_cast g3
  have k2 : 10 * ((a : ℚ) + ((b : ℚ) - a) * (i : ℚ) / 5 + 1 / 2) ≤ (10 : ℚ) * N + 9 := by
    rw [hM]; exact_mod_cast g4
  rw [Int.floor_eq_iff]
  constructor <;> linarith

theorem hasTag_ylabel_yLabelCell (cd : ChartData) (g : Geometry) (i : Nat) :
    hasTag "ylabel-" (yLabelCell cd g i) = true := hasTag_of_id _ (toString i) _ rfl

theorem hasTag_ylabel_gridCell (cd : ChartData) (g : Geometry) (i : Nat) :
    hasTag "ylabel-" (gridCell cd g i) = false :=
  hasTag_false _ 'y' _ rfl (by rw [idHead_gridCell]; decide)

theorem tickCells_ylabels {β : Type} (h : MxCell → β) (cd : ChartData) (g : Geometry) :
    ((tickCells cd g).filter (hasTag "ylabel-")).map h
      = (List.range 6).map (fun i => h (yLabelCell cd g i)) := by
  have hstep : ∀ i : ℕ, ((yLabelCell cd g i ::
      (if i > 0 then [gridCell cd g i] else [])).filter (hasTag "ylabel-")).map h
      = [h (yLabelCell cd g i)] := by
    intro i
    by_cases hi : i > 0
    · simp only [hi, if_true, List.filter_cons, List.filter_nil, hasTag_ylabel_yLabelCell,
        hasTag_ylabel_gridCell]
      rfl
    · simp only [hi, if_false, List.filter_cons, List.filter_nil, hasTag_ylabel_yLabelCell]
      rfl
  unfold tickCells
  rw [filter_flatten_map, ← flatten_map_singleton (fun i => h (yLabelCell cd g i))]
  simp only [hstep]
  rfl

theorem ylabels_map {β : Type} (h : MxCell → β) (now : String) (cd : ChartData) (g : Geometry) :
    (cellsTagged "ylabel-" (generateDrawioXML now cd g)).map h
      = (List.range 6).map (fun i => h (yLabelCell cd g i)) := by
  have e1 : (frameCells g).filter (hasTag "ylabel-") = [] := by
    apply filter_tag_eq_nil "ylabel-" 'y' _ rfl
    intro c hc
    rcases idHead_frameCells g c hc with h | h | h <;> rw [h] <;> decide
  have e2 : (xLabelCells cd g).filter (hasTag "ylabel-") = [] := by
    apply filter_tag_eq_nil "ylabel-" 'y' _ rfl
    intro c hc
    rw [idHead_xLabelCells cd g c hc]
    decide
  have e3 : (seriesCells cd g).filter (hasTag "ylabel-") = [] := by
    apply filter_tag_eq_nil "ylabel-" 'y' _ rfl
    intro c hc
    rcases idHead_seriesCells cd g c hc with h | h <;> rw [h] <;> decide
  have e4 : [titleCell cd g].filter (hasTag "ylabel-") = [] := by
    apply filter_tag_eq_nil "ylabel-" 'y' _ rfl
    intro c hc
    rw [List.mem_singleton.1 hc, idHead_titleCell]
    decide
  rw [cellsTagged_map, tickCells_ylabels, e1, e2, e3, e4]
  simp

/-- C5, counterexample. On the value axis `0 --> 1125899906842628` the value of `ylabel-4`
is `900719925474103`: the product `yRange * (4/5)` rounds to `900719925474102.5`, which
`Math.round` takes up, while `min + (max - min) * 4/5 = 900719925474102.4` rounds to
`900719925474102`. -/
theorem large_range_label_counterexample :
    (parseMermaid largeRangeText).yAxis.min = JSNum.fin 0 ∧
    (parseMermaid largeRangeText).yAxis.max = JSNum.fin 1125899906842628 ∧
    (cellsWithId "ylabel-4" (convert morning largeRangeText)).map (·.value)
      = [some (Attr.str "900719925474103")] ∧
    toString (round ((0 : ℚ) + ((1125899906842628 : ℚ) - 0) * ((4 : ℕ) : ℚ) / 5))
      = "900719925474102" := by
  decide!

/-- C5, amended. For every chart model with integer `min` and `max` of magnitude at most
`2^46`, the document has exactly six tick labels `ylabel-0 .. ylabel-5`, and the value of
`ylabel-i` is the decimal rendering of `min + (max - min) * i/5` rounded to the nearest
integer; for `min = 0`, `max = 100` the six values are `0, 20, 40, 60, 80, 100`. -/
theorem tick_labels (now : String) (cd : ChartData) (g : Geometry) (a b : ℤ)
    (hmin : cd.yAxis.min = JSNum.fin a) (hmax : cd.yAxis.max = JSNum.fin b)
    (ha : |a| ≤ 2 ^ 46) (hb : |b| ≤ 2 ^ 46) :
    (cellsTagged "ylabel-" (generateDrawioXML now cd g)).map (fun c => (c.id, c.value))
      = (List.range 6).map (fun i : ℕ =>
          ("ylabel-" ++ toString i,
            some (Attr.str (toString (round ((a : ℚ) + ((b : ℚ) - a) * (i : ℚ) / 5))))))
    ∧ (a = 0 → b = 100 →
        (cellsTagged "ylabel-" (generateDrawioXML now cd g)).map (·.value)
          = [some (Attr.str "0"), some (Attr.str "20"), some (Attr.str "40"),
             some (Attr.str "60"), some (Attr.str "80"), some (Attr.str "100")]) := by
  have hv : ∀ i : ℕ, i < 6 → (yLabelCell cd g i).value
      = some (Attr.str (toString (round ((a : ℚ) + ((b : ℚ) - a) * i / 5)))) := by
    intro i hi
    show some (Attr.str (tickValue cd i).toString) = _
    rw [tickValue_int cd a b hmin hmax ha hb i (by omega), tickValueQ_exact a b ha hb i (by omega),
      round_eq]
    rw [toString_small]
    -- the rounded value is between the bounds, up to one
    have haq : |(a : ℚ)| ≤ 2 ^ 46 := by
      rw [← Int.cast_abs]
      exact_mod_cast ha
    have hbq : |(b : ℚ)| ≤ 2 ^ 46 := by
      rw [← Int.cast_abs]
      exact_mod_cast hb
    have haq' := abs_le.1 haq
    have hbq' := abs_le.1 hbq
    have hi5 : (i : ℚ) ≤ 5 := by
      have : i ≤ 5 := by omega
      exact_mod_cast this
    have hi0 : (0 : ℚ) ≤ i := by positivity
    have e : (a : ℚ) + ((b : ℚ) - a) * (i : ℚ) / 5
        = (a : ℚ) * (1 - (i : ℚ) / 5) + (b : ℚ) * ((i : ℚ) / 5) := by ring
    have x0 : 0 ≤ (i : ℚ) / 5 := by positivity
    have x1 : (i : ℚ) / 5 ≤ 1 := by rw [div_le_iff₀ (by norm_num)]; linarith
    have lo : -(2 : ℚ) ^ 46 ≤ (a : ℚ) + ((b : ℚ) - a) * (i : ℚ) / 5 := by
      rw [e]; nlinarith
    have hi' : (a : ℚ) + ((b : ℚ) - a) * (i : ℚ) / 5 ≤ 2 ^ 46 := by
      rw [e]; nlinarith
    rw [abs_lt]
    constructor
    · have : ((-2 ^ 46 : ℤ) : ℚ) ≤ (a : ℚ) + ((b : ℚ) - a) * (i : ℚ) / 5 + 1 / 2 := by
        push_cast; linarith
      have := Int.le_floor.2 this
      omega
    · have : (a : ℚ) + ((b : ℚ) - a) * (i : ℚ) / 5 + 1 / 2 < ((2 ^ 46 + 1 : ℤ) : ℚ) := by
        push_cast; linarith
      have := Int.floor_lt.2 this
      omega
  refine ⟨?_, ?_⟩
  · rw [ylabels_map]
    apply List.map_congr_left
    intro i hi
    show ((yLabelCell cd g i).id, (yLabelCell cd g i).value) = _
    rw [hv i (List.mem_range.1 hi)]
    rfl
  · rintro rfl rfl
    rw [ylabels_map]
    have : (List.range 6).map (fun i => (yLabelCell cd g i).value)
        = (List.range 6).map (fun i : ℕ =>
            some (Attr.str (toString (round (((0 : ℤ) : ℚ) + (((100 : ℤ) : ℚ) - (0 : ℤ)) * i / 5))))) :=
      List.map_congr_left (fun i hi => hv i (List.mem_range.1 hi))
    rw [this]
    decide!

theorem tick_labels_witness :
    (cellsTagged "ylabel-" (convert "2024-01-01T00:00:00.000Z" salesText)).map
        (fun c => (c.id, c.value))
      = (List.range 6).map (fun i : ℕ =>
          ("ylabel-" ++ toString i,
            some (Attr.str (toString (round (((0 : ℤ) : ℚ) + (((100 : ℤ) : ℚ) - (0 : ℤ)) * (i : ℚ) / 5))))))
    ∧ ((0 : ℤ) = 0 → (100 : ℤ) = 100 →
        (cellsTagged "ylabel-" (convert "2024-01-01T00:00:00.000Z" salesText)).map (·.value)
          = [some (Attr.str "0"), some (Attr.str "20"), some (Attr.str "40"),
             some (Attr.str "60"), some (Attr.str "80"), some (Attr.str "100")]) :=
  tick_labels "2024-01-01T00:00:00.000Z" (parseMermaid salesText)
    (calculateGeometry (parseMermaid salesText)) 0 100 (by decide!) (by decide!)
    (by decide) (by decide)

/-! ## C6: a single point -/

/-- C6. For every chart model with exactly one category label and exactly one series value
(and `max != min`), the horizontal step is `usableWidth` itself (no division takes place),
the only point is at `x = padding + xOffset = 90`, and the document has exactly one point
marker, `point-0`, and no connecting line. -/
theorem single_point (now : String) (cd : ChartData) (hx : cd.xAxis.length = 1)
    (hd : cd.dataPoints.length = 1) (_hne : cd.yAxis.max ≠ cd.yAxis.min) :
    xStep cd = usableWidth ∧
    (calculateGeometry cd).points.map (·.x) = [padding + xOffset] ∧
    (calculateGeometry cd).points.map (·.x) = [JSNum.fin 90] ∧
    (pointMarkers (generateDrawioXML now cd (calculateGeometry cd))).map (·.id) = ["point-0"] ∧
    connectingLines (generateDrawioXML now cd (calculateGeometry cd)) = [] := by
  have hstep : xStep cd = usableWidth := by
    unfold xStep
    rw [hx]
    simp
  obtain ⟨v, hv⟩ := List.length_eq_one.1 hd
  have hpts : (calculateGeometry cd).points.map (·.x) = [JSNum.fin 90] := by
    simp only [calculateGeometry, hv, List.mapIdx_cons, List.mapIdx_nil, List.map_cons,
      List.map_nil, hstep]
    decide!
  refine ⟨hstep, ?_, hpts, ?_, ?_⟩
  · rw [hpts]
    decide!
  · rw [pointMarkers_ids, calculateGeometry_points_length, hd]
    rfl
  · have h := connectingLines_ids now cd (calculateGeometry cd)
    rw [calculateGeometry_points_length, hd] at h
    exact List.map_eq_nil_iff.1 h

theorem single_point_witness :
    xStep (parseMermaid singlePointText) = usableWidth ∧
    (calculateGeometry (parseMermaid singlePointText)).points.map (·.x) = [padding + xOffset] ∧
    (calculateGeometry (parseMermaid singlePointText)).points.map (·.x) = [JSNum.fin 90] ∧
    (pointMarkers (generateDrawioXML "2024-01-01T00:00:00.000Z" (parseMermaid singlePointText)
      (calculateGeometry (parseMermaid singlePointText)))).map (·.id) = ["point-0"] ∧
    connectingLines (generateDrawioXML "2024-01-01T00:00:00.000Z" (parseMermaid singlePointText)
      (calculateGeometry (parseMermaid singlePointText))) = [] :=
  single_point "2024-01-01T00:00:00.000Z" (parseMermaid singlePointText) (by decide!)
    (by decide!) (by decide!)

/-! ## C8: the title -/

theorem removeFirst_of_isPrefixOf (pat l : List Char) (h : pat.isPrefixOf l = true) :
    removeFirst pat l = l.drop pat.length := by
  cases l with
  | nil =>
    cases pat with
    | nil => rfl
    | cons a t => simp [List.isPrefixOf] at h
  | cons c cs =>
    unfold removeFirst
    rw [if_pos h]

theorem processLine_title (cd : ChartData) (line : List Char) :
    (processLine cd line).title
      = if "title".toList.isPrefixOf line then titleOf line else cd.title := by
  unfold processLine
  by_cases h : "title".toList.isPrefixOf line = true
  · rw [if_pos h, if_pos h, removeFirst_of_isPrefixOf _ _ h]
    rfl
  · rw [if_neg h, if_neg h]
    split
    · split <;> rfl
    · split
      · unfold processYAxis
        simp only
        split <;> split <;> rfl
      · split
        · split <;> rfl
        · rfl

theorem foldl_title (lines : List (List Char)) (cd : ChartData) :
    (lines.foldl processLine cd).title
      = match (lines.filter (fun l => "title".toList.isPrefixOf l)).getLast? with
        | some line => titleOf line
        | none => cd.title := by
  induction lines generalizing cd with
  | nil => rfl
  | cons l ls ih =>
    rw [List.foldl_cons, ih, processLine_title]
    by_cases h : "title".toList.isPrefixOf l = true
    · rw [if_pos h, List.filter_cons_of_pos h]
      cases hf : ls.filter (fun l => "title".toList.isPrefixOf l) with
      | nil => simp
      | cons x xs =>
        simp only [List.getLast?_cons_cons]
        rw [List.getLast?_eq_getLast _ (List.cons_ne_nil x xs)]
    · rw [if_neg h, List.filter_cons_of_neg h]

theorem filter_eq_nil_of_head (p : MxCell → Bool) (a : Char)
    (hp : ∀ c, p c = true → idHead c = some a) (l : List MxCell)
    (h : ∀ c ∈ l, idHead c ≠ some a) : l.filter p = [] := by
  rw [List.filter_eq_nil_iff]
  intro c hc hpc
  exact h c hc (hp c hpc)

theorem idHead_of_id_title (c : MxCell) (h : (c.id == "title") = true) :
    idHead c = some 't' := by
  have : c.id = "title" := by simpa using h
  unfold idHead
  rw [this]
  rfl

theorem titleCells_eq (now : String) (cd : ChartData) (g : Geometry) :
    cellsWithId "title" (generateDrawioXML now cd g) = [titleCell cd g] := by
  have e1 : (frameCells g).filter (fun c => c.id == "title") = [] := by
    apply filter_eq_nil_of_head _ 't' idHead_of_id_title
    intro c hc
    rcases idHead_frameCells g c hc with h | h | h <;> rw [h] <;> decide
  have e2 : (xLabelCells cd g).filter (fun c => c.id == "title") = [] := by
    apply filter_eq_nil_of_head _ 't' idHead_of_id_title
    intro c hc
    rw [idHead_xLabelCells cd g c hc]
    decide
  have e3 : (tickCells cd g).filter (fun c => c.id == "title") = [] := by
    apply filter_eq_nil_of_head _ 't' idHead_of_id_title
    intro c hc
    rcases idHead_tickCells cd g c hc with h | h <;> rw [h] <;> decide
  have e4 : (seriesCells cd g).filter (fun c => c.id == "title") = [] := by
    apply filter_eq_nil_of_head _ 't' idHead_of_id_title
    intro c hc
    rcases idHead_seriesCells cd g c hc with h | h <;> rw [h] <;> decide
  have e5 : [titleCell cd g].filter (fun c => c.id == "title") = [titleCell cd g] := by
    rw [List.filter_cons_of_pos (by rfl)]
    rfl
  simp only [cellsWithId, generateDrawioXML, List.filter_append, e1, e2, e3, e4, e5,
    List.nil_append]

/-- C8. For every input text that contains a title directive, the parsed title is the
text of the last title line with the `title` prefix and every double quote removed and the
remainder trimmed, and the document has exactly one primitive with the identifier `title`,
whose value is that parsed title, unchanged. -/
theorem title_value (now : String) (text : String) (h : titleLines text ≠ []) :
    ∃ line, (titleLines text).getLast? = some line ∧
      (parseMermaid text).title
        = String.mk (trim ((line.drop "title".length).filter (· ≠ dquote))) ∧
      (cellsWithId "title" (convert now text)).map (·.value)
        = [some (Attr.str (parseMermaid text).title)] := by
  obtain ⟨line, hl⟩ : ∃ line, (titleLines text).getLast? = some line := by
    cases hg : (titleLines text).getLast? with
    | none => exact absurd (List.getLast?_eq_none_iff.1 hg) h
    | some line => exact ⟨line, rfl⟩
  refine ⟨line, hl, ?_, ?_⟩
  · unfold parseMermaid
    rw [foldl_title]
    unfold titleLines at hl
    rw [hl]
    rfl
  · unfold convert
    rw [titleCells_eq]
    rfl

theorem title_value_witness :
    ∃ line, (titleLines twoTitlesText).getLast? = some line ∧
      (parseMermaid twoTitlesText).title
        = String.mk (trim ((line.drop "title".length).filter (· ≠ dquote))) ∧
      (cellsWithId "title" (convert "2024-01-01T00:00:00.000Z" twoTitlesText)).map (·.value)
        = [some (Attr.str (parseMermaid twoTitlesText).title)] :=
  title_value "2024-01-01T00:00:00.000Z" twoTitlesText (by decide!)

/-! ## The range pattern -/

theorem takeWhile_append_stop {p : Char → Bool} (l r : List Char) (hl : ∀ c ∈ l, p c = true)
    (hr : ∀ c, r.head? = some c → p c = false) : (l ++ r).takeWhile p = l := by
  rw [List.takeWhile_append_of_pos hl]
  cases r with
  | nil => simp
  | cons c cs =>
    have := hr c rfl
    simp [List.takeWhile_cons, this]

theorem dropWhile_append_stop {p : Char → Bool} (l r : List Char) (hl : ∀ c ∈ l, p c = true)
    (hr : ∀ c, r.head? = some c → p c = false) : (l ++ r).dropWhile p = r := by
  rw [List.dropWhile_append_of_pos hl]
  cases r with
  | nil => simp
  | cons c cs =>
    have := hr c rfl
    simp [List.dropWhile_cons, this]

theorem head_spaces_arrow (s1 rest : List Char) (hs : IsSpaces s1) :
    ∀ c, (s1 ++ ("-->".toList ++ rest)).head? = some c → isDigit c = false := by
  intro c hc
  cases s1 with
  | nil =>
    simp only [List.nil_append] at hc
    have : c = '-' := by
      have h : ("-->".toList ++ rest).head? = some '-' := rfl
      rw [h] at hc
      exact (Option.some.inj hc).symm
    rw [this]
    decide
  | cons x xs =>
    simp only [List.cons_append, List.head?_cons, Option.some.injEq] at hc
    subst hc
    have hx := hs x (List.mem_cons_self _ _)
    cases hd : isDigit x with
    | false => rfl
    | true => rw [isJsSpace_of_isDigit x hd] at hx; exact absurd hx (by decide)

theorem head_arrow_not_space (rest : List Char) :
    ∀ c, ("-->".toList ++ rest).head? = some c → isJsSpace c = false := by
  intro c hc
  have h : ("-->".toList ++ rest).head? = some '-' := rfl
  rw [h] at hc
  rw [← Option.some.inj hc]
  decide

theorem head_digits_not_space (b rest : List Char) (hb : IsDigits b) :
    ∀ c, (b ++ rest).head? = some c → isJsSpace c = false := by
  intro c hc
  obtain ⟨hne, hd⟩ := hb
  cases b with
  | nil => exact absurd rfl hne
  | cons x xs =>
    simp only [List.cons_append, List.head?_cons, Option.some.injEq] at hc
    subst hc
    exact isJsSpace_of_isDigit _ (hd _ (List.mem_cons_self _ _))

/-- The attempt succeeds on a text that starts with a range, and captures its bounds (the
second one up to the last digit). -/
theorem matchRangeAt_of_range (a s1 s2 b post : List Char) (ha : IsDigits a)
    (h1 : IsSpaces s1) (h2 : IsSpaces s2) (hb : IsDigits b) (hp : NoDigitAhead post) :
    matchRangeAt (a ++ (s1 ++ ("-->".toList ++ (s2 ++ (b ++ post))))) = some (a, b) := by
  unfold matchRangeAt
  have e1 : (a ++ (s1 ++ ("-->".toList ++ (s2 ++ (b ++ post))))).takeWhile isDigit = a :=
    takeWhile_append_stop _ _ ha.2 (head_spaces_arrow s1 _ h1)
  have e2 : (a ++ (s1 ++ ("-->".toList ++ (s2 ++ (b ++ post))))).dropWhile isDigit
      = s1 ++ ("-->".toList ++ (s2 ++ (b ++ post))) :=
    dropWhile_append_stop _ _ ha.2 (head_spaces_arrow s1 _ h1)
  have e3 : (s1 ++ ("-->".toList ++ (s2 ++ (b ++ post)))).dropWhile isJsSpace
      = '-' :: '-' :: '>' :: (s2 ++ (b ++ post)) :=
    dropWhile_append_stop _ _ h1 (head_arrow_not_space _)
  have e4 : (s2 ++ (b ++ post)).dropWhile isJsSpace = b ++ post :=
    dropWhile_append_stop _ _ h2 (head_digits_not_space b post hb)
  have e5 : (b ++ post).takeWhile isDigit = b := takeWhile_append_stop _ _ hb.2 hp
  simp only [e1, e2, e3, e4, e5, if_neg ha.1, if_neg hb.1]

/-- An attempt that succeeds has found a range at the start of the text. -/
theorem range_of_matchRangeAt (t lo hi : List Char) (h : matchRangeAt t = some (lo, hi)) :
    StartsWithRange t lo hi := by
  obtain ⟨hlo, hhi⟩ := matchRangeAt_digits t lo hi h
  unfold matchRangeAt at h
  simp only at h
  split at h
  · simp at h
  · split at h
    · rename_i r hr
      split at h
      · simp at h
      · simp only [Option.some.injEq, Prod.mk.injEq] at h
        obtain ⟨e1, e2⟩ := h
        refine ⟨(t.dropWhile isDigit).takeWhile isJsSpace, r.takeWhile isJsSpace,
          (r.dropWhile isJsSpace).dropWhile isDigit, ?_, hlo,
          fun c hc => List.mem_takeWhile_imp hc, fun c hc => List.mem_takeWhile_imp hc, hhi⟩
        have k1 : t = lo ++ t.dropWhile isDigit := by
          rw [← e1]
          exact (List.takeWhile_append_dropWhile isDigit t).symm
        have k2 : t.dropWhile isDigit = (t.dropWhile isDigit).takeWhile isJsSpace
            ++ ('-' :: '-' :: '>' :: r) := by
          rw [← hr]
          exact (List.takeWhile_append_dropWhile isJsSpace _).symm
        have k3 : r = r.takeWhile isJsSpace ++ (hi ++ (r.dropWhile isJsSpace).dropWhile isDigit) := by
          rw [← e2, List.takeWhile_append_dropWhile, List.takeWhile_append_dropWhile]
        calc t = lo ++ t.dropWhile isDigit := k1
          _ = lo ++ ((t.dropWhile isDigit).takeWhile isJsSpace ++ ('-' :: '-' :: '>' :: r)) := by
              rw [← k2]
          _ = _ := by rw [← k3]; rfl
    · simp at h

theorem noDigitAhead_dropWhile (l : List Char) : NoDigitAhead (l.dropWhile isDigit) := by
  intro c hc
  have := List.head?_dropWhile_not isDigit l
  rw [hc] at this
  exact this

/-- On a text that starts with a range the attempt succeeds. -/
theorem matchRangeAt_isSome_of_range (t a b : List Char) (h : StartsWithRange t a b) :
    ∃ hi, matchRangeAt t = some (a, hi) := by
  obtain ⟨s1, s2, post, rfl, ha, h1, h2, hb⟩ := h
  refine ⟨b ++ post.takeWhile isDigit, ?_⟩
  have hb' : IsDigits (b ++ post.takeWhile isDigit) := by
    refine ⟨by simp [hb.1], ?_⟩
    intro c hc
    rcases List.mem_append.1 hc with h | h
    · exact hb.2 c h
    · exact List.mem_takeWhile_imp h
  have := matchRangeAt_of_range a s1 s2 (b ++ post.takeWhile isDigit) (post.dropWhile isDigit)
    ha h1 h2 hb' (noDigitAhead_dropWhile post)
  rw [List.append_assoc, List.takeWhile_append_dropWhile] at this
  exact this

theorem not_range_of_matchRangeAt_none (t : List Char) (h : matchRangeAt t = none) :
    ¬ ∃ a b, StartsWithRange t a b := by
  rintro ⟨a, b, hr⟩
  obtain ⟨hi, hm⟩ := matchRangeAt_isSome_of_range t a b hr
  rw [h] at hm
  exact Option.noConfusion hm

theorem matchRangeAt_none_of_not_range (t : List Char) (h : ¬ ∃ a b, StartsWithRange t a b) :
    matchRangeAt t = none := by
  cases hm : matchRangeAt t with
  | none => rfl
  | some r => exact absurd ⟨r.1, r.2, range_of_matchRangeAt t r.1 r.2 hm⟩ h

theorem matchRangeAt_nil : matchRangeAt [] = none := rfl

/-- The search skips the positions at which no range starts. -/
theorem matchRange_drop (n : Nat) (s : List Char)
    (h : ∀ k, k < n → ¬ ∃ a b, StartsWithRange (s.drop k) a b) :
    matchRange s = matchRange (s.drop n) := by
  induction n generalizing s with
  | zero => rfl
  | succ n ih =>
    cases s with
    | nil => rfl
    | cons c cs =>
      have h0 : matchRangeAt (c :: cs) = none :=
        matchRangeAt_none_of_not_range _ (h 0 (Nat.succ_pos n))
      have hcs : matchRange (c :: cs) = matchRange cs := by
        rw [matchRange, h0]
      rw [hcs, List.drop_succ_cons]
      exact ih cs (fun k hk => h (k + 1) (Nat.succ_lt_succ hk))

theorem matchRange_of_matchRangeAt (s : List Char) (r : List Char × List Char)
    (h : matchRangeAt s = some r) : matchRange s = some r := by
  cases s with
  | nil => simp [matchRangeAt_nil] at h
  | cons c cs => rw [matchRange, h]

/-- A successful search has found a range somewhere in the text. -/
theorem range_of_matchRange (s lo hi : List Char) (h : matchRange s = some (lo, hi)) :
    ∃ k, StartsWithRange (s.drop k) lo hi := by
  induction s with
  | nil => simp [matchRange] at h
  | cons c cs ih =>
    unfold matchRange at h
    split at h
    · rename_i r hr
      simp only [Option.some.injEq] at h
      subst h
      exact ⟨0, range_of_matchRangeAt _ _ _ hr⟩
    · obtain ⟨k, hk⟩ := ih h
      exact ⟨k + 1, hk⟩

theorem not_range_of_matchRange_none (s : List Char) (h : matchRange s = none) :
    ∀ k a b, ¬ StartsWithRange (s.drop k) a b := by
  induction s with
  | nil =>
    intro k a b hr
    rw [List.drop_nil] at hr
    exact not_range_of_matchRangeAt_none [] rfl ⟨a, b, hr⟩
  | cons c cs ih =>
    unfold matchRange at h
    split at h
    · exact Option.noConfusion h
    · rename_i hr
      intro k a b hs
      cases k with
      | zero => exact not_range_of_matchRangeAt_none _ hr ⟨a, b, hs⟩
      | succ k => exact ih h k a b hs

theorem processLine_yAxis (cd : ChartData) (line : List Char)
    (hy : "y-axis".toList.isPrefixOf line = true) :
    processLine cd line = processYAxis cd line := by
  cases line with
  | nil => simp [String.toList, List.isPrefixOf] at hy
  | cons c cs =>
    have hc : c = 'y' := by
      simp only [String.toList, List.isPrefixOf, Bool.and_eq_true, beq_iff_eq] at hy
      exact hy.1.symm
    subst hc
    unfold processLine
    rw [if_neg (by simp [String.toList, List.isPrefixOf]),
      if_neg (by simp [String.toList, List.isPrefixOf]), if_pos hy]

/-! ## C9: the bounds read by a `y-axis` directive -/

/-- C9, counterexample. The range pattern captures runs of digits only, so a sign or an
integer part in front of the digits next to the arrow is not part of the bound:
`-10 --> 50` sets `min = 10`, and `0.5 --> 1.5` sets `min = 5` and `max = 1`. -/
theorem signed_range_counterexample :
    (parseMermaid "y-axis -10 --> 50").yAxis.min = JSNum.fin 10 ∧
    (parseMermaid "y-axis -10 --> 50").yAxis.min ≠ JSNum.fin (-10) ∧
    (parseMermaid "y-axis -10 --> 50").yAxis.max = JSNum.fin 50 ∧
    (parseMermaid "y-axis 0.5 --> 1.5").yAxis.min = JSNum.fin 5 ∧
    (parseMermaid "y-axis 0.5 --> 1.5").yAxis.min ≠ JSNum.fin (1 / 2) ∧
    (parseMermaid "y-axis 0.5 --> 1.5").yAxis.max = JSNum.fin 1 ∧
    (parseMermaid "y-axis 0.5 --> 1.5").yAxis.max ≠ JSNum.fin (3 / 2) := by
  decide!

/-- C9, amended. For every `y-axis` directive whose remainder contains a range `a --> b`
where `a` and `b` are unsigned decimal integers (runs of ASCII digits, `b` up to its last
digit) and no such range starts further left, the directive sets `min` to the Number value
of `a` and `max` to the Number value of `b`: the binary64 number nearest to the integer,
which is the integer itself when it is below `2^53`. -/
theorem range_bounds (cd : ChartData) (line pre a s1 s2 b post : List Char)
    (hy : "y-axis".toList.isPrefixOf line = true)
    (hparts : trim (removeFirst "y-axis".toList line)
      = pre ++ (a ++ (s1 ++ ("-->".toList ++ (s2 ++ (b ++ post))))))
    (ha : IsDigits a) (h1 : IsSpaces s1) (h2 : IsSpaces s2) (hb : IsDigits b)
    (hp : NoDigitAhead post)
    (hleft : ∀ k, k < pre.length → ¬ ∃ a' b', StartsWithRange
      ((pre ++ (a ++ (s1 ++ ("-->".toList ++ (s2 ++ (b ++ post)))))).drop k) a' b') :
    (processLine cd line).yAxis.min = toBinary64 (decimalValue a) ∧
    (processLine cd line).yAxis.max = toBinary64 (decimalValue b) ∧
    (decimalValue a < 2 ^ 53 → (processLine cd line).yAxis.min = JSNum.fin (decimalValue a)) ∧
    (decimalValue b < 2 ^ 53 → (processLine cd line).yAxis.max = JSNum.fin (decimalValue b)) := by
  have hm : matchRange (trim (removeFirst "y-axis".toList line)) = some (a, b) := by
    rw [hparts, matchRange_drop pre.length _ hleft, List.drop_left]
    exact matchRange_of_matchRangeAt _ _ (matchRangeAt_of_range a s1 s2 b post ha h1 h2 hb hp)
  rw [processLine_yAxis cd line hy]
  rcases processYAxis_range cd line with ⟨hn, _, _⟩ | ⟨lo, hi, hs, hlo, hhi⟩
  · rw [hm] at hn
    exact Option.noConfusion hn
  · rw [hm] at hs
    simp only [Option.some.injEq, Prod.mk.injEq] at hs
    obtain ⟨rfl, rfl⟩ := hs
    exact ⟨hlo, hhi, fun h => by rw [hlo, toBinary64_natCast _ h],
      fun h => by rw [hhi, toBinary64_natCast _ h]⟩

theorem range_bounds_witness :
    (processLine defaultChartData "y-axis \"USD\" 7 --> 250".toList).yAxis.min
      = toBinary64 (decimalValue "7".toList) ∧
    (processLine defaultChartData "y-axis \"USD\" 7 --> 250".toList).yAxis.max
      = toBinary64 (decimalValue "250".toList) ∧
    (decimalValue "7".toList < 2 ^ 53 →
      (processLine defaultChartData "y-axis \"USD\" 7 --> 250".toList).yAxis.min
        = JSNum.fin (decimalValue "7".toList)) ∧
    (decimalValue "250".toList < 2 ^ 53 →
      (processLine defaultChartData "y-axis \"USD\" 7 --> 250".toList).yAxis.max
        = JSNum.fin (decimalValue "250".toList)) :=
  range_bounds defaultChartData "y-axis \"USD\" 7 --> 250".toList "\"USD\" ".toList "7".toList
    " ".toList " ".toList "250".toList [] (by decide) (by decide)
    (by decide) (by decide) (by decide) (by decide)
    (by intro c hc; exact Option.noConfusion hc)
    (by
      intro k hk
      have hk6 : k < 6 := hk
      interval_cases k <;> exact not_range_of_matchRangeAt_none _ (by decide))

/-! ## C10: a `y-axis` directive without a numeric range -/

/-- C10, counterexample. The directive `y-axis a --> b` leaves the bounds at their
defaults `0` and `100`; neither of them is `NaN`. -/
theorem non_numeric_range_counterexample :
    (parseMermaid "y-axis a --> b").yAxis.min = JSNum.fin 0 ∧
    (parseMermaid "y-axis a --> b").yAxis.max = JSNum.fin 100 ∧
    (parseMermaid "y-axis a --> b").yAxis.min ≠ JSNum.nan ∧
    (parseMermaid "y-axis a --> b").yAxis.max ≠ JSNum.nan := by
  decide!

/-- C10, amended. For every `y-axis` directive whose remainder contains no range of the
form `digits --> digits` (for example `y-axis a --> b`), the directive leaves `min` and
`max` at the values they had before it (the defaults `0` and `100`, or those set by an
earlier directive). -/
theorem bounds_kept_without_range (cd : ChartData) (line : List Char)
    (hy : "y-axis".toList.isPrefixOf line = true)
    (hno : ∀ k a b, ¬ StartsWithRange ((trim (removeFirst "y-axis".toList line)).drop k) a b) :
    (processLine cd line).yAxis.min = cd.yAxis.min ∧
    (processLine cd line).yAxis.max = cd.yAxis.max := by
  rw [processLine_yAxis cd line hy]
  rcases processYAxis_range cd line with ⟨_, h1, h2⟩ | ⟨lo, hi, hs, _, _⟩
  · exact ⟨h1, h2⟩
  · obtain ⟨k, hk⟩ := range_of_matchRange _ _ _ hs
    exact absurd hk (hno k lo hi)

theorem bounds_kept_without_range_witness :
    (processLine (parseMermaid "y-axis 5 --> 20") "y-axis a --> b".toList).yAxis.min
      = (parseMermaid "y-axis 5 --> 20").yAxis.min ∧
    (processLine (parseMermaid "y-axis 5 --> 20") "y-axis a --> b".toList).yAxis.max
      = (parseMermaid "y-axis 5 --> 20").yAxis.max :=
  bounds_kept_without_range (parseMermaid "y-axis 5 --> 20") "y-axis a --> b".toList
    (by decide) (not_range_of_matchRange_none _ (by decide))

/-! ## C7: a well-formed chart text -/

theorem trim_cons_space (c : Char) (s : List Char) (h : isJsSpace c = true) :
    trim (c :: s) = trim s := by
  simp [trim, List.dropWhile_cons, h]

theorem trim_of_ends (c d : Char) (m : List Char) (hc : isJsSpace c = false)
    (hd : isJsSpace d = false) : trim (c :: (m ++ [d])) = c :: (m ++ [d]) := by
  have h1 : (c :: (m ++ [d])).dropWhile isJsSpace = c :: (m ++ [d]) := by
    simp [List.dropWhile_cons, hc]
  have h2 : (c :: (m ++ [d])).reverse = d :: (c :: m).reverse := by simp
  unfold trim
  rw [h1, h2]
  have h3 : (d :: (c :: m).reverse).dropWhile isJsSpace = d :: (c :: m).reverse := by
    simp [List.dropWhile_cons, hd]
  rw [h3]
  simp

theorem lazyUntil_append (close : Char) (body rest : List Char)
    (h : ∀ c ∈ body, c ≠ close ∧ isLineTerminator c = false) :
    lazyUntil close (body ++ close :: rest) = some body := by
  induction body with
  | nil => simp [lazyUntil]
  | cons x xs ih =>
    have hx := h x (List.mem_cons_self _ _)
    have ih' := ih (fun c hc => h c (List.mem_cons_of_mem _ hc))
    simp [lazyUntil, hx.1, hx.2, ih']

theorem matchDelimited_skip (opening close : Char) (pre s : List Char)
    (h : ∀ c ∈ pre, c ≠ opening) :
    matchDelimited opening close (pre ++ s) = matchDelimited opening close s := by
  induction pre with
  | nil => rfl
  | cons x xs ih =>
    have hx := h x (List.mem_cons_self _ _)
    simp only [List.cons_append, matchDelimited, if_neg hx]
    exact ih (fun c hc => h c (List.mem_cons_of_mem _ hc))

theorem matchDelimited_found (opening close : Char) (body rest : List Char)
    (h : ∀ c ∈ body, c ≠ close ∧ isLineTerminator c = false) :
    matchDelimited opening close (opening :: (body ++ close :: rest)) = some body := by
  simp only [matchDelimited, if_true, lazyUntil_append close body rest h]

theorem intercalate_cons_head (sep : List Char) (a : Char) (z : List Char)
    (rest : List (List Char)) :
    sep.intercalate ((a :: z) :: rest) = a :: sep.intercalate (z :: rest) := by
  cases rest <;> simp [List.intercalate, List.intersperse]

theorem commaList_eq (x : List Char) (xs : List (List Char)) :
    commaList (x :: xs) = [','].intercalate (x :: xs.map (' ' :: ·)) := by
  induction xs generalizing x with
  | nil => simp [commaList, List.intercalate]
  | cons y ys ih =>
    have h1 : commaList (x :: y :: ys) = x ++ (',' :: ' ' :: commaList (y :: ys)) := by
      simp [commaList, List.intercalate, String.toList]
    have h2 : [','].intercalate (x :: (y :: ys).map (' ' :: ·))
        = x ++ (',' :: ' ' :: [','].intercalate (y :: ys.map (' ' :: ·))) := by
      rw [← intercalate_cons_head]
      simp [List.intercalate]
    rw [h1, h2, ih y]

theorem splitOn_commaList (x : List Char) (xs : List (List Char))
    (h : ∀ s ∈ x :: xs, ∀ c ∈ s, c ≠ ',') :
    (commaList (x :: xs)).splitOn ',' = x :: xs.map (' ' :: ·) := by
  rw [commaList_eq]
  refine List.splitOn_intercalate _ ',' ?_ ?_
  · intro l hl hmem
    rcases List.mem_cons.1 hl with rfl | hl
    · exact h l (List.mem_cons_self _ _) ',' hmem rfl
    · obtain ⟨s, hs, rfl⟩ := List.mem_map.1 hl
      rcases List.mem_cons.1 hmem with hc | hc
      · exact absurd hc (by decide)
      · exact h s (List.mem_cons_of_mem _ hs) ',' hc rfl
  · exact List.cons_ne_nil _ _

theorem map_trim_commaList {β : Type} (f : List Char → β) (items : List (List Char))
    (hne : items ≠ []) (h : ∀ s ∈ items, ∀ c ∈ s, c ≠ ',') :
    ((commaList items).splitOn ',').map (fun s => f (trim s)) = items.map (fun s => f (trim s)) := by
  cases items with
  | nil => exact absurd rfl hne
  | cons x xs =>
    rw [splitOn_commaList x xs h]
    rw [List.map_cons, List.map_cons, List.map_map]
    have ht : ((fun s => f (trim s)) ∘ fun s => ' ' :: s) = fun s => f (trim s) := by
      funext s
      show f (trim (' ' :: s)) = f (trim s)
      rw [trim_cons_space ' ' s (by decide)]
    rw [ht]

theorem mem_commaList (items : List (List Char)) (c : Char) (hc : c ∈ commaList items) :
    c = ',' ∨ c = ' ' ∨ ∃ s ∈ items, c ∈ s := by
  induction items with
  | nil => simp [commaList, List.intercalate] at hc
  | cons x xs ih =>
    cases xs with
    | nil =>
      simp only [commaList, List.intercalate, List.intersperse, List.flatten_cons,
        List.flatten_nil, List.append_nil] at hc
      exact Or.inr (Or.inr ⟨x, List.mem_cons_self _ _, hc⟩)
    | cons y ys =>
      have h1 : commaList (x :: y :: ys) = x ++ (',' :: ' ' :: commaList (y :: ys)) := by
        simp [commaList, List.intercalate, String.toList]
      rw [h1] at hc
      rcases List.mem_append.1 hc with h | h
      · exact Or.inr (Or.inr ⟨x, List.mem_cons_self _ _, h⟩)
      · rcases List.mem_cons.1 h with h | h
        · exact Or.inl h
        · rcases List.mem_cons.1 h with h | h
          · exact Or.inr (Or.inl h)
          · rcases ih h with h | h | ⟨s, hs, hcs⟩
            · exact Or.inl h
            · exact Or.inr (Or.inl h)
            · exact Or.inr (Or.inr ⟨s, List.mem_cons_of_mem _ hs, hcs⟩)

theorem matchBracket_list (pre : List Char) (items : List (List Char))
    (hpre : ∀ c ∈ pre, c ≠ '[') (h : ∀ s ∈ items, IsItem s) :
    matchBracket (pre ++ ('[' :: (commaList items ++ [']']))) = some (commaList items) := by
  unfold matchBracket
  rw [matchDelimited_skip _ _ _ _ hpre]
  apply matchDelimited_found
  intro c hc
  rcases mem_commaList items c hc with rfl | rfl | ⟨s, hs, hcs⟩
  · decide
  · decide
  · exact ⟨(h s hs c hcs).2.2.1, (h s hs c hcs).2.2.2⟩

theorem dropWhile_eq_self_of_head {p : Char → Bool} (s : List Char)
    (h : ∀ c, s.head? = some c → p c = false) : s.dropWhile p = s := by
  cases s with
  | nil => rfl
  | cons c cs => simp [List.dropWhile_cons, h c rfl]

theorem trim_eq_self (s : List Char) (hh : ∀ c, s.head? = some c → isJsSpace c = false)
    (hl : ∀ c, s.getLast? = some c → isJsSpace c = false) : trim s = s := by
  unfold trim
  rw [dropWhile_eq_self_of_head s hh, dropWhile_eq_self_of_head s.reverse
    (by rw [List.head?_reverse]; exact hl), List.reverse_reverse]

theorem startsWithRange_head (t a b : List Char) (h : StartsWithRange t a b) :
    ∃ c, t.head? = some c ∧ isDigit c = true := by
  obtain ⟨s1, s2, post, rfl, ha, _, _, _⟩ := h
  obtain ⟨hne, hd⟩ := ha
  cases a with
  | nil => exact absurd rfl hne
  | cons x xs => exact ⟨x, rfl, hd x (List.mem_cons_self _ _)⟩

theorem matchRange_cons_of_not_digit (c : Char) (s : List Char) (hc : isDigit c = false) :
    matchRange (c :: s) = matchRange s := by
  have h0 : matchRangeAt (c :: s) = none := by
    apply matchRangeAt_none_of_not_range
    rintro ⟨a, b, hr⟩
    obtain ⟨x, hx, hd⟩ := startsWithRange_head _ _ _ hr
    simp only [List.head?_cons, Option.some.injEq] at hx
    subst hx
    rw [hc] at hd
    exact Bool.false_ne_true hd
  rw [matchRange, h0]

theorem prefix_of_barrier (q : Char) (occ t r post : List Char) (hq : q ∉ occ)
    (h : t ++ q :: r = occ ++ post) : ∃ x, t = occ ++ x := by
  induction occ generalizing t with
  | nil => exact ⟨t, rfl⟩
  | cons o os ih =>
    cases t with
    | nil =>
      simp only [List.nil_append, List.cons_append, List.cons.injEq] at h
      exact absurd (h.1 ▸ List.mem_cons_self _ _) hq
    | cons y ys =>
      simp only [List.cons_append, List.cons.injEq] at h
      obtain ⟨x, hx⟩ := ih ys (fun hm => hq (List.mem_cons_of_mem _ hm)) h.2
      exact ⟨x, by rw [h.1, hx]; rfl⟩

/-- A range that starts before a barrier ends before it. -/
theorem startsWithRange_before_barrier (q : Char) (t r a b : List Char) (hq : IsBarrier q)
    (h : StartsWithRange (t ++ q :: r) a b) : StartsWithRange t a b := by
  obtain ⟨s1, s2, post, he, ha, h1, h2, hb⟩ := h
  have hocc : q ∉ a ++ (s1 ++ ("-->".toList ++ (s2 ++ b))) := by
    intro hm
    rcases List.mem_append.1 hm with hm | hm
    · have := ha.2 q hm
      rw [hq.1] at this
      exact Bool.false_ne_true this
    rcases List.mem_append.1 hm with hm | hm
    · have := h1 q hm
      rw [hq.2.1] at this
      exact Bool.false_ne_true this
    rcases List.mem_append.1 hm with hm | hm
    · simp only [String.toList, List.mem_cons, List.mem_singleton, List.not_mem_nil,
        or_false] at hm
      rcases hm with hm | hm | hm
      · exact hq.2.2.1 hm
      · exact hq.2.2.1 hm
      · exact hq.2.2.2 hm
    rcases List.mem_append.1 hm with hm | hm
    · have := h2 q hm
      rw [hq.2.1] at this
      exact Bool.false_ne_true this
    · have := hb.2 q hm
      rw [hq.1] at this
      exact Bool.false_ne_true this
  have he' : t ++ q :: r = (a ++ (s1 ++ ("-->".toList ++ (s2 ++ b)))) ++ post := by
    rw [he]
    simp only [List.append_assoc]
  obtain ⟨x, hx⟩ := prefix_of_barrier q _ t r post hocc he'
  refine ⟨s1, s2, x, ?_, ha, h1, h2, hb⟩
  rw [hx]
  simp only [List.append_assoc]

/-- The search passes over a text without a range that ends at a barrier. -/
theorem matchRange_skip_to_barrier (q : Char) (t r : List Char) (hq : IsBarrier q)
    (hno : ∀ k a b, ¬ StartsWithRange (t.drop k) a b) :
    matchRange (t ++ q :: r) = matchRange (q :: r) := by
  induction t with
  | nil => rfl
  | cons x xs ih =>
    have h0 : matchRangeAt ((x :: xs) ++ q :: r) = none := by
      apply matchRangeAt_none_of_not_range
      rintro ⟨a, b, hr⟩
      exact hno 0 a b (startsWithRange_before_barrier q _ r a b hq hr)
    have hstep : matchRange ((x :: xs) ++ q :: r) = matchRange (xs ++ q :: r) := by
      rw [List.cons_append, matchRange]
      rw [List.cons_append] at h0
      rw [h0]
    rw [hstep]
    exact ih (fun k a b => hno (k + 1) a b)

theorem isBarrier_dquote : IsBarrier dquote := by
  refine ⟨by decide, by decide, by decide, by decide⟩

theorem matchRange_yAxisParts (L a b : List Char)
    (hLr : ∀ k a' b', ¬ StartsWithRange (L.drop k) a' b') (ha : IsDigits a) (hb : IsDigits b) :
    matchRange (yAxisParts L a b) = some (a, b) := by
  unfold yAxisParts
  rw [matchRange_cons_of_not_digit dquote _ (by decide),
    matchRange_skip_to_barrier dquote L _ isBarrier_dquote hLr,
    matchRange_cons_of_not_digit dquote _ (by decide),
    matchRange_cons_of_not_digit ' ' _ (by decide)]
  apply matchRange_of_matchRangeAt
  have := matchRangeAt_of_range a [' '] [' '] b [] ha (by decide) (by decide) hb
    (by intro c hc; exact Option.noConfusion hc)
  simpa [String.toList] using this

theorem matchQuoted_yAxisParts (L a b : List Char)
    (hL : ∀ c ∈ L, c ≠ dquote ∧ isLineTerminator c = false) :
    matchQuoted (yAxisParts L a b) = some L :=
  matchDelimited_found dquote dquote L _ hL

theorem lastChar_append_digits (x b : List Char) (hb : IsDigits b) :
    ∀ c, (x ++ b).getLast? = some c → isJsSpace c = false := by
  intro c hc
  obtain ⟨hne, hd⟩ := hb
  rw [List.getLast?_append_of_ne_nil _ hne] at hc
  exact isJsSpace_of_isDigit c (hd c (List.mem_of_getLast?_eq_some hc))

theorem trim_yAxisLine (L a b : List Char) (hb : IsDigits b) :
    trim (yAxisLine L a b) = yAxisLine L a b := by
  apply trim_eq_self
  · intro c hc
    have : c = 'y' := (Option.some.inj hc).symm
    rw [this]
    decide
  · have : yAxisLine L a b
        = ("y-axis \"".toList ++ (L ++ (dquote :: ' ' :: (a ++ " --> ".toList)))) ++ b := by
      simp [yAxisLine]
    rw [this]
    exact lastChar_append_digits _ b hb

theorem parts_yAxisLine (L a b : List Char) (hb : IsDigits b) :
    trim (removeFirst "y-axis".toList (yAxisLine L a b)) = yAxisParts L a b := by
  have h1 : removeFirst "y-axis".toList (yAxisLine L a b) = ' ' :: yAxisParts L a b := by
    rw [removeFirst_of_isPrefixOf _ _ (by rfl)]
    rfl
  rw [h1, trim_cons_space ' ' _ (by decide)]
  apply trim_eq_self
  · intro c hc
    have : c = dquote := (Option.some.inj hc).symm
    rw [this]
    decide
  · have : yAxisParts L a b
        = (dquote :: (L ++ (dquote :: ' ' :: (a ++ " --> ".toList)))) ++ b := by
      simp [yAxisParts]
    rw [this]
    exact lastChar_append_digits _ b hb

theorem processLine_yAxisLine (cd : ChartData) (L a b : List Char)
    (hL : ∀ c ∈ L, c ≠ dquote ∧ isLineTerminator c = false)
    (hLr : ∀ k a' b', ¬ StartsWithRange (L.drop k) a' b') (ha : IsDigits a) (hb : IsDigits b) :
    processLine cd (yAxisLine L a b)
      = { cd with yAxis := { label := String.mk L, min := toBinary64 (decimalValue a),
                             max := toBinary64 (decimalValue b) } } := by
  rw [processLine_yAxis cd _ (by rfl)]
  unfold processYAxis
  simp only [parts_yAxisLine L a b hb, matchRange_yAxisParts L a b hLr ha hb,
    matchQuoted_yAxisParts L a b hL, parseFloat_digits a ha.1 ha.2,
    parseFloat_digits b hb.1 hb.2]

theorem processLine_titleLine (cd : ChartData) (T : List Char) (hT : ∀ c ∈ T, c ≠ dquote) :
    processLine cd (titleLine T) = { cd with title := String.mk (trim T) } := by
  have hp : "title".toList.isPrefixOf (titleLine T) = true := by rfl
  have hf : (T ++ [dquote]).filter (· ≠ dquote) = T := by
    rw [List.filter_append, List.filter_eq_self.2 (by simpa using hT)]
    simp
  have hr : (removeFirst "title".toList (titleLine T)).filter (· ≠ dquote) = ' ' :: T := by
    rw [removeFirst_of_isPrefixOf _ _ hp]
    show (' ' :: dquote :: (T ++ [dquote])).filter (· ≠ dquote) = ' ' :: T
    rw [List.filter_cons_of_pos (by decide), List.filter_cons_of_neg (by decide), hf]
  unfold processLine
  rw [if_pos hp, hr, trim_cons_space ' ' T (by decide)]

theorem processLine_xAxisLine (cd : ChartData) (cs : List (List Char)) (hne : cs ≠ [])
    (hc : ∀ s ∈ cs, IsItem s) :
    processLine cd (xAxisLine cs) = { cd with xAxis := cs.map (fun s => String.mk (trim s)) } := by
  have hm : matchBracket (xAxisLine cs) = some (commaList cs) :=
    matchBracket_list "x-axis ".toList cs (by decide) hc
  unfold processLine
  rw [if_neg (by rw [show "title".toList.isPrefixOf (xAxisLine cs) = false from rfl]; decide),
    if_pos (by rfl)]
  simp only [hm]
  rw [map_trim_commaList _ cs hne (fun s hs c hcs => (hc s hs c hcs).1)]

theorem processLine_seriesLine (cd : ChartData) (vs : List (List Char)) (hne : vs ≠ [])
    (hv : ∀ s ∈ vs, IsItem s) :
    processLine cd (seriesLine vs)
      = { cd with dataPoints := vs.map (fun s => parseFloat (trim s)) } := by
  have hm : matchBracket (seriesLine vs) = some (commaList vs) :=
    matchBracket_list "line ".toList vs (by decide) hv
  unfold processLine
  rw [if_neg (by rw [show "title".toList.isPrefixOf (seriesLine vs) = false from rfl]; decide),
    if_neg (by rw [show "x-axis".toList.isPrefixOf (seriesLine vs) = false from rfl]; decide),
    if_neg (by rw [show "y-axis".toList.isPrefixOf (seriesLine vs) = false from rfl]; decide),
    if_pos (by rfl)]
  simp only [hm]
  rw [map_trim_commaList _ vs hne (fun s hs c hcs => (hv s hs c hcs).1)]

theorem newline_isLineTerminator : isLineTerminator newline = true := by decide

theorem ne_newline_of_not_lineTerminator (c : Char) (h : isLineTerminator c = false) :
    c ≠ newline := by
  rintro rfl
  rw [newline_isLineTerminator] at h
  exact Bool.noConfusion h

theorem newline_not_mem_commaList (items : List (List Char)) (h : ∀ s ∈ items, IsItem s) :
    newline ∉ commaList items := by
  intro hm
  rcases mem_commaList items newline hm with h1 | h1 | ⟨s, hs, hcs⟩
  · exact absurd h1 (by decide)
  · exact absurd h1 (by decide)
  · exact ne_newline_of_not_lineTerminator _ (h s hs _ hcs).2.2.2 rfl

theorem newline_not_mem_digits (a : List Char) (ha : IsDigits a) : newline ∉ a := by
  intro hm
  exact absurd (ha.2 _ hm) (by decide)

theorem trim_bracketLine (pre : List Char) (c : Char) (body : List Char)
    (hc : isJsSpace c = false) : trim (c :: pre ++ (body ++ [']'])) = c :: pre ++ (body ++ [']']) := by
  have : c :: pre ++ (body ++ [']']) = c :: ((pre ++ body) ++ [']']) := by simp
  rw [this]
  exact trim_of_ends c ']' _ hc (by decide)

theorem splitLines_chartText (T : List Char) (cs : List (List Char)) (L a b : List Char)
    (vs : List (List Char)) (hT : newline ∉ T) (hc : ∀ s ∈ cs, IsItem s)
    (hL : ∀ c ∈ L, c ≠ dquote ∧ isLineTerminator c = false) (ha : IsDigits a) (hb : IsDigits b)
    (hv : ∀ s ∈ vs, IsItem s) :
    splitLines (chartText T cs L a b vs)
      = [titleLine T, xAxisLine cs, yAxisLine L a b, seriesLine vs] := by
  have hsplit : ([newline].intercalate
      [titleLine T, xAxisLine cs, yAxisLine L a b, seriesLine vs]).splitOn newline
      = [titleLine T, xAxisLine cs, yAxisLine L a b, seriesLine vs] := by
    refine List.splitOn_intercalate _ newline ?_ (List.cons_ne_nil _ _)
    intro l hl hm
    simp only [List.mem_cons, List.mem_singleton, List.not_mem_nil, or_false] at hl
    rcases hl with rfl | rfl | rfl | rfl
    · rcases List.mem_append.1 hm with h | h
      · exact absurd h (by decide)
      · rcases List.mem_append.1 h with h | h
        · exact hT h
        · exact absurd h (by decide)
    · rcases List.mem_append.1 hm with h | h
      · exact absurd h (by decide)
      · rcases List.mem_append.1 h with h | h
        · exact newline_not_mem_commaList cs hc h
        · exact absurd h (by decide)
    · rcases List.mem_append.1 hm with h | h
      · exact absurd h (by decide)
      rcases List.mem_append.1 h with h | h
      · exact ne_newline_of_not_lineTerminator _ (hL _ h).2 rfl
      rcases List.mem_cons.1 h with h | h
      · exact absurd h (by decide)
      rcases List.mem_cons.1 h with h | h
      · exact absurd h (by decide)
      rcases List.mem_append.1 h with h | h
      · exact newline_not_mem_digits a ha h
      rcases List.mem_append.1 h with h | h
      · exact absurd h (by decide)
      · exact newline_not_mem_digits b hb h
    · rcases List.mem_append.1 hm with h | h
      · exact absurd h (by decide)
      · rcases List.mem_append.1 h with h | h
        · exact newline_not_mem_commaList vs hv h
        · exact absurd h (by decide)
  have t1 : trim (titleLine T) = titleLine T := by
    have : titleLine T = 't' :: (("itle \"".toList ++ T) ++ [dquote]) := by
      simp [titleLine, String.toList]
    rw [this]
    exact trim_of_ends 't' dquote _ (by decide) (by decide)
  have t2 : trim (xAxisLine cs) = xAxisLine cs :=
    trim_bracketLine "-axis [".toList 'x' (commaList cs) (by decide)
  have t3 : trim (yAxisLine L a b) = yAxisLine L a b := trim_yAxisLine L a b hb
  have t4 : trim (seriesLine vs) = seriesLine vs :=
    trim_bracketLine "ine [".toList 'l' (commaList vs) (by decide)
  unfold splitLines
  show List.filter _ (List.map trim (([newline].intercalate
      [titleLine T, xAxisLine cs, yAxisLine L a b, seriesLine vs]).splitOn newline)) = _
  rw [hsplit]
  simp only [List.map_cons, List.map_nil, t1, t2, t3, t4]
  rfl

theorem trim_digits (v : List Char) (hv : IsDigits v) : trim v = v := by
  apply trim_eq_self
  · intro c hc
    exact isJsSpace_of_isDigit c (hv.2 c (List.mem_of_mem_head? hc))
  · intro c hc
    exact isJsSpace_of_isDigit c (hv.2 c (List.mem_of_getLast?_eq_some hc))

theorem parseUnsigned_decimal (ip fp : List Char) (hi : IsDigits ip) (hf : IsDigits fp) :
    parseUnsigned (ip ++ '.' :: fp)
      = toBinary64 ((decimalValue (ip ++ fp) : ℚ) / 10 ^ fp.length) := by
  obtain ⟨hne, hd⟩ := hi
  have hdot : ∀ c, ('.' :: fp).head? = some c → isDigit c = false := by
    intro c hc
    rw [← Option.some.inj hc]
    decide
  have hI : "Infinity".toList.isPrefixOf (ip ++ '.' :: fp) = false := by
    cases ip with
    | nil => exact absurd rfl hne
    | cons c cs =>
      have hc : isDigit c = true := hd c (List.mem_cons_self _ _)
      have : ¬ 'I' = c := by
        rintro rfl
        exact absurd hc (by decide)
      simp [String.toList, List.isPrefixOf, this]
  unfold parseUnsigned
  rw [hI]
  simp only [Bool.false_eq_true, if_false, takeWhile_append_stop ip _ hd hdot,
    dropWhile_append_stop ip _ hd hdot, takeWhile_all _ hf.2, dropWhile_all _ hf.2]
  rw [if_neg (fun h => hne h.1)]
  congr 1
  simp only [exponentPart, zero_sub, zpow_neg, zpow_natCast]
  rw [div_eq_mul_inv]

theorem parseFloat_decimal (ip fp : List Char) (hi : IsDigits ip) (hf : IsDigits fp) :
    parseFloat (trim (ip ++ '.' :: fp))
      = toBinary64 ((decimalValue (ip ++ fp) : ℚ) / 10 ^ fp.length) := by
  have hhead : ∀ c, (ip ++ '.' :: fp).head? = some c → isDigit c = true := by
    intro c hc
    cases ip with
    | nil => exact absurd rfl hi.1
    | cons x xs =>
      rw [← Option.some.inj hc]
      exact hi.2 x (List.mem_cons_self _ _)
  have ht : trim (ip ++ '.' :: fp) = ip ++ '.' :: fp := by
    apply trim_eq_self
    · intro c hc
      exact isJsSpace_of_isDigit c (hhead c hc)
    · have : ip ++ '.' :: fp = (ip ++ ['.']) ++ fp := by simp
      rw [this]
      exact lastChar_append_digits _ fp hf
  rw [ht]
  unfold parseFloat
  rw [dropWhile_eq_self_of_head _ (fun c hc => isJsSpace_of_isDigit c (hhead c hc))]
  split
  · rename_i r heq
    have := hhead '-' (by rw [heq]; rfl)
    exact absurd this (by decide)
  · rename_i r heq
    have := hhead '+' (by rw [heq]; rfl)
    exact absurd this (by decide)
  · exact parseUnsigned_decimal ip fp hi hf

/-- C7, counterexample. In the well-formed text with the lines `title "Sales"`,
`x-axis [Jan, Feb, Mar]`, `y-axis "1 --> 2" 0 --> 100`, `line [10, 50, 90]` the label
has no double quote, yet the bounds are read from the label: `min = 1`, `max = 2`, not
`0` and `100`. -/
theorem wellformed_label_counterexample :
    rangeLabelText
      = "title \"Sales\"\nx-axis [Jan, Feb, Mar]\ny-axis \"1 --> 2\" 0 --> 100\nline [10, 50, 90]" ∧
    (∀ c ∈ "1 --> 2".toList, c ≠ dquote) ∧
    (parseMermaid rangeLabelText).yAxis
      = { label := "1 --> 2", min := JSNum.fin 1, max := JSNum.fin 2 } ∧
    (parseMermaid rangeLabelText).yAxis
      ≠ { label := "1 --> 2", min := JSNum.fin 0, max := JSNum.fin 100 } := by
  decide!

/-- C7, amended. For every input made of the four lines `title "T"`,
`x-axis [c1, ..., cn]`, `y-axis "L" a --> b`, `line [v1, ..., vm]` with `n, m ≥ 1`, where
`T` has no double quote and no line feed, `L` has no double quote, no line terminator and
no range `digits --> digits` of its own, each `ci` and `vi` has no comma, bracket or line
terminator, and `a`, `b` are unsigned decimal integer numerals, `parseMermaid` returns the
model with title `T` trimmed, the labels `ci` trimmed and in order, the value axis
`{label: L, min: a, max: b}` and the series of the numbers that `parseFloat` reads from the
trimmed `vi`, in order; that number is the Number value of `vi` when `vi` is an unsigned
numeral `digits` or `digits.digits`.  A numeral stands for its Number value: the binary64
number nearest to it, which is the numeral itself for an integer below `2^53`. -/
theorem parse_wellformed (T : List Char) (cs : List (List Char)) (L a b : List Char)
    (vs : List (List Char))
    (hT : ∀ c ∈ T, c ≠ dquote ∧ c ≠ newline)
    (hcs : cs ≠ []) (hc : ∀ s ∈ cs, IsItem s)
    (hL : ∀ c ∈ L, c ≠ dquote ∧ isLineTerminator c = false)
    (hLr : ∀ k a' b', ¬ StartsWithRange (L.drop k) a' b')
    (ha : IsDigits a) (hb : IsDigits b)
    (hvs : vs ≠ []) (hv : ∀ s ∈ vs, IsItem s) :
    parseMermaid (chartText T cs L a b vs)
      = { title := String.mk (trim T),
          xAxis := cs.map (fun s => String.mk (trim s)),
          yAxis := { label := String.mk L, min := toBinary64 (decimalValue a),
                     max := toBinary64 (decimalValue b) },
          dataPoints := vs.map (fun s => parseFloat (trim s)) } ∧
    (∀ v ∈ vs, IsDigits v → parseFloat (trim v) = toBinary64 (decimalValue v)) ∧
    (∀ ip fp, ip ++ '.' :: fp ∈ vs → IsDigits ip → IsDigits fp →
      parseFloat (trim (ip ++ '.' :: fp))
        = toBinary64 ((decimalValue (ip ++ fp) : ℚ) / 10 ^ fp.length)) ∧
    (∀ n : ℕ, n < 2 ^ 53 → toBinary64 n = JSNum.fin n) := by
  refine ⟨?_, fun v _ hd => by rw [trim_digits v hd]; exact parseFloat_digits v hd.1 hd.2,
    fun ip fp _ hi hf => parseFloat_decimal ip fp hi hf, toBinary64_natCast⟩
  unfold parseMermaid
  rw [splitLines_chartText T cs L a b vs (fun hm => (hT _ hm).2 rfl) hc hL ha hb hv]
  simp only [List.foldl_cons, List.foldl_nil]
  rw [processLine_titleLine _ T (fun c hm => (hT c hm).1), processLine_xAxisLine _ cs hcs hc,
    processLine_yAxisLine _ L a b hL hLr ha hb, processLine_seriesLine _ vs hvs hv]

theorem parse_wellformed_witness :
    parseMermaid (chartText "Sales".toList ["Jan".toList, "Feb".toList, "Mar".toList]
        "USD".toList "0".toList "100".toList ["10".toList, "50".toList, "90".toList])
      = { title := String.mk (trim "Sales".toList),
          xAxis := ["Jan".toList, "Feb".toList, "Mar".toList].map (fun s => String.mk (trim s)),
          yAxis := { label := String.mk "USD".toList, min := toBinary64 (decimalValue "0".toList),
                     max := toBinary64 (decimalValue "100".toList) },
          dataPoints := ["10".toList, "50".toList, "90".toList].map
            (fun s => parseFloat (trim s)) } ∧
    (∀ v ∈ ["10".toList, "50".toList, "90".toList], IsDigits v →
      parseFloat (trim v) = toBinary64 (decimalValue v)) ∧
    (∀ ip fp, ip ++ '.' :: fp ∈ ["10".toList, "50".toList, "90".toList] → IsDigits ip →
      IsDigits fp → parseFloat (trim (ip ++ '.' :: fp))
        = toBinary64 ((decimalValue (ip ++ fp) : ℚ) / 10 ^ fp.length)) ∧
    (∀ n : ℕ, n < 2 ^ 53 → toBinary64 n = JSNum.fin n) :=
  parse_wellformed "Sales".toList ["Jan".toList, "Feb".toList, "Mar".toList]
    "USD".toList "0".toList "100".toList ["10".toList, "50".toList, "90".toList]
    (by decide) (by decide) (by decide) (by decide)
    (not_range_of_matchRange_none _ (by decide)) (by decide) (by decide) (by decide) (by decide)

/-- The Sales scenario of the specification: the text and the model parsed from it. -/
theorem sales_model :
    chartText "Sales".toList ["Jan".toList, "Feb".toList, "Mar".toList]
        "USD".toList "0".toList "100".toList ["10".toList, "50".toList, "90".toList]
      = "title \"Sales\"\nx-axis [Jan, Feb, Mar]\ny-axis \"USD\" 0 --> 100\nline [10, 50, 90]" ∧
    parseMermaid "title \"Sales\"\nx-axis [Jan, Feb, Mar]\ny-axis \"USD\" 0 --> 100\nline [10, 50, 90]"
      = { title := "Sales", xAxis := ["Jan", "Feb", "Mar"],
          yAxis := { label := "USD", min := JSNum.fin 0, max := JSNum.fin 100 },
          dataPoints := [JSNum.fin 10, JSNum.fin 50, JSNum.fin 90] } := by
  decide!

/-! ## The loop body, kind by kind -/

theorem processYAxis_eq (cd : ChartData) (line : List Char) :
    processYAxis cd line = { cd with yAxis := stepYAxis cd.yAxis line } := by
  unfold stepYAxis processYAxis
  simp only
  split <;> split <;> rfl

theorem processLine_byKind (cd : ChartData) (line : List Char) :
    processLine cd line =
      match kindOf line with
      | .title => { cd with title := titleOf line }
      | .xAxis => { cd with xAxis := stepXAxis cd.xAxis line }
      | .yAxis => { cd with yAxis := stepYAxis cd.yAxis line }
      | .series => { cd with dataPoints := stepSeries cd.dataPoints line }
      | .other => cd := by
  unfold processLine kindOf
  by_cases h1 : "title".toList.isPrefixOf line = true
  · rw [if_pos h1, if_pos h1, removeFirst_of_isPrefixOf _ _ h1]
    rfl
  · rw [if_neg h1, if_neg h1]
    by_cases h2 : "x-axis".toList.isPrefixOf line = true
    · rw [if_pos h2, if_pos h2]
      unfold stepXAxis
      split <;> rfl
    · rw [if_neg h2, if_neg h2]
      by_cases h3 : "y-axis".toList.isPrefixOf line = true
      · rw [if_pos h3, if_pos h3]
        exact processYAxis_eq cd line
      · rw [if_neg h3, if_neg h3]
        by_cases h4 : "line".toList.isPrefixOf line = true
        · rw [if_pos h4, if_pos h4]
          unfold stepSeries
          split <;> rfl
        · rw [if_neg h4, if_neg h4]

/-- The model after a run of lines, field by field: each field is folded over the lines of
its own kind only. -/
theorem foldl_processLine (lines : List (List Char)) (cd : ChartData) :
    lines.foldl processLine cd =
      { title := (lines.filter (fun l => kindOf l = .title)).foldl (fun _ l => titleOf l) cd.title,
        xAxis := (lines.filter (fun l => kindOf l = .xAxis)).foldl stepXAxis cd.xAxis,
        yAxis := (lines.filter (fun l => kindOf l = .yAxis)).foldl stepYAxis cd.yAxis,
        dataPoints :=
          (lines.filter (fun l => kindOf l = .series)).foldl stepSeries cd.dataPoints } := by
  induction lines generalizing cd with
  | nil => rfl
  | cons l ls ih =>
    rw [List.foldl_cons, ih, processLine_byKind]
    cases hk : kindOf l <;> simp [List.filter_cons, hk]

theorem kindOf_nil : kindOf [] = Kind.other := rfl

theorem length_pos_of_kind (l : List Char) (k : Kind) (hk : k ≠ Kind.other)
    (h : kindOf l = k) : 0 < l.length := by
  cases l with
  | nil => exact absurd (h.symm.trans kindOf_nil) hk
  | cons c cs => exact Nat.succ_pos _

theorem filter_kind_trimmed (k : Kind) (hk : k ≠ Kind.other) (ls : List (List Char)) :
    ((ls.map trim).filter (fun l => 0 < l.length)).filter (fun l => kindOf l = k)
      = (linesOfKind k ls).map trim := by
  unfold linesOfKind
  induction ls with
  | nil => rfl
  | cons l ls ih =>
    by_cases h : kindOf (trim l) = k
    · have hpos : 0 < (trim l).length := length_pos_of_kind _ k hk h
      simp only [List.map_cons, List.filter_cons, hpos, h, decide_True, if_true]
      rw [ih]
    · by_cases hpos : 0 < (trim l).length
      · simp only [List.map_cons, List.filter_cons, hpos, h, decide_True, decide_False, if_true]
        simpa using ih
      · simp only [List.map_cons, List.filter_cons, hpos, h, decide_False]
        simpa using ih

/-- The parsed model, field by field, in terms of the raw lines of each kind. -/
theorem parseMermaid_eq (content : String) :
    parseMermaid content =
      { title := ((linesOfKind .title (rawLines content)).map trim).foldl
          (fun _ l => titleOf l) defaultChartData.title,
        xAxis := ((linesOfKind .xAxis (rawLines content)).map trim).foldl
          stepXAxis defaultChartData.xAxis,
        yAxis := ((linesOfKind .yAxis (rawLines content)).map trim).foldl
          stepYAxis defaultChartData.yAxis,
        dataPoints := ((linesOfKind .series (rawLines content)).map trim).foldl
          stepSeries defaultChartData.dataPoints } := by
  unfold parseMermaid
  rw [foldl_processLine]
  unfold splitLines rawLines
  rw [filter_kind_trimmed .title (by decide), filter_kind_trimmed .xAxis (by decide),
    filter_kind_trimmed .yAxis (by decide), filter_kind_trimmed .series (by decide)]

/-! ## C11: a `y-axis` directive without a label -/

theorem linesOfKind_append (k : Kind) (xs ys : List (List Char)) :
    linesOfKind k (xs ++ ys) = linesOfKind k xs ++ linesOfKind k ys := by
  simp [linesOfKind]

theorem linesOfKind_cons_pos (k : Kind) (l : List Char) (ls : List (List Char))
    (h : kindOf (trim l) = k) : linesOfKind k (l :: ls) = l :: linesOfKind k ls := by
  simp [linesOfKind, h]

theorem linesOfKind_cons_neg (k : Kind) (l : List Char) (ls : List (List Char))
    (h : kindOf (trim l) ≠ k) : linesOfKind k (l :: ls) = linesOfKind k ls := by
  simp [linesOfKind, h]

theorem linesOfKind_eq_nil (k : Kind) (ls : List (List Char))
    (h : ∀ l ∈ ls, kindOf (trim l) ≠ k) : linesOfKind k ls = [] := by
  unfold linesOfKind
  rw [List.filter_eq_nil_iff]
  intro l hl
  simpa using h l hl

theorem kindOf_plainYAxisLine (a b : List Char) : kindOf (plainYAxisLine a b) = Kind.yAxis := rfl

theorem not_mem_digits_dquote (a : List Char) (ha : IsDigits a) : ∀ c ∈ a, c ≠ dquote := by
  intro c hc hq
  subst hq
  exact absurd (ha.2 _ hc) (by decide)

theorem matchDelimited_none (opening close : Char) (s : List Char) (h : ∀ c ∈ s, c ≠ opening) :
    matchDelimited opening close s = none := by
  induction s with
  | nil => rfl
  | cons x xs ih =>
    have hx := h x (List.mem_cons_self _ _)
    simp only [matchDelimited, if_neg hx]
    exact ih (fun c hc => h c (List.mem_cons_of_mem _ hc))

theorem stepYAxis_plain (y : YAxis) (a b : List Char) (ha : IsDigits a) (hb : IsDigits b) :
    stepYAxis y (plainYAxisLine a b)
      = { y with min := toBinary64 (decimalValue a), max := toBinary64 (decimalValue b) } := by
  have hparts : trim (removeFirst "y-axis".toList (plainYAxisLine a b))
      = a ++ (" --> ".toList ++ b) := by
    rw [removeFirst_of_isPrefixOf _ _ (by rfl)]
    show trim (' ' :: (a ++ (" --> ".toList ++ b))) = _
    rw [trim_cons_space ' ' _ (by decide)]
    apply trim_eq_self
    · intro c hc
      obtain ⟨hne, hd⟩ := ha
      cases a with
      | nil => exact absurd rfl hne
      | cons x xs =>
        rw [← Option.some.inj hc]
        exact isJsSpace_of_isDigit x (hd x (List.mem_cons_self _ _))
    · have : a ++ (" --> ".toList ++ b) = (a ++ " --> ".toList) ++ b := by simp
      rw [this]
      exact lastChar_append_digits _ b hb
  have hrange : matchRange (a ++ (" --> ".toList ++ b)) = some (a, b) := by
    apply matchRange_of_matchRangeAt
    have := matchRangeAt_of_range a [' '] [' '] b [] ha (by decide) (by decide) hb
      (by intro c hc; exact Option.noConfusion hc)
    simpa [String.toList] using this
  have hquote : matchQuoted (a ++ (" --> ".toList ++ b)) = none := by
    apply matchDelimited_none
    intro c hc
    rcases List.mem_append.1 hc with h | h
    · exact not_mem_digits_dquote a ha c h
    rcases List.mem_append.1 h with h | h
    · intro hq
      subst hq
      exact absurd h (by decide)
    · exact not_mem_digits_dquote b hb c h
  unfold stepYAxis processYAxis
  simp only [hparts, hrange, hquote, parseFloat_digits a ha.1 ha.2, parseFloat_digits b hb.1 hb.2]

/-- C11, counterexample. The directive `y-axis 9007199254740992 --> 9007199254740993` has
integer numerals and no quoted substring, and sets `max` to `9007199254740992`, not to
`9007199254740993`, which is not a binary64 number: `min` and `max` come out equal. -/
theorem large_bound_counterexample :
    largeBoundText = String.mk (plainYAxisLine "9007199254740992".toList "9007199254740993".toList) ∧
    (parseMermaid largeBoundText).yAxis
      = { label := "", min := JSNum.fin 9007199254740992, max := JSNum.fin 9007199254740992 } ∧
    (parseMermaid largeBoundText).yAxis.max ≠ JSNum.fin 9007199254740993 := by
  decide!

/-- C11, amended. For every input whose only `y-axis` directive has the form `y-axis a --> b`
with `a` and `b` non-negative integer numerals and no quoted substring, `parseMermaid` leaves
the label of the value axis at its default, the empty string, and sets `min` and `max` to
the Number values of `a` and `b`, which are `a` and `b` themselves when they are below
`2^53`; `y-axis 0 --> 50` gives the label `""`, `min = 0` and `max = 50`. -/
theorem plain_range_keeps_label (text : String) (before after : List (List Char))
    (line a b : List Char) (hraw : rawLines text = before ++ line :: after)
    (hline : trim line = plainYAxisLine a b) (ha : IsDigits a) (hb : IsDigits b)
    (hbefore : ∀ l ∈ before, kindOf (trim l) ≠ Kind.yAxis)
    (hafter : ∀ l ∈ after, kindOf (trim l) ≠ Kind.yAxis) :
    (parseMermaid text).yAxis
      = { label := "", min := toBinary64 (decimalValue a), max := toBinary64 (decimalValue b) } ∧
    (decimalValue a < 2 ^ 53 → decimalValue b < 2 ^ 53 →
      (parseMermaid text).yAxis
        = { label := "", min := JSNum.fin (decimalValue a), max := JSNum.fin (decimalValue b) }) ∧
    (parseMermaid "y-axis 0 --> 50").yAxis
      = { label := "", min := JSNum.fin 0, max := JSNum.fin 50 } := by
  have key : (parseMermaid text).yAxis
      = { label := "", min := toBinary64 (decimalValue a), max := toBinary64 (decimalValue b) } := by
    rw [parseMermaid_eq, hraw]
    show List.foldl stepYAxis defaultChartData.yAxis
      (List.map trim (linesOfKind .yAxis (before ++ line :: after))) = _
    rw [linesOfKind_append, linesOfKind_eq_nil _ before hbefore,
      linesOfKind_cons_pos _ line after (by rw [hline]; rfl),
      linesOfKind_eq_nil _ after hafter]
    show stepYAxis defaultChartData.yAxis (trim line) = _
    rw [hline, stepYAxis_plain _ a b ha hb]
    rfl
  refine ⟨key, ?_, by decide!⟩
  intro h1 h2
  rw [key, toBinary64_natCast _ h1, toBinary64_natCast _ h2]

theorem plain_range_keeps_label_witness :
    (parseMermaid plainYAxisText).yAxis
      = { label := "", min := toBinary64 (decimalValue "0".toList),
          max := toBinary64 (decimalValue "50".toList) } ∧
    (decimalValue "0".toList < 2 ^ 53 → decimalValue "50".toList < 2 ^ 53 →
      (parseMermaid plainYAxisText).yAxis
        = { label := "", min := JSNum.fin (decimalValue "0".toList),
            max := JSNum.fin (decimalValue "50".toList) }) ∧
    (parseMermaid "y-axis 0 --> 50").yAxis
      = { label := "", min := JSNum.fin 0, max := JSNum.fin 50 } :=
  plain_range_keeps_label plainYAxisText ["title \"T\"".toList] ["line [1, 2]".toList]
    "  y-axis 0 --> 50".toList "0".toList "50".toList (by decide) (by decide) (by decide)
    (by decide) (by decide) (by decide)

/-! ## C12: the order of lines of different kinds -/

/-- C12. Line order does not matter across directive kinds: two texts whose lines are a
reordering of each other, with the lines of each directive kind (title, x-axis, y-axis,
line) in the same relative order, have the same parsed model. -/
theorem reorder_across_kinds (text1 text2 : String)
    (_hperm : (rawLines text1).Perm (rawLines text2))
    (htitle : linesOfKind .title (rawLines text1) = linesOfKind .title (rawLines text2))
    (hx : linesOfKind .xAxis (rawLines text1) = linesOfKind .xAxis (rawLines text2))
    (hy : linesOfKind .yAxis (rawLines text1) = linesOfKind .yAxis (rawLines text2))
    (hs : linesOfKind .series (rawLines text1) = linesOfKind .series (rawLines text2)) :
    parseMermaid text1 = parseMermaid text2 := by
  rw [parseMermaid_eq, parseMermaid_eq, htitle, hx, hy, hs]

theorem reorder_across_kinds_witness : parseMermaid orderedText = parseMermaid reorderedText :=
  reorder_across_kinds orderedText reorderedText (by decide) (by decide) (by decide)
    (by decide) (by decide)

/-! ## C13: two directives of the same kind -/

theorem linesOfKind_drop (k : Kind) (A R : List (List Char)) (e : List Char)
    (h : kindOf (trim e) ≠ k) : linesOfKind k (A ++ e :: R) = linesOfKind k (A ++ R) := by
  rw [linesOfKind_append, linesOfKind_append, linesOfKind_cons_neg k e R h]

/-- A line that resets a field makes every earlier line irrelevant to that field. -/
theorem foldl_kind_drop_earlier {σ : Type} (k : Kind) (step : σ → List Char → σ) (init : σ)
    (A B C : List (List Char)) (e later : List Char) (hlater : kindOf (trim later) = k)
    (c : σ) (hconst : ∀ s, step s (trim later) = c) :
    List.foldl step init ((linesOfKind k (A ++ e :: (B ++ later :: C))).map trim)
      = List.foldl step init ((linesOfKind k (A ++ (B ++ later :: C))).map trim) := by
  have e1 : linesOfKind k (A ++ e :: (B ++ later :: C))
      = linesOfKind k (A ++ e :: B) ++ later :: linesOfKind k C := by
    have : A ++ e :: (B ++ later :: C) = (A ++ e :: B) ++ later :: C := by simp
    rw [this, linesOfKind_append, linesOfKind_cons_pos k later C hlater]
  have e2 : linesOfKind k (A ++ (B ++ later :: C))
      = linesOfKind k (A ++ B) ++ later :: linesOfKind k C := by
    have : A ++ (B ++ later :: C) = (A ++ B) ++ later :: C := by simp
    rw [this, linesOfKind_append, linesOfKind_cons_pos k later C hlater]
  rw [e1, e2]
  simp only [List.map_append, List.map_cons, List.foldl_append, List.foldl_cons, hconst]

theorem stepXAxis_const (line inner : List Char) (h : matchBracket line = some inner) :
    ∀ xs, stepXAxis xs line = (inner.splitOn ',').map (fun s => String.mk (trim s)) := by
  intro xs
  simp only [stepXAxis, h]

theorem stepSeries_const (line inner : List Char) (h : matchBracket line = some inner) :
    ∀ ds, stepSeries ds line = (inner.splitOn ',').map (fun s => parseFloat (trim s)) := by
  intro ds
  simp only [stepSeries, h]

theorem stepYAxis_const (line : List Char) (r : List Char × List Char) (t : List Char)
    (h1 : matchRange (trim (removeFirst "y-axis".toList line)) = some r)
    (h2 : matchQuoted (trim (removeFirst "y-axis".toList line)) = some t) :
    ∀ y, stepYAxis y line
      = { label := String.mk t, min := parseFloat r.1, max := parseFloat r.2 } := by
  intro y
  obtain ⟨lo, hi⟩ := r
  simp only [stepYAxis, processYAxis, h1, h2]

/-- C13, counterexample. In the text with the lines `x-axis [a, b]` and `x-axis none` the
later `x-axis` line has no bracket group and overwrites nothing: the labels are `a`, `b`,
whereas the text without the earlier line has no labels. -/
theorem later_line_counterexample :
    rawLines twoXAxisText = ["x-axis [a, b]".toList, "x-axis none".toList] ∧
    rawLines laterXAxisText = ["x-axis none".toList] ∧
    kindOf (trim "x-axis [a, b]".toList) = kindOf (trim "x-axis none".toList) ∧
    (parseMermaid twoXAxisText).xAxis = ["a", "b"] ∧
    (parseMermaid laterXAxisText).xAxis = [] ∧
    parseMermaid twoXAxisText ≠ parseMermaid laterXAxisText := by
  decide!

/-- C13, amended. For every input text that contains two lines of the same directive
kind, the later of which assigns every field of its kind (a `title` line always does; an
`x-axis` or `line` directive does when it has a bracket group; a `y-axis` directive does
when it has both a range and a quoted label), `parseMermaid` returns the same model as for
the text with the earlier of the two lines removed. -/
theorem later_overwrites (text1 text2 : String) (A B C : List (List Char))
    (e later : List Char) (h1 : rawLines text1 = A ++ e :: (B ++ later :: C))
    (h2 : rawLines text2 = A ++ (B ++ later :: C))
    (hk : kindOf (trim e) = kindOf (trim later)) (ha : assigns (trim later) = true) :
    parseMermaid text1 = parseMermaid text2 := by
  rw [parseMermaid_eq, parseMermaid_eq, h1, h2]
  unfold assigns at ha
  cases hl : kindOf (trim later) with
  | title =>
    rw [hl] at hk
    rw [foldl_kind_drop_earlier .title _ _ A B C e later hl (titleOf (trim later)) (fun _ => rfl),
      linesOfKind_drop .xAxis A _ e (by rw [hk]; decide),
      linesOfKind_drop .yAxis A _ e (by rw [hk]; decide),
      linesOfKind_drop .series A _ e (by rw [hk]; decide)]
  | xAxis =>
    rw [hl] at hk ha
    obtain ⟨inner, hi⟩ := Option.isSome_iff_exists.1 ha
    rw [foldl_kind_drop_earlier .xAxis _ _ A B C e later hl _ (stepXAxis_const _ inner hi),
      linesOfKind_drop .title A _ e (by rw [hk]; decide),
      linesOfKind_drop .yAxis A _ e (by rw [hk]; decide),
      linesOfKind_drop .series A _ e (by rw [hk]; decide)]
  | yAxis =>
    rw [hl] at hk ha
    rw [Bool.and_eq_true] at ha
    obtain ⟨r, hr⟩ := Option.isSome_iff_exists.1 ha.1
    obtain ⟨t, ht⟩ := Option.isSome_iff_exists.1 ha.2
    rw [foldl_kind_drop_earlier .yAxis _ _ A B C e later hl _ (stepYAxis_const _ r t hr ht),
      linesOfKind_drop .title A _ e (by rw [hk]; decide),
      linesOfKind_drop .xAxis A _ e (by rw [hk]; decide),
      linesOfKind_drop .series A _ e (by rw [hk]; decide)]
  | series =>
    rw [hl] at hk ha
    obtain ⟨inner, hi⟩ := Option.isSome_iff_exists.1 ha
    rw [foldl_kind_drop_earlier .series _ _ A B C e later hl _ (stepSeries_const _ inner hi),
      linesOfKind_drop .title A _ e (by rw [hk]; decide),
      linesOfKind_drop .xAxis A _ e (by rw [hk]; decide),
      linesOfKind_drop .yAxis A _ e (by rw [hk]; decide)]
  | other =>
    rw [hl] at ha
    exact absurd ha Bool.false_ne_true

theorem later_overwrites_witness : parseMermaid twoYAxisText = parseMermaid laterYAxisText :=
  later_overwrites twoYAxisText laterYAxisText [] ["title \"T\"".toList] []
    "y-axis \"old\" 1 --> 2".toList "y-axis \"new\" 3 --> 4".toList (by decide) (by decide)
    (by decide) (by decide)

/-! ## C14: lines that are not directives -/

theorem kindOf_other (l : List Char) (h1 : "title".toList.isPrefixOf l = false)
    (h2 : "x-axis".toList.isPrefixOf l = false) (h3 : "y-axis".toList.isPrefixOf l = false)
    (h4 : "line".toList.isPrefixOf l = false) : kindOf l = Kind.other := by
  unfold kindOf
  rw [h1, h2, h3, h4]
  rfl

/-- C14. For every input text and every line that, after trimming, starts with none of
`title`, `x-axis`, `y-axis`, `line` (an empty line, the `xychart-beta` header, an axis-type
keyword), the text with that line inserted between any two of its lines, before the first
or after the last has the same parsed model. -/
theorem ignored_line (text1 text2 : String) (A B : List (List Char)) (l : List Char)
    (h1 : rawLines text1 = A ++ B) (h2 : rawLines text2 = A ++ l :: B)
    (ht : "title".toList.isPrefixOf (trim l) = false)
    (hx : "x-axis".toList.isPrefixOf (trim l) = false)
    (hy : "y-axis".toList.isPrefixOf (trim l) = false)
    (hs : "line".toList.isPrefixOf (trim l) = false) :
    parseMermaid text2 = parseMermaid text1 := by
  have hk : kindOf (trim l) = Kind.other := kindOf_other _ ht hx hy hs
  rw [parseMermaid_eq, parseMermaid_eq, h1, h2,
    linesOfKind_drop .title A B l (by rw [hk]; decide),
    linesOfKind_drop .xAxis A B l (by rw [hk]; decide),
    linesOfKind_drop .yAxis A B l (by rw [hk]; decide),
    linesOfKind_drop .series A B l (by rw [hk]; decide)]

theorem ignored_line_witness : parseMermaid paddedText = parseMermaid threeLineText :=
  ignored_line threeLineText paddedText ["title \"T\"".toList]
    ["x-axis [a, b]".toList, "line [1, 2]".toList] "  xychart-beta".toList
    (by decide) (by decide) (by decide) (by decide) (by decide) (by decide)

/-! ## C20: the length of a bracketed list -/

theorem length_splitOn (c : Char) (s : List Char) :
    (s.splitOn c).length = s.count c + 1 := by
  unfold List.splitOn
  induction s with
  | nil => rfl
  | cons x xs ih =>
    rw [List.splitOnP_cons, List.count_cons]
    by_cases h : x = c
    · subst h
      simp [ih]
    · have h' : (x == c) = false := by simpa using h
      simp [h', ih]

/-- C20. Whenever an `x-axis` (respectively `line`) directive contains a bracket group
(the pattern `\[(.*?)\]` matches, with the group `inner`), the `xAxis` (respectively
`dataPoints`) it sets has as many entries as there are commas inside the first bracket
group, plus one, and so is never empty; `x-axis []` yields the single label `""` and
`line []` the single data point `NaN`. -/
theorem bracket_list_length (cd : ChartData) (line inner : List Char)
    (hm : matchBracket line = some inner) :
    (kindOf line = Kind.xAxis →
      (processLine cd line).xAxis.length = inner.count ',' + 1 ∧
      (processLine cd line).xAxis ≠ []) ∧
    (kindOf line = Kind.series →
      (processLine cd line).dataPoints.length = inner.count ',' + 1 ∧
      (processLine cd line).dataPoints ≠ []) ∧
    (parseMermaid "x-axis []").xAxis = [""] ∧
    (parseMermaid "line []").dataPoints = [JSNum.nan] := by
  refine ⟨?_, ?_, by decide!, by decide!⟩
  · intro hk
    have hx : (processLine cd line).xAxis
        = (inner.splitOn ',').map (fun s => String.mk (trim s)) := by
      rw [processLine_byKind, hk]
      exact stepXAxis_const line inner hm cd.xAxis
    have hlen : (processLine cd line).xAxis.length = inner.count ',' + 1 := by
      rw [hx, List.length_map, length_splitOn]
    exact ⟨hlen, fun h => by rw [h] at hlen; simp at hlen⟩
  · intro hk
    have hx : (processLine cd line).dataPoints
        = (inner.splitOn ',').map (fun s => parseFloat (trim s)) := by
      rw [processLine_byKind, hk]
      exact stepSeries_const line inner hm cd.dataPoints
    have hlen : (processLine cd line).dataPoints.length = inner.count ',' + 1 := by
      rw [hx, List.length_map, length_splitOn]
    exact ⟨hlen, fun h => by rw [h] at hlen; simp at hlen⟩

theorem bracket_list_length_witness :
    (kindOf "x-axis [a, b, c] [d]".toList = Kind.xAxis →
      (processLine defaultChartData "x-axis [a, b, c] [d]".toList).xAxis.length
        = "a, b, c".toList.count ',' + 1 ∧
      (processLine defaultChartData "x-axis [a, b, c] [d]".toList).xAxis ≠ []) ∧
    (kindOf "x-axis [a, b, c] [d]".toList = Kind.series →
      (processLine defaultChartData "x-axis [a, b, c] [d]".toList).dataPoints.length
        = "a, b, c".toList.count ',' + 1 ∧
      (processLine defaultChartData "x-axis [a, b, c] [d]".toList).dataPoints ≠ []) ∧
    (parseMermaid "x-axis []").xAxis = [""] ∧
    (parseMermaid "line []").dataPoints = [JSNum.nan] :=
  bracket_list_length defaultChartData "x-axis [a, b, c] [d]".toList "a, b, c".toList
    (by decide)

/-! ## Decimal numerals of natural numbers -/

theorem toDigitsCore_append (fuel n : Nat) (ds : List Char) :
    Nat.toDigitsCore 10 fuel n ds = Nat.toDigitsCore 10 fuel n [] ++ ds := by
  induction fuel generalizing n ds with
  | zero => rfl
  | succ fuel ih =>
    simp only [Nat.toDigitsCore]
    split
    · rfl
    · rw [ih (n / 10) (Nat.digitChar (n % 10) :: ds), ih (n / 10) [Nat.digitChar (n % 10)]]
      simp

theorem digitChar_value (m : Nat) (h : m < 10) : (Nat.digitChar m).toNat - 48 = m := by
  interval_cases m <;> rfl

theorem decimalValue_append_singleton (xs : List Char) (d : Char) :
    decimalValue (xs ++ [d]) = 10 * decimalValue xs + (d.toNat - 48) := by
  simp [decimalValue, List.foldl_append]

theorem decimalValue_toDigitsCore (fuel n : Nat) (h : n < fuel) :
    decimalValue (Nat.toDigitsCore 10 fuel n []) = n := by
  induction fuel generalizing n with
  | zero => exact absurd h (Nat.not_lt_zero _)
  | succ fuel ih =>
    simp only [Nat.toDigitsCore]
    split
    · rename_i h0
      have hn : n < 10 := by omega
      show decimalValue ([Nat.digitChar (n % 10)]) = n
      have := decimalValue_append_singleton [] (Nat.digitChar (n % 10))
      simp only [List.nil_append] at this
      rw [this, digitChar_value _ (Nat.mod_lt _ (by decide))]
      simp only [decimalValue, List.foldl_nil]
      omega
    · rename_i h0
      rw [toDigitsCore_append, decimalValue_append_singleton,
        digitChar_value _ (Nat.mod_lt _ (by decide)), ih (n / 10) (by omega)]
      omega

/-- The decimal numeral that `toString` writes for a natural number reads back as that
number. -/
theorem decimalValue_toString (n : Nat) : decimalValue (toString n).toList = n := by
  show decimalValue (Nat.toDigitsCore 10 (n + 1) n []) = n
  exact decimalValue_toDigitsCore (n + 1) n (Nat.lt_succ_self n)

theorem toString_nat_injective : Function.Injective (fun n : Nat => toString n) := by
  intro n m h
  have h' : decimalValue (toString n).toList = decimalValue (toString m).toList :=
    congrArg (fun s : String => decimalValue s.toList) h
  rw [decimalValue_toString, decimalValue_toString] at h'
  exact h'

theorem tagged_id_injective (tag : String) :
    Function.Injective (fun i : Nat => tag ++ toString i) := by
  intro i j h
  have h' : (tag ++ toString i).data = (tag ++ toString j).data := congrArg String.data h
  rw [String.data_append, String.data_append] at h'
  have h2 := List.append_cancel_left h'
  apply toString_nat_injective
  show toString i = toString j
  exact String.ext h2

/-! ## The category labels of the document -/

theorem xLabel_enumFrom (g : Geometry) (k : Nat) (labels : List String) :
    ((labels.enumFrom k).map (Function.uncurry (fun i label =>
        if i < g.points.length then
          match g.points[i]? with
          | some p => [xLabelCell g i label p]
          | none => []
        else []))).flatten
      = ((List.zip labels (g.points.drop k)).enumFrom k).map
          (fun e => xLabelCell g e.1 e.2.1 e.2.2) := by
  induction labels generalizing k with
  | nil => rfl
  | cons label rest ih =>
    simp only [List.enumFrom_cons, List.map_cons, List.flatten_cons, Function.uncurry_apply_pair]
    rw [ih (k + 1)]
    by_cases hk : k < g.points.length
    · rw [if_pos hk, List.getElem?_eq_getElem hk, List.drop_eq_getElem_cons hk]
      rfl
    · rw [if_neg hk]
      have h1 : g.points.drop k = [] := List.drop_eq_nil_of_le (by omega)
      have h2 : g.points.drop (k + 1) = [] := List.drop_eq_nil_of_le (by omega)
      rw [h1, h2]
      simp

/-- The category labels, one for each pair of a label and a point with the same index. -/
theorem xLabelCells_eq (cd : ChartData) (g : Geometry) :
    xLabelCells cd g
      = ((List.zip cd.xAxis g.points).enum).map (fun e => xLabelCell g e.1 e.2.1 e.2.2) := by
  unfold xLabelCells
  rw [List.mapIdx_eq_enum_map]
  exact xLabel_enumFrom g 0 cd.xAxis

theorem xLabelCells_ids (cd : ChartData) (g : Geometry) :
    (xLabelCells cd g).map (·.id)
      = (List.range (min cd.xAxis.length g.points.length)).map
          (fun i => "xlabel-" ++ toString i) := by
  rw [xLabelCells_eq, List.map_map]
  have : ((fun c : MxCell => c.id) ∘ fun e : Nat × String × Point =>
      xLabelCell g e.1 e.2.1 e.2.2) = (fun i => "xlabel-" ++ toString i) ∘ Prod.fst := by
    funext e
    rfl
  rw [this, ← List.map_map, List.enum_map_fst, List.length_zip]

/-! ## C15: the identifiers of a document -/

theorem nodup_append_heads (hs1 hs2 : List Char) (l1 l2 : List String) (n1 : l1.Nodup)
    (n2 : l2.Nodup) (h1 : HeadIn hs1 l1) (h2 : HeadIn hs2 l2) (hd : ∀ h ∈ hs1, h ∉ hs2) :
    (l1 ++ l2).Nodup := by
  rw [List.nodup_append]
  refine ⟨n1, n2, ?_⟩
  intro s hs1' hs2'
  obtain ⟨x, hx, hx'⟩ := h1 s hs1'
  obtain ⟨y, hy, hy'⟩ := h2 s hs2'
  rw [hx'] at hy'
  have : x = y := Option.some.inj hy'
  subst this
  exact hd x hx hy

theorem headIn_append (hs1 hs2 : List Char) (l1 l2 : List String) (h1 : HeadIn hs1 l1)
    (h2 : HeadIn hs2 l2) : HeadIn (hs1 ++ hs2) (l1 ++ l2) := by
  intro s hs
  rcases List.mem_append.1 hs with h | h
  · obtain ⟨x, hx, hx'⟩ := h1 s h
    exact ⟨x, List.mem_append_left _ hx, hx'⟩
  · obtain ⟨x, hx, hx'⟩ := h2 s h
    exact ⟨x, List.mem_append_right _ hx, hx'⟩

theorem headIn_map_id (hs : List Char) (l : List MxCell)
    (h : ∀ c ∈ l, ∃ x ∈ hs, idHead c = some x) : HeadIn hs (l.map (·.id)) := by
  intro s hs'
  obtain ⟨c, hc, rfl⟩ := List.mem_map.1 hs'
  exact h c hc

theorem headIn_frameCells (g : Geometry) :
    HeadIn ['0', '1', 'a'] ((frameCells g).map (·.id)) := by
  apply headIn_map_id
  intro c hc
  rcases idHead_frameCells g c hc with h | h | h
  · exact ⟨'0', by decide, h⟩
  · exact ⟨'1', by decide, h⟩
  · exact ⟨'a', by decide, h⟩

theorem headIn_xLabelCells (cd : ChartData) (g : Geometry) :
    HeadIn ['x'] ((xLabelCells cd g).map (·.id)) := by
  apply headIn_map_id
  intro c hc
  exact ⟨'x', by decide, idHead_xLabelCells cd g c hc⟩

theorem headIn_tickCells (cd : ChartData) (g : Geometry) :
    HeadIn ['y', 'g'] ((tickCells cd g).map (·.id)) := by
  apply headIn_map_id
  intro c hc
  rcases idHead_tickCells cd g c hc with h | h
  · exact ⟨'y', by decide, h⟩
  · exact ⟨'g', by decide, h⟩

theorem headIn_seriesCells (cd : ChartData) (g : Geometry) :
    HeadIn ['l', 'p'] ((seriesCells cd g).map (·.id)) := by
  apply headIn_map_id
  intro c hc
  rcases idHead_seriesCells cd g c hc with h | h
  · exact ⟨'l', by decide, h⟩
  · exact ⟨'p', by decide, h⟩

theorem nodup_frame_ids (g : Geometry) : ((frameCells g).map (·.id)).Nodup := by
  have : (frameCells g).map (·.id) = ["0", "1", "axis-y", "axis-x"] := rfl
  rw [this]
  decide

theorem nodup_tick_ids (cd : ChartData) (g : Geometry) :
    ((tickCells cd g).map (·.id)).Nodup := by
  have : (tickCells cd g).map (·.id)
      = ["ylabel-0", "ylabel-1", "grid-1", "ylabel-2", "grid-2", "ylabel-3", "grid-3",
         "ylabel-4", "grid-4", "ylabel-5", "grid-5"] := by
    simp [tickCells, steps, List.range_succ, yLabelCell, gridCell, vertexCell, edgeCell]
    decide
  rw [this]
  decide

theorem nodup_xLabel_ids (cd : ChartData) (g : Geometry) :
    ((xLabelCells cd g).map (·.id)).Nodup := by
  rw [xLabelCells_ids]
  exact (List.nodup_range _).map (tagged_id_injective "xlabel-")

theorem hasTag_line_of_not_point (cd : ChartData) (g : Geometry) (c : MxCell)
    (hc : c ∈ seriesCells cd g) : (!hasTag "point-" c) = hasTag "line-" c := by
  simp only [seriesCells, List.mem_flatten, List.mem_map] at hc
  obtain ⟨l, ⟨i, _, rfl⟩, hcl⟩ := hc
  unfold seriesStep at hcl
  split at hcl
  · simp at hcl
  · rcases List.mem_append.1 hcl with h | h
    · split at h
      · split at h
        · simp only [List.mem_singleton] at h
          subst h
          rw [hasTag_point_lineCell, hasTag_line_lineCell]
          rfl
        · simp at h
      · simp at h
    · simp only [List.mem_singleton] at h
      subst h
      rw [hasTag_point_pointCell, hasTag_line_pointCell]
      rfl

theorem nodup_series_ids (cd : ChartData) (g : Geometry) :
    ((seriesCells cd g).map (·.id)).Nodup := by
  have hperm := (List.filter_append_perm (hasTag "point-") (seriesCells cd g)).map (·.id)
  rw [← hperm.nodup_iff, List.map_append, seriesCells_points]
  have hline : (seriesCells cd g).filter (fun c => !hasTag "point-" c)
      = (seriesCells cd g).filter (hasTag "line-") :=
    List.filter_congr (fun c hc => hasTag_line_of_not_point cd g c hc)
  rw [hline, seriesCells_lines]
  apply nodup_append_heads ['p'] ['l']
  · exact (List.nodup_range _).map (tagged_id_injective "point-")
  · exact (List.nodup_range _).map (tagged_id_injective "line-")
  · intro s hs
    obtain ⟨i, _, rfl⟩ := List.mem_map.1 hs
    exact ⟨'p', by decide, rfl⟩
  · intro s hs
    obtain ⟨i, _, rfl⟩ := List.mem_map.1 hs
    exact ⟨'l', by decide, rfl⟩
  · decide

/-- C15. For every chart model and geometry, the identifiers of the primitives of the
document built by `generateDrawioXML` are pairwise distinct. -/
theorem ids_distinct (now : String) (cd : ChartData) (g : Geometry) :
    (cellIds (generateDrawioXML now cd g)).Nodup ∧
    cellIds (generateDrawioXML now cd g)
      = ["0", "1", "axis-y", "axis-x"]
        ++ (List.range (min cd.xAxis.length g.points.length)).map
            (fun i => "xlabel-" ++ toString i)
        ++ ["ylabel-0", "ylabel-1", "grid-1", "ylabel-2", "grid-2", "ylabel-3", "grid-3",
            "ylabel-4", "grid-4", "ylabel-5", "grid-5"]
        ++ (seriesCells cd g).map (·.id)
        ++ ["title"] := by
  have hids : cellIds (generateDrawioXML now cd g)
      = (frameCells g).map (·.id) ++ (xLabelCells cd g).map (·.id)
        ++ (tickCells cd g).map (·.id) ++ (seriesCells cd g).map (·.id)
        ++ [titleCell cd g].map (·.id) := by
    simp only [cellIds, generateDrawioXML, List.map_append]
  have htick : (tickCells cd g).map (·.id)
      = ["ylabel-0", "ylabel-1", "grid-1", "ylabel-2", "grid-2", "ylabel-3", "grid-3",
         "ylabel-4", "grid-4", "ylabel-5", "grid-5"] := by
    simp [tickCells, steps, List.range_succ, yLabelCell, gridCell, vertexCell, edgeCell]
    decide
  refine ⟨?_, ?_⟩
  · rw [hids]
    have n1 := nodup_append_heads _ _ _ _ (nodup_frame_ids g) (nodup_xLabel_ids cd g)
      (headIn_frameCells g) (headIn_xLabelCells cd g) (by decide)
    have h1 := headIn_append _ _ _ _ (headIn_frameCells g) (headIn_xLabelCells cd g)
    have n2 := nodup_append_heads _ _ _ _ n1 (nodup_tick_ids cd g) h1
      (headIn_tickCells cd g) (by decide)
    have h2 := headIn_append _ _ _ _ h1 (headIn_tickCells cd g)
    have n3 := nodup_append_heads _ _ _ _ n2 (nodup_series_ids cd g) h2
      (headIn_seriesCells cd g) (by decide)
    have h3 := headIn_append _ _ _ _ h2 (headIn_seriesCells cd g)
    refine nodup_append_heads _ ['t'] _ _ n3 (List.nodup_singleton _) h3 ?_ (by decide)
    intro s hs
    rw [List.mem_singleton.1 hs]
    exact ⟨'t', by decide, rfl⟩
  · rw [hids, xLabelCells_ids, htick]
    rfl

/-! ## C17: the category labels -/

theorem filter_xlabel_xLabelCells (cd : ChartData) (g : Geometry) :
    (xLabelCells cd g).filter (hasTag "xlabel-") = xLabelCells cd g := by
  rw [List.filter_eq_self]
  intro c hc
  rw [xLabelCells_eq] at hc
  obtain ⟨e, _, rfl⟩ := List.mem_map.1 hc
  exact hasTag_of_id _ (toString e.1) _ rfl

theorem xlabels_eq (now : String) (cd : ChartData) (g : Geometry) :
    cellsTagged "xlabel-" (generateDrawioXML now cd g) = xLabelCells cd g := by
  have e1 : (frameCells g).filter (hasTag "xlabel-") = [] := by
    apply filter_tag_eq_nil "xlabel-" 'x' _ rfl
    intro c hc
    rcases idHead_frameCells g c hc with h | h | h <;> rw [h] <;> decide
  have e2 : (tickCells cd g).filter (hasTag "xlabel-") = [] := by
    apply filter_tag_eq_nil "xlabel-" 'x' _ rfl
    intro c hc
    rcases idHead_tickCells cd g c hc with h | h <;> rw [h] <;> decide
  have e3 : (seriesCells cd g).filter (hasTag "xlabel-") = [] := by
    apply filter_tag_eq_nil "xlabel-" 'x' _ rfl
    intro c hc
    rcases idHead_seriesCells cd g c hc with h | h <;> rw [h] <;> decide
  have e4 : [titleCell cd g].filter (hasTag "xlabel-") = [] := by
    apply filter_tag_eq_nil "xlabel-" 'x' _ rfl
    intro c hc
    rw [List.mem_singleton.1 hc, idHead_titleCell]
    decide
  simp only [cellsTagged, generateDrawioXML, List.filter_append, e1, e2, e3, e4,
    filter_xlabel_xLabelCells, List.nil_append, List.append_nil]

/-- C17. For every chart model and geometry, the document has a category label
`xlabel-i` exactly for the indices `i < min(xAxis.length, points.length)`; the label
`xlabel-i` has the value `xAxis[i]` and is a box of width 40 whose left edge is at
`points[i].x - 20`, so that it is centred on the point, at `y = height - padding + 5`, which
is 345 for the geometry of `calculateGeometry`. -/
theorem category_labels (now : String) (cd : ChartData) (g : Geometry) :
    (cellsTagged "xlabel-" (generateDrawioXML now cd g)).map (·.id)
      = (List.range (min cd.xAxis.length g.points.length)).map
          (fun i => "xlabel-" ++ toString i) ∧
    (cellsTagged "xlabel-" (generateDrawioXML now cd g)).map
        (fun c => (c.id, c.value, c.geometry))
      = ((List.zip cd.xAxis g.points).enum).map (xLabelEntry g) ∧
    (calculateGeometry cd).height - (calculateGeometry cd).padding + 5 = JSNum.fin 345 := by
  refine ⟨?_, ?_, ?_⟩
  · rw [xlabels_eq, xLabelCells_ids]
  · rw [xlabels_eq, xLabelCells_eq, List.map_map]
    rfl
  · show height - padding + 5 = JSNum.fin 345
    decide!

/-! ## The coordinates of the points -/

theorem points_getElem? (cd : ChartData) (i : Nat) :
    (calculateGeometry cd).points[i]?
      = cd.dataPoints[i]?.map (fun v => ({ x := xCoordinate cd i, y := yCoordinate cd v } : Point)) := by
  simp only [calculateGeometry, List.getElem?_mapIdx]
  rfl

theorem toBinary64_le_posInf (q : ℚ) : (toBinary64 q).le JSNum.posInf = true := by
  unfold toBinary64
  split_ifs <;> rfl

theorem negInf_le_toBinary64 (q : ℚ) : JSNum.negInf.le (toBinary64 q) = true := by
  unfold toBinary64
  split_ifs <;> rfl

theorem posInf_sub_fin (a : ℚ) : JSNum.posInf - JSNum.fin a = JSNum.posInf := rfl

theorem negInf_sub_fin (a : ℚ) : JSNum.negInf - JSNum.fin a = JSNum.negInf := rfl

theorem fin_sub_posInf (a : ℚ) : JSNum.fin a - JSNum.posInf = JSNum.negInf := rfl

theorem fin_sub_negInf (a : ℚ) : JSNum.fin a - JSNum.negInf = JSNum.posInf := rfl

theorem posInf_div_fin (c : ℚ) (hc : 0 < c) : JSNum.posInf / JSNum.fin c = JSNum.posInf := by
  show JSNum.div _ _ = _
  simp [JSNum.div, hc.le]

theorem negInf_div_fin (c : ℚ) (hc : 0 < c) : JSNum.negInf / JSNum.fin c = JSNum.negInf := by
  show JSNum.div _ _ = _
  simp [JSNum.div, hc.le]

theorem posInf_mul_fin (c : ℚ) (hc : 0 < c) : JSNum.posInf * JSNum.fin c = JSNum.posInf := by
  show JSNum.mul _ _ = _
  simp [JSNum.mul, JSNum.infTimes, hc, ne_of_gt hc]

theorem negInf_mul_fin (c : ℚ) (hc : 0 < c) : JSNum.negInf * JSNum.fin c = JSNum.negInf := by
  show JSNum.mul _ _ = _
  simp [JSNum.mul, JSNum.infTimes, hc, ne_of_gt hc]

/-- Subtracting a finite number is monotone. -/
theorem sub_fin_mono (v1 v2 : JSNum) (a : ℚ) (h : v1.le v2 = true) :
    (v1 - JSNum.fin a).le (v2 - JSNum.fin a) = true := by
  cases v1 <;> cases v2 <;> simp only [JSNum.le, Bool.false_eq_true] at h
  · rw [fin_sub, fin_sub]
    exact toBinary64_le (by simp only [decide_eq_true_eq] at h; linarith)
  · rw [fin_sub, posInf_sub_fin]
    exact toBinary64_le_posInf _
  · rfl
  · rw [fin_sub, negInf_sub_fin]
    exact negInf_le_toBinary64 _
  · rfl
  · rfl

/-- Dividing by a positive finite number is monotone. -/
theorem div_fin_mono (v1 v2 : JSNum) (c : ℚ) (hc : 0 < c) (h : v1.le v2 = true) :
    (v1 / JSNum.fin c).le (v2 / JSNum.fin c) = true := by
  cases v1 <;> cases v2 <;> simp only [JSNum.le, Bool.false_eq_true] at h
  · rw [fin_div _ _ (ne_of_gt hc), fin_div _ _ (ne_of_gt hc)]
    simp only [decide_eq_true_eq] at h
    exact toBinary64_le (div_le_div_of_nonneg_right h hc.le)
  · rw [fin_div _ _ (ne_of_gt hc), posInf_div_fin c hc]
    exact toBinary64_le_posInf _
  · rw [posInf_div_fin c hc]
    rfl
  · rw [fin_div _ _ (ne_of_gt hc), negInf_div_fin c hc]
    exact negInf_le_toBinary64 _
  · rw [posInf_div_fin c hc, negInf_div_fin c hc]
    rfl
  · rw [negInf_div_fin c hc]
    rfl

/-- Multiplying by a positive finite number is monotone. -/
theorem mul_fin_mono (v1 v2 : JSNum) (c : ℚ) (hc : 0 < c) (h : v1.le v2 = true) :
    (v1 * JSNum.fin c).le (v2 * JSNum.fin c) = true := by
  cases v1 <;> cases v2 <;> simp only [JSNum.le, Bool.false_eq_true] at h
  · rw [fin_mul, fin_mul]
    simp only [decide_eq_true_eq] at h
    exact toBinary64_le (mul_le_mul_of_nonneg_right h hc.le)
  · rw [fin_mul, posInf_mul_fin c hc]
    exact toBinary64_le_posInf _
  · rw [posInf_mul_fin c hc]
    rfl
  · rw [fin_mul, negInf_mul_fin c hc]
    exact negInf_le_toBinary64 _
  · rw [posInf_mul_fin c hc, negInf_mul_fin c hc]
    rfl
  · rw [negInf_mul_fin c hc]
    rfl

/-- Subtracting from a finite number reverses the order. -/
theorem fin_sub_anti (k : ℚ) (v1 v2 : JSNum) (h : v1.le v2 = true) :
    (JSNum.fin k - v2).le (JSNum.fin k - v1) = true := by
  cases v1 <;> cases v2 <;> simp only [JSNum.le, Bool.false_eq_true] at h
  · rw [fin_sub, fin_sub]
    simp only [decide_eq_true_eq] at h
    exact toBinary64_le (by linarith)
  · rw [fin_sub, fin_sub_posInf]
    exact negInf_le_toBinary64 _
  · rfl
  · rw [fin_sub, fin_sub_negInf]
    exact toBinary64_le_posInf _
  · rfl
  · rfl

theorem yCoordinate_antitone (cd : ChartData) (a c : ℚ) (hmin : cd.yAxis.min = JSNum.fin a)
    (hr : cd.yAxis.max - cd.yAxis.min = JSNum.fin c) (hc : 0 < c) (v1 v2 : JSNum)
    (hle : JSNum.le v1 v2 = true) :
    JSNum.le (yCoordinate cd v2) (yCoordinate cd v1) = true := by
  unfold yCoordinate
  rw [hr, hmin, graphHeight_eq, height_eq, padding_eq]
  have h340 : JSNum.fin 400 - JSNum.fin 60 = JSNum.fin 340 := by decide!
  rw [h340]
  exact fin_sub_anti _ _ _ (mul_fin_mono _ _ _ (by norm_num)
    (div_fin_mono _ _ _ hc (sub_fin_mono _ _ _ hle)))

theorem yCoordinate_min (cd : ChartData) (a c : ℚ) (hmin : cd.yAxis.min = JSNum.fin a)
    (hr : cd.yAxis.max - cd.yAxis.min = JSNum.fin c) (hc : 0 < c) :
    yCoordinate cd cd.yAxis.min = JSNum.fin 340 := by
  unfold yCoordinate
  have h0 : toBinary64 0 = JSNum.fin 0 := by decide!
  rw [hr, hmin, graphHeight_eq, fin_sub, sub_self, h0, fin_div _ _ (ne_of_gt hc), zero_div, h0,
    fin_mul, zero_mul, h0]
  decide!

theorem yCoordinate_max (cd : ChartData) (c : ℚ)
    (hr : cd.yAxis.max - cd.yAxis.min = JSNum.fin c) (hc : 0 < c) :
    yCoordinate cd cd.yAxis.max = JSNum.fin 60 := by
  unfold yCoordinate
  rw [hr, graphHeight_eq, fin_div _ _ (ne_of_gt hc), div_self (ne_of_gt hc)]
  decide!

/-! ## C18: the y-coordinate -/

/-- C18, counterexample. When the upper bound of the value axis is a numeral beyond the
binary64 range, such as `1` followed by 309 zeros, `max` is `Infinity`, which is above
`min = 0`, and the series value `v = max` is drawn at `y = NaN`, not at `y = 60`. -/
theorem overflow_counterexample :
    (parseMermaid overflowText).yAxis.min = JSNum.fin 0 ∧
    (parseMermaid overflowText).yAxis.max = JSNum.posInf ∧
    JSNum.lt (parseMermaid overflowText).yAxis.min (parseMermaid overflowText).yAxis.max = true ∧
    (parseMermaid overflowText).dataPoints = [(parseMermaid overflowText).yAxis.max] ∧
    (calculateGeometry (parseMermaid overflowText)).points.map (·.y) = [JSNum.nan] ∧
    (calculateGeometry (parseMermaid overflowText)).points.map (·.y) ≠ [JSNum.fin 60] := by
  decide!

/-- C18, amended. For every chart model with a finite `min` and a finite positive range
`max - min` (as the program computes it), `calculateGeometry` maps a series value `v` to the
binary64 value of `y = (height - padding) - ((v - min)/(max - min)) * graphHeight`; the
value `min` is drawn at `y = 340`, the value `max` at `y = 60`, and of two values
`v1 <= v2` the larger is drawn at least as high: `y(v1) >= y(v2)`. -/
theorem y_coordinate (cd : ChartData) (a c : ℚ) (hmin : cd.yAxis.min = JSNum.fin a)
    (hr : cd.yAxis.max - cd.yAxis.min = JSNum.fin c) (hc : 0 < c) :
    (∀ (i : ℕ) (v : JSNum), cd.dataPoints[i]? = some v →
      (calculateGeometry cd).points[i]?.map (·.y)
        = some ((height - padding) -
            (((v - cd.yAxis.min) / (cd.yAxis.max - cd.yAxis.min)) * graphHeight))) ∧
    (∀ i : ℕ, cd.dataPoints[i]? = some cd.yAxis.min →
      (calculateGeometry cd).points[i]?.map (·.y) = some (JSNum.fin 340)) ∧
    (∀ i : ℕ, cd.dataPoints[i]? = some cd.yAxis.max →
      (calculateGeometry cd).points[i]?.map (·.y) = some (JSNum.fin 60)) ∧
    (∀ (i j : ℕ) (v1 v2 : JSNum) (p1 p2 : Point), cd.dataPoints[i]? = some v1 → cd.dataPoints[j]? = some v2 →
      (calculateGeometry cd).points[i]? = some p1 →
      (calculateGeometry cd).points[j]? = some p2 →
      JSNum.le v1 v2 = true → JSNum.le p2.y p1.y = true) := by
  have hy : ∀ (i : ℕ) (v : JSNum), cd.dataPoints[i]? = some v →
      (calculateGeometry cd).points[i]?.map (·.y) = some (yCoordinate cd v) := by
    intro i v hv
    rw [points_getElem?, hv]
    rfl
  refine ⟨hy, ?_, ?_, ?_⟩
  · intro i hv
    rw [hy i _ hv, yCoordinate_min cd a c hmin hr hc]
  · intro i hv
    rw [hy i _ hv, yCoordinate_max cd c hr hc]
  · intro i j v1 v2 p1 p2 h1 h2 hp1 hp2 hle
    rw [points_getElem?, h1] at hp1
    rw [points_getElem?, h2] at hp2
    simp only [Option.map_some', Option.some.injEq] at hp1 hp2
    rw [← hp1, ← hp2]
    exact yCoordinate_antitone cd a c hmin hr hc v1 v2 hle

theorem y_coordinate_witness :
    (∀ (i : ℕ) (v : JSNum), (parseMermaid salesText).dataPoints[i]? = some v →
      (calculateGeometry (parseMermaid salesText)).points[i]?.map (·.y)
        = some ((height - padding) -
            (((v - (parseMermaid salesText).yAxis.min) /
              ((parseMermaid salesText).yAxis.max - (parseMermaid salesText).yAxis.min))
              * graphHeight))) ∧
    (∀ i : ℕ, (parseMermaid salesText).dataPoints[i]? = some (parseMermaid salesText).yAxis.min →
      (calculateGeometry (parseMermaid salesText)).points[i]?.map (·.y) = some (JSNum.fin 340)) ∧
    (∀ i : ℕ, (parseMermaid salesText).dataPoints[i]? = some (parseMermaid salesText).yAxis.max →
      (calculateGeometry (parseMermaid salesText)).points[i]?.map (·.y) = some (JSNum.fin 60)) ∧
    (∀ (i j : ℕ) (v1 v2 : JSNum) (p1 p2 : Point), (parseMermaid salesText).dataPoints[i]? = some v1 →
      (parseMermaid salesText).dataPoints[j]? = some v2 →
      (calculateGeometry (parseMermaid salesText)).points[i]? = some p1 →
      (calculateGeometry (parseMermaid salesText)).points[j]? = some p2 →
      JSNum.le v1 v2 = true → JSNum.le p2.y p1.y = true) :=
  y_coordinate (parseMermaid salesText) 0 100 (by decide!) (by decide!) (by norm_num)

/-! ## C19: the x-coordinates -/

/-- The step between two points is between `420 / 2^32` and `420`, and within a relative
error of `2^-53` of `420 / (L - 1)`. -/
theorem xStepQ_bounds (L : ℕ) (hL : 2 ≤ L) (hL32 : L ≤ 2 ^ 32) :
    105 / 2 ^ 30 ≤ nearest (420 / ((L : ℚ) - 1)) ∧ nearest (420 / ((L : ℚ) - 1)) ≤ 420 ∧
    |((L : ℚ) - 1) * nearest (420 / ((L : ℚ) - 1)) - 420| ≤ 420 / 2 ^ 53 + 2 ^ 32 / 2 ^ 1075 := by
  have h1 : (1 : ℚ) ≤ (L : ℚ) - 1 := by
    have : (2 : ℚ) ≤ L := by exact_mod_cast hL
    linarith
  have h2 : (L : ℚ) - 1 ≤ 2 ^ 32 := by
    have : (L : ℚ) ≤ 2 ^ 32 := by exact_mod_cast hL32
    linarith
  have hpos : (0 : ℚ) < (L : ℚ) - 1 := by linarith
  have q1 : 420 / ((L : ℚ) - 1) ≤ 420 := by
    rw [div_le_iff₀ hpos]
    nlinarith
  have q0 : (105 : ℚ) / 2 ^ 30 ≤ 420 / ((L : ℚ) - 1) := by
    rw [le_div_iff₀ hpos]
    have : (105 : ℚ) / 2 ^ 30 * 2 ^ 32 = 420 := by norm_num
    nlinarith
  have e0 : nearest ((105 : ℚ) / 2 ^ 30) = 105 / 2 ^ 30 := by
    have h := nearest_exact 105 (-30) (by norm_num) (by norm_num)
    have e : ((105 : ℤ) : ℚ) * 2 ^ (-30 : ℤ) = 105 / 2 ^ 30 := by
      rw [zpow_neg]
      norm_num
    rw [e] at h
    exact h
  have s0 := nearest_mono q0
  rw [e0] at s0
  have s1 : nearest (420 / ((L : ℚ) - 1)) ≤ 420 := by
    have := nearest_le_natCast (q := 420 / ((L : ℚ) - 1)) (n := 420) (by simpa using q1)
      (by norm_num)
    simpa using this
  refine ⟨s0, s1, ?_⟩
  have er := nearest_error (420 / ((L : ℚ) - 1))
  rw [abs_of_nonneg (div_nonneg (by norm_num) hpos.le)] at er
  have e : ((L : ℚ) - 1) * nearest (420 / ((L : ℚ) - 1)) - 420
      = ((L : ℚ) - 1) * (nearest (420 / ((L : ℚ) - 1)) - 420 / ((L : ℚ) - 1)) := by
    field_simp
    ring
  rw [e, abs_mul, abs_of_pos hpos]
  have e2 : ((L : ℚ) - 1) * (420 / ((L : ℚ) - 1) / 2 ^ 53 + 1 / 2 ^ 1075)
      = 420 / 2 ^ 53 + ((L : ℚ) - 1) / 2 ^ 1075 := by
    field_simp
    ring
  calc ((L : ℚ) - 1) * |nearest (420 / ((L : ℚ) - 1)) - 420 / ((L : ℚ) - 1)|
      ≤ ((L : ℚ) - 1) * (420 / ((L : ℚ) - 1) / 2 ^ 53 + 1 / 2 ^ 1075) :=
        mul_le_mul_of_nonneg_left er hpos.le
    _ = 420 / 2 ^ 53 + ((L : ℚ) - 1) / 2 ^ 1075 := e2
    _ ≤ 420 / 2 ^ 53 + 2 ^ 32 / 2 ^ 1075 := by
        have : ((L : ℚ) - 1) / 2 ^ 1075 ≤ 2 ^ 32 / 2 ^ 1075 :=
          div_le_div_of_nonneg_right h2 (by positivity)
        linarith

/-- The product `i * xStep` for an index `i ≤ L - 1`: it is between `0` and `421`, and
within a relative error of `2^-53` of the exact product. -/
theorem xProductQ_bounds (L i : ℕ) (hL : 2 ≤ L) (hL32 : L ≤ 2 ^ 32) (hi : i < L) :
    0 ≤ (i : ℚ) * nearest (420 / ((L : ℚ) - 1)) ∧
    (i : ℚ) * nearest (420 / ((L : ℚ) - 1)) ≤ 420 + 1 / 2 ^ 40 ∧
    0 ≤ nearest ((i : ℚ) * nearest (420 / ((L : ℚ) - 1))) ∧
    nearest ((i : ℚ) * nearest (420 / ((L : ℚ) - 1))) ≤ 421 ∧
    |nearest ((i : ℚ) * nearest (420 / ((L : ℚ) - 1))) - (i : ℚ) * nearest (420 / ((L : ℚ) - 1))|
      ≤ 421 / 2 ^ 53 + 1 / 2 ^ 1075 := by
  obtain ⟨s0, s1, s2⟩ := xStepQ_bounds L hL hL32
  have s2' := abs_le.1 s2
  set s := nearest (420 / ((L : ℚ) - 1)) with hs
  have spos : 0 ≤ s := le_trans (by positivity) s0
  have hi0 : (0 : ℚ) ≤ i := by positivity
  have hiL : (i : ℚ) ≤ (L : ℚ) - 1 := by
    have : i + 1 ≤ L := hi
    have : ((i + 1 : ℕ) : ℚ) ≤ L := by exact_mod_cast this
    push_cast at this
    linarith
  have p0 : 0 ≤ (i : ℚ) * s := mul_nonneg hi0 spos
  have p1 : (i : ℚ) * s ≤ 420 + 1 / 2 ^ 40 := by
    have : (i : ℚ) * s ≤ ((L : ℚ) - 1) * s := mul_le_mul_of_nonneg_right hiL spos
    have c : (420 : ℚ) / 2 ^ 53 + 2 ^ 32 / 2 ^ 1075 ≤ 1 / 2 ^ 40 := by norm_num
    linarith
  have a0 : 0 ≤ nearest ((i : ℚ) * s) := nearest_nonneg p0
  have a1 : nearest ((i : ℚ) * s) ≤ 421 := by
    have := nearest_le_natCast (q := (i : ℚ) * s) (n := 421)
      (by push_cast; have : (1 : ℚ) / 2 ^ 40 ≤ 1 := by norm_num
          linarith) (by norm_num)
    simpa using this
  refine ⟨p0, p1, a0, a1, ?_⟩
  have er := nearest_error ((i : ℚ) * s)
  rw [abs_of_nonneg p0] at er
  have : (i : ℚ) * s / 2 ^ 53 ≤ 421 / 2 ^ 53 := by
    apply div_le_div_of_nonneg_right _ (by positivity)
    have : (1 : ℚ) / 2 ^ 40 ≤ 1 := by norm_num
    linarith
  linarith

/-- The x-coordinate for an index `i ≤ L - 1`: it is between `90` and `511`, and within an
error of `511 / 2^53` of `90 + nearest (i * xStep)`. -/
theorem xCoordinateQ_bounds (L i : ℕ) (hL : 2 ≤ L) (hL32 : L ≤ 2 ^ 32) (hi : i < L) :
    90 ≤ xCoordinateQ L i ∧ xCoordinateQ L i ≤ 511 ∧
    |xCoordinateQ L i - (90 + nearest ((i : ℚ) * nearest (420 / ((L : ℚ) - 1))))|
      ≤ 511 / 2 ^ 53 + 1 / 2 ^ 1075 := by
  obtain ⟨p0, p1, a0, a1, a2⟩ := xProductQ_bounds L i hL hL32 hi
  unfold xCoordinateQ
  set a := nearest ((i : ℚ) * nearest (420 / ((L : ℚ) - 1))) with ha
  refine ⟨?_, ?_, ?_⟩
  · have := natCast_le_nearest (q := 90 + a) (n := 90) (by push_cast; linarith) (by norm_num)
    simpa using this
  · have := nearest_le_natCast (q := 90 + a) (n := 511) (by push_cast; linarith) (by norm_num)
    simpa using this
  · have er := nearest_error (90 + a)
    rw [abs_of_nonneg (show (0 : ℚ) ≤ 90 + a by linarith)] at er
    have : (90 + a) / 2 ^ 53 ≤ 511 / 2 ^ 53 :=
      div_le_div_of_nonneg_right (by linarith) (by positivity)
    linarith

theorem xCoordinateQ_zero (L : ℕ) : xCoordinateQ L 0 = 90 := by
  unfold xCoordinateQ
  simp only [Nat.cast_zero, zero_mul, nearest_zero, add_zero]
  exact nearest_ofNat 90 (by norm_num)

/-- Consecutive x-coordinates differ: the step is far above the rounding errors. -/
theorem xCoordinateQ_strictMono (L i j : ℕ) (hL : 2 ≤ L) (hL32 : L ≤ 2 ^ 32) (hij : i < j)
    (hj : j < L) : xCoordinateQ L i < xCoordinateQ L j := by
  obtain ⟨s0, s1, _⟩ := xStepQ_bounds L hL hL32
  obtain ⟨pi0, pi1, ai0, ai1, ai2⟩ := xProductQ_bounds L i hL hL32 (by omega)
  obtain ⟨pj0, pj1, aj0, aj1, aj2⟩ := xProductQ_bounds L j hL hL32 hj
  obtain ⟨_, _, xi⟩ := xCoordinateQ_bounds L i hL hL32 (by omega)
  obtain ⟨_, _, xj⟩ := xCoordinateQ_bounds L j hL hL32 hj
  have ai2' := abs_le.1 ai2
  have aj2' := abs_le.1 aj2
  have xi' := abs_le.1 xi
  have xj' := abs_le.1 xj
  set s := nearest (420 / ((L : ℚ) - 1)) with hs
  have spos : 0 ≤ s := le_trans (by positivity) s0
  have hstep : (i : ℚ) * s + s ≤ (j : ℚ) * s := by
    have : ((i + 1 : ℕ) : ℚ) ≤ j := by exact_mod_cast hij
    push_cast at this
    nlinarith
  have c : (2 : ℚ) * (421 / 2 ^ 53 + 1 / 2 ^ 1075) + 2 * (511 / 2 ^ 53 + 1 / 2 ^ 1075)
      < 105 / 2 ^ 30 := by norm_num
  linarith

theorem xCoordinate_eq (cd : ChartData) (i : ℕ) (hL : 2 ≤ cd.xAxis.length)
    (hL32 : cd.xAxis.length ≤ 2 ^ 32) (hi : i < cd.xAxis.length) :
    xCoordinate cd i = JSNum.fin (xCoordinateQ cd.xAxis.length i) := by
  obtain ⟨s0, s1, _⟩ := xStepQ_bounds _ hL hL32
  obtain ⟨p0, p1, a0, a1, _⟩ := xProductQ_bounds _ i hL hL32 hi
  have hn : ((cd.xAxis.length - 1 : ℕ) : ℚ) = (cd.xAxis.length : ℚ) - 1 := by
    rw [Nat.cast_sub (by omega)]
    norm_num
  have h1 : (1 : ℚ) ≤ (cd.xAxis.length : ℚ) - 1 := by
    have : (2 : ℚ) ≤ cd.xAxis.length := by exact_mod_cast hL
    linarith
  have hx : xStep cd = JSNum.fin (nearest (420 / ((cd.xAxis.length : ℚ) - 1))) := by
    unfold xStep
    rw [if_pos (by omega), usableWidth_eq]
    show JSNum.fin 420 / (JSNum.ofNat cd.xAxis.length - JSNum.ofNat 1) = _
    rw [ofNat_eq_fin _ (by omega), ofNat_eq_fin 1 (by norm_num), fin_sub, Nat.cast_one, ← hn,
      toBinary64_natCast _ (by omega), hn, fin_div _ _ (by linarith)]
    exact toBinary64_fin (by have : (0 : ℚ) ≤ 420 / ((cd.xAxis.length : ℚ) - 1) :=
                                 div_nonneg (by norm_num) (by linarith)
                             norm_num; linarith)
      (by
        have : 420 / ((cd.xAxis.length : ℚ) - 1) ≤ 420 := by
          rw [div_le_iff₀ (by linarith)]
          nlinarith
        norm_num; linarith)
  have h90 : padding + xOffset = JSNum.fin 90 := by decide!
  unfold xCoordinate xCoordinateQ
  rw [hx, h90, ofNat_eq_fin i (by omega), fin_mul,
    toBinary64_fin (by norm_num; linarith) (by norm_num; linarith), fin_add,
    toBinary64_fin (by norm_num; linarith) (by norm_num; linarith)]

theorem point_x (cd : ChartData) (i : Nat) (p : Point) (hL : 2 ≤ cd.xAxis.length)
    (hL32 : cd.xAxis.length ≤ 2 ^ 32) (hd : cd.dataPoints.length = cd.xAxis.length)
    (hp : (calculateGeometry cd).points[i]? = some p) :
    i < cd.xAxis.length ∧ p.x = JSNum.fin (xCoordinateQ cd.xAxis.length i) := by
  rw [points_getElem?] at hp
  cases hv : cd.dataPoints[i]? with
  | none => rw [hv] at hp; exact Option.noConfusion hp
  | some v =>
    rw [hv] at hp
    simp only [Option.map_some', Option.some.injEq] at hp
    have hi : i < cd.xAxis.length := by
      by_contra hge
      rw [List.getElem?_eq_none (by omega)] at hv
      exact Option.noConfusion hv
    refine ⟨hi, ?_⟩
    rw [← hp]
    exact xCoordinate_eq cd i hL hL32 hi

/-- C19, counterexample. With 40 category labels and 40 values the last point is at
`x = 510 + 2^-44`, not at `510`: the step `420 / 39` is rounded, and so is its product with
`39`. -/
theorem last_point_counterexample :
    fortyPoints.xAxis.length = 40 ∧ fortyPoints.dataPoints.length = 40 ∧
    (calculateGeometry fortyPoints).points.getLast?.map (·.x) = some (JSNum.fin (510 + 1 / 2 ^ 44)) ∧
    (calculateGeometry fortyPoints).points.getLast?.map (·.x) ≠ some (JSNum.fin 510) := by
  decide!

/-- C19, amended. For every chart model with `L` category labels and exactly `L` series
values, `2 ≤ L ≤ 2^32`, the x-coordinates of the points are strictly increasing in the
index, the first is `padding + xOffset = 90` and the last is within `2^-42` of
`width - padding - xOffset = 510`, so that every point lies strictly between
`x = padding = 60` and `x = width - padding = 540`. -/
theorem x_positions (cd : ChartData) (L : Nat) (hL : 2 ≤ L) (hL32 : L ≤ 2 ^ 32)
    (hx : cd.xAxis.length = L) (hd : cd.dataPoints.length = L) :
    (∀ (i j : ℕ) (p q : Point), i < j → (calculateGeometry cd).points[i]? = some p →
      (calculateGeometry cd).points[j]? = some q → JSNum.lt p.x q.x = true) ∧
    (calculateGeometry cd).points.head?.map (·.x) = some (JSNum.fin 90) ∧
    (∃ r : ℚ, (calculateGeometry cd).points.getLast?.map (·.x) = some (JSNum.fin r) ∧
      |r - 510| ≤ 1 / 2 ^ 42) ∧
    padding + xOffset = JSNum.fin 90 ∧ width - padding - xOffset = JSNum.fin 510 ∧
    (∀ p ∈ (calculateGeometry cd).points,
      JSNum.lt padding p.x = true ∧ JSNum.lt p.x (width - padding) = true) := by
  subst hx
  have hlen : (calculateGeometry cd).points.length = cd.xAxis.length := by
    rw [calculateGeometry_points_length, hd]
  have hsome : ∀ i, i < cd.xAxis.length → ∃ p, (calculateGeometry cd).points[i]? = some p := by
    intro i hi
    exact ⟨_, List.getElem?_eq_getElem (by omega)⟩
  refine ⟨?_, ?_, ?_, by decide!, by decide!, ?_⟩
  · intro i j p q hij hp hq
    obtain ⟨_, hpx⟩ := point_x cd i p hL hL32 hd hp
    obtain ⟨hj, hqx⟩ := point_x cd j q hL hL32 hd hq
    rw [hpx, hqx]
    simp only [JSNum.lt, decide_eq_true_eq]
    exact xCoordinateQ_strictMono _ i j hL hL32 hij hj
  · obtain ⟨p, hp⟩ := hsome 0 (by omega)
    rw [List.head?_eq_getElem?, hp, Option.map_some', (point_x cd 0 p hL hL32 hd hp).2,
      xCoordinateQ_zero]
  · obtain ⟨p, hp⟩ := hsome (cd.xAxis.length - 1) (by omega)
    refine ⟨xCoordinateQ cd.xAxis.length (cd.xAxis.length - 1), ?_, ?_⟩
    · rw [List.getLast?_eq_getElem?, hlen, hp, Option.map_some',
        (point_x cd _ p hL hL32 hd hp).2]
    · obtain ⟨_, _, s2⟩ := xStepQ_bounds _ hL hL32
      obtain ⟨_, _, _, _, a2⟩ := xProductQ_bounds _ (cd.xAxis.length - 1) hL hL32 (by omega)
      obtain ⟨_, _, x2⟩ := xCoordinateQ_bounds _ (cd.xAxis.length - 1) hL hL32 (by omega)
      have hn : ((cd.xAxis.length - 1 : ℕ) : ℚ) = (cd.xAxis.length : ℚ) - 1 := by
        rw [Nat.cast_sub (by omega)]
        norm_num
      rw [hn] at a2 x2
      have s2' := abs_le.1 s2
      have a2' := abs_le.1 a2
      have x2' := abs_le.1 x2
      have c : (420 : ℚ) / 2 ^ 53 + 2 ^ 32 / 2 ^ 1075 + (421 / 2 ^ 53 + 1 / 2 ^ 1075)
          + (511 / 2 ^ 53 + 1 / 2 ^ 1075) ≤ 1 / 2 ^ 42 := by norm_num
      rw [abs_le]
      constructor <;> linarith
  · intro p hp
    obtain ⟨i, hi⟩ := List.mem_iff_getElem?.1 hp
    obtain ⟨hlt, hpx⟩ := point_x cd i p hL hL32 hd hi
    obtain ⟨b0, b1, _⟩ := xCoordinateQ_bounds _ i hL hL32 hlt
    have h540 : width - padding = JSNum.fin 540 := by decide!
    rw [hpx, h540, padding_eq]
    simp only [JSNum.lt, decide_eq_true_eq]
    constructor <;> linarith

theorem x_positions_witness :
    (∀ (i j : ℕ) (p q : Point), i < j → (calculateGeometry (parseMermaid salesText)).points[i]? = some p →
      (calculateGeometry (parseMermaid salesText)).points[j]? = some q →
      JSNum.lt p.x q.x = true) ∧
    (calculateGeometry (parseMermaid salesText)).points.head?.map (·.x) = some (JSNum.fin 90) ∧
    (∃ r : ℚ, (calculateGeometry (parseMermaid salesText)).points.getLast?.map (·.x)
        = some (JSNum.fin r) ∧ |r - 510| ≤ 1 / 2 ^ 42) ∧
    padding + xOffset = JSNum.fin 90 ∧ width - padding - xOffset = JSNum.fin 510 ∧
    (∀ p ∈ (calculateGeometry (parseMermaid salesText)).points,
      JSNum.lt padding p.x = true ∧ JSNum.lt p.x (width - padding) = true) :=
  x_positions (parseMermaid salesText) 3 (by decide) (by decide) (by decide!) (by decide!)

end Converter
